import Mathlib

/-!
# Colour analysis engine of `js/colorful-pro.js`

A shallow embedding of the palette pipeline of the `ColorfulPro` class:
candidate deduplication and mode filtering, nearest-candidate pixel
classification, the background filter and the two percentage allocators.

Conventions of the embedding.

* A colour is the JS array `[r, g, b]` of integers, here the structure `Rgb`.
* JS numbers are rationals (`ℚ`); `Math.round` is `⌊x + 1/2⌋`. In `rgbToHsv`,
  `isSkinColor` and the three `simulate...` functions every decimal literal
  and every result of `+ - * /` is rounded to the nearest double (`toDouble`),
  so that these functions return the numbers the code returns, rounding ties
  included. The other functions are evaluated without the intermediate
  rounding of doubles.
* `Math.sqrt` of an integer is kept exactly, by its radicand (`Root`); the
  code only ever compares such a value with another one or with an integer
  literal, and both comparisons are decided on the radicands.
* State read from the page (radio buttons, sliders, check boxes) and
  `Math.random()` are explicit parameters.
-/

namespace ColorfulPro

/-! ## Data model -/

/-- The JS colour array `[r, g, b]`. -/
structure Rgb where
  r : Int
  g : Int
  b : Int
deriving DecidableEq, Repr

/-- The number `Math.sqrt(radicand)`, represented exactly by its radicand. -/
structure Root where
  radicand : Int
deriving DecidableEq, Repr

/-- Comparison `x < y` of two square roots (both radicands non-negative). -/
def Root.lt (x y : Root) : Bool := decide (x.radicand < y.radicand)

/-- Comparison `x < t` of a square root with a non-negative integer literal. -/
def Root.ltNum (x : Root) (t : Nat) : Bool := decide (x.radicand < (t : Int) ^ 2)

/-- Comparison `x ≥ t` of a square root with a non-negative integer literal. -/
def Root.geNum (x : Root) (t : Nat) : Prop := (t : Int) ^ 2 ≤ x.radicand

instance (x : Root) (t : Nat) : Decidable (x.geNum t) := by
  unfold Root.geNum; infer_instance

/-- JS `Math.round`: the nearest integer, halves rounded towards `+∞`. -/
def jsRound (x : ℚ) : Int := ⌊x + 1 / 2⌋

/-- Rounding to the nearest integer, halves to the even neighbour. -/
def roundHalfEven (m : ℚ) : Int :=
  let q := ⌊m⌋
  if m - q < 1 / 2 then q
  else if 1 / 2 < m - q then q + 1
  else if q % 2 = 0 then q else q + 1

/-- A non-negative number rounded to 53 significant bits: with
`2 ^ k ≤ x < 2 ^ (k + 1)` the result is the multiple of `2 ^ (k - 52)` nearest
to `x`, halves to the even multiple. -/
def roundSignificand (x : ℚ) : ℚ :=
  let e := Int.log 2 x - 52
  (roundHalfEven (x / 2 ^ e) : ℚ) * 2 ^ e

/-- The JS number (IEEE 754 binary64, round to nearest, ties to even) that
stands for the real number `x`. The exponent is not bounded: the numbers the
code computes from byte channels are far inside the normal range of doubles,
where overflow and subnormal numbers do not occur. -/
def toDouble (x : ℚ) : ℚ :=
  if 0 ≤ x then roundSignificand x else -roundSignificand (-x)

/-- JS `Math.max(r, g, b)` on integers. -/
def max3 (r g b : Int) : Int := max (max r g) b

/-- JS `Math.min(r, g, b)` on integers. -/
def min3 (r g b : Int) : Int := min (min r g) b

/-! ## Candidate palette: `calculateColorDistance`, `removeDuplicateColors`,
`adjustColorsByMode`, `extractColors` -/

/-- Source `calculateColorDistance(color1, color2)`:
`Math.sqrt(Math.pow(d0, 2) + Math.pow(d1, 2) + Math.pow(d2, 2))`. -/
def calculateColorDistance (color1 color2 : Rgb) : Root :=
  ⟨(color1.r - color2.r) ^ 2 + (color1.g - color2.g) ^ 2 + (color1.b - color2.b) ^ 2⟩

/-- The property names that the object literal `thresholds` inherits from
`Object.prototype`: eleven functions and the accessor `__proto__`. -/
def objectPrototypeMembers : List String :=
  ["constructor", "hasOwnProperty", "isPrototypeOf", "propertyIsEnumerable",
   "toLocaleString", "toString", "valueOf", "__proto__", "__defineGetter__",
   "__defineSetter__", "__lookupGetter__", "__lookupSetter__"]

/-- The lookup `thresholds[mode] || 25` of `removeDuplicateColors`. The own
properties `balanced`, `vibrant`, `muted` give their number. A mode naming an
inherited member gives that member, a function or an object: it is truthy, so
`|| 25` does not apply, and it is no number (`none`). Every other mode gives
`undefined || 25`. -/
def dedupThreshold (mode : String) : Option Nat :=
  match mode with
  | "balanced" => some 25
  | "vibrant" => some 30
  | "muted" => some 20
  | _ => if mode ∈ objectPrototypeMembers then none else some 25

/-- The comparison `distance < threshold` of `removeDuplicateColors`: a
threshold that is no number is converted to `NaN`, and the comparison is
false. -/
def belowThreshold (distance : Root) (threshold : Option Nat) : Bool :=
  match threshold with
  | some t => distance.ltNum t
  | none => false

/-- Source `removeDuplicateColors(colors, mode)`: the `forEach` loop pushes a
colour on `unique` unless `unique.some(...)` finds an existing colour at
distance `< threshold`. -/
def removeDuplicateColors (colors : List Rgb) (mode : String) : List Rgb :=
  let threshold := dedupThreshold mode
  colors.foldl
    (fun unique color =>
      let isDuplicate :=
        unique.any (fun existingColor =>
          belowThreshold (calculateColorDistance color existingColor) threshold)
      if !isDuplicate then unique ++ [color] else unique)
    []

/-- Source `isVibrantColor(rgb)`. -/
def isVibrantColor (rgb : Rgb) : Bool :=
  let max := max3 rgb.r rgb.g rgb.b
  let min := min3 rgb.r rgb.g rgb.b
  let saturation : ℚ := if max = 0 then 0 else ((max - min : Int) : ℚ) / (max : ℚ)
  let brightness : ℚ := (max : ℚ) / 255
  decide (saturation > 4 / 10) && decide (brightness > 3 / 10)

/-- Source `isMutedColor(rgb)`. -/
def isMutedColor (rgb : Rgb) : Bool :=
  let max := max3 rgb.r rgb.g rgb.b
  let min := min3 rgb.r rgb.g rgb.b
  let saturation : ℚ := if max = 0 then 0 else ((max - min : Int) : ℚ) / (max : ℚ)
  decide (saturation < 6 / 10)

/-- Source `adjustColorsByMode(colors, mode)`: the `switch` on the mode. -/
def adjustColorsByMode (colors : List Rgb) (mode : String) : List Rgb :=
  match mode with
  | "vibrant" => colors.filter (fun color => isVibrantColor color)
  | "muted" => colors.filter (fun color => isMutedColor color)
  | "balanced" => colors
  | _ => colors

/-- JS `xs.slice(0, n)` for an integer `n`: the first `n` elements when
`n ≥ 0`, all but the last `-n` elements when `n < 0`. -/
def slice0 {α : Type} (xs : List α) (n : Int) : List α :=
  if 0 ≤ n then xs.take n.toNat else xs.take (xs.length - (-n).toNat)

/-- The expression `parseInt(slider.value) || 8` of `extractColors`:
`none` stands for a missing slider or an unparsable value (`NaN`). -/
def readColorCount (sliderValue : Option Int) : Int :=
  match sliderValue with
  | some n => if n = 0 then 8 else n
  | none => 8

/-- Source `extractColors`, lines 440-447: the candidate list
`[dominantColor, ...palette]` is deduplicated, filtered by the mode and cut to
`colorCount`; the result is what `generateColorData` receives. The quantizer
outputs `dominantColor` and `palette`, the mode and the count are parameters. -/
def extractColors (dominantColor : Rgb) (palette : List Rgb) (extractionMode : String)
    (colorCount : Int) : List Rgb :=
  let allColors := dominantColor :: palette
  let uniqueColors := removeDuplicateColors allColors extractionMode
  let uniqueColors := adjustColorsByMode uniqueColors extractionMode
  slice0 uniqueColors colorCount

/-- A colour whose three channels are integers in `[0, 255]`. -/
def Rgb.InRange (c : Rgb) : Prop :=
  (0 ≤ c.r ∧ c.r ≤ 255) ∧ (0 ≤ c.g ∧ c.g ≤ 255) ∧ (0 ≤ c.b ∧ c.b ≤ 255)

instance (c : Rgb) : Decidable c.InRange := by
  unfold Rgb.InRange; infer_instance

/-- Saturation in the words of the specification of the mode filter:
`(max - min) / max`, and `0` for black. -/
def specSaturation (c : Rgb) : ℚ :=
  if c = ⟨0, 0, 0⟩ then 0
  else ((max3 c.r c.g c.b - min3 c.r c.g c.b : Int) : ℚ) / ((max3 c.r c.g c.b : Int) : ℚ)

/-- Comparison `x ≤ y` of two square roots (both radicands non-negative). -/
def Root.le (x y : Root) : Prop := x.radicand ≤ y.radicand

instance (x y : Root) : Decidable (x.le y) := by
  unfold Root.le; infer_instance

/-! ## Pixel classification and background filter: `findNearestColor`,
`isSimilarColor`, `isBackgroundColor`, `applySmartFilter` -/

/-- The body of the `forEach` loop of `findNearestColor`. The loop state is
the pair `(nearestColor, minDistance)`; `none` stands for `null` in the first
component and for `Infinity` in the second. -/
def findNearestStep (targetRgb : Rgb) (state : Option Rgb × Option Root) (color : Rgb) :
    Option Rgb × Option Root :=
  let distance := calculateColorDistance targetRgb color
  let belowMin :=
    match state.2 with
    | none => true
    | some minDistance => distance.lt minDistance
  if belowMin && distance.ltNum 60 then (some color, some distance) else state

/-- Source `findNearestColor(targetRgb, colors)`. -/
def findNearestColor (targetRgb : Rgb) (colors : List Rgb) : Option Rgb :=
  (colors.foldl (findNearestStep targetRgb) (none, none)).1

/-- Source `isSimilarColor(color1, color2, threshold)`. -/
def isSimilarColor (color1 color2 : Rgb) (threshold : Nat) : Bool :=
  (calculateColorDistance color1 color2).ltNum threshold

/-- Source `isBackgroundColor(rgb)`. -/
def isBackgroundColor (rgb : Rgb) : Bool :=
  if rgb.r > 240 ∧ rgb.g > 240 ∧ rgb.b > 240 then true
  else
    let avg : ℚ := ((rgb.r + rgb.g + rgb.b : Int) : ℚ) / 3
    let variance : ℚ := |(rgb.r : ℚ) - avg| + |(rgb.g : ℚ) - avg| + |(rgb.b : ℚ) - avg|
    if variance < 25 ∧ avg > 200 then true
    else if rgb.r < 25 ∧ rgb.g < 25 ∧ rgb.b < 25 then true
    else false

/-- An element of `colorArray` in `analyzeImageColors`:
`{ rgb, count, percentage }`. -/
structure ClassifiedColor where
  rgb : Rgb
  count : Nat
  percentage : ℚ
deriving DecidableEq, Repr

/-- JS `xs.filter((x, index) => p(x, index))`. -/
def filterWithIndex {α : Type} (p : α → Nat → Bool) (xs : List α) : List α :=
  (xs.enum.filter (fun ix => p ix.2 ix.1)).map Prod.snd

/-- Source `applySmartFilter(colorArray, backgroundThreshold)`. -/
def applySmartFilter (colorArray : List ClassifiedColor) (backgroundThreshold : ℚ) :
    List ClassifiedColor :=
  match colorArray with
  | [] => colorArray
  | dominantColor :: _ =>
    if dominantColor.percentage < backgroundThreshold * 100 then colorArray
    else
      filterWithIndex
        (fun color index =>
          if index = 0 then false
          else !isBackgroundColor color.rgb && !isSimilarColor color.rgb dominantColor.rgb 30)
        colorArray

/-! ## Colour-space conversions: `rgbToHex`, `rgbToHsl`, `hslToRgb`, `rgbToHsv` -/

/-- Source `rgbToHex(r, g, b)`:
`"#" + ((1 << 24) + (r << 16) + (g << 8) + b).toString(16).slice(1).toUpperCase()`,
for channels on which the 32-bit shifts do not overflow. -/
def rgbToHex (r g b : Int) : String :=
  let n : Int := 2 ^ 24 + r * 2 ^ 16 + g * 2 ^ 8 + b
  "#" ++ String.mk (((Nat.toDigits 16 n.toNat).drop 1).map Char.toUpper)

/-- Source `rgbToHsl(r, g, b)`; the result is the array `[h, s, l]`. -/
def rgbToHsl (r g b : Int) : Int × ℚ × ℚ :=
  let r : ℚ := (r : ℚ) / 255
  let g : ℚ := (g : ℚ) / 255
  let b : ℚ := (b : ℚ) / 255
  let max := Max.max (Max.max r g) b
  let min := Min.min (Min.min r g) b
  let l := (max + min) / 2
  if max = min then (jsRound (0 * 360), 0, l)
  else
    let d := max - min
    let s := if l > 1 / 2 then d / (2 - max - min) else d / (max + min)
    let h :=
      if max = r then (g - b) / d + (if g < b then 6 else 0)
      else if max = g then (b - r) / d + 2
      else (r - g) / d + 4
    let h := h / 6
    (jsRound (h * 360), s, l)

/-- The local function `hue2rgb(p, q, t)` of `hslToRgb`. -/
def hue2rgb (p q t : ℚ) : ℚ :=
  let t := if t < 0 then t + 1 else t
  let t := if t > 1 then t - 1 else t
  if t < 1 / 6 then p + (q - p) * 6 * t
  else if t < 1 / 2 then q
  else if t < 2 / 3 then p + (q - p) * (2 / 3 - t) * 6
  else p

/-- Source `hslToRgb(h, s, l)`. -/
def hslToRgb (h s l : ℚ) : Rgb :=
  let h := h / 360
  if s = 0 then
    ⟨jsRound (l * 255), jsRound (l * 255), jsRound (l * 255)⟩
  else
    let q := if l < 1 / 2 then l * (1 + s) else l + s - l * s
    let p := 2 * l - q
    let r := hue2rgb p q (h + 1 / 3)
    let g := hue2rgb p q h
    let b := hue2rgb p q (h - 1 / 3)
    ⟨jsRound (r * 255), jsRound (g * 255), jsRound (b * 255)⟩

/-! ## Accessibility profile -/

/-- The object built by `calculateAccessibility`. -/
structure AccessibilityProfile where
  normal : Bool
  protanopia : Bool
  deuteranopia : Bool
  tritanopia : Bool
deriving DecidableEq, Repr

/-- The JS expression `a * x + b * y` for two decimal literals `a`, `b` and two
integers `x`, `y`: the literals, the two products and the sum are doubles. -/
def jsLinear (a : ℚ) (x : Int) (b : ℚ) (y : Int) : ℚ :=
  toDouble (toDouble (toDouble a * x) + toDouble (toDouble b * y))

/-- Source `simulateProtanopia([r, g, b])`. -/
def simulateProtanopia (c : Rgb) : Rgb :=
  ⟨jsRound (jsLinear (567 / 1000) c.r (433 / 1000) c.g),
   jsRound (jsLinear (558 / 1000) c.r (442 / 1000) c.g),
   jsRound (jsLinear (242 / 1000) c.g (758 / 1000) c.b)⟩

/-- Source `simulateDeuteranopia([r, g, b])`. -/
def simulateDeuteranopia (c : Rgb) : Rgb :=
  ⟨jsRound (jsLinear (625 / 1000) c.r (375 / 1000) c.g),
   jsRound (jsLinear (7 / 10) c.r (3 / 10) c.g),
   jsRound (jsLinear (3 / 10) c.g (7 / 10) c.b)⟩

/-- Source `simulateTritanopia([r, g, b])`. -/
def simulateTritanopia (c : Rgb) : Rgb :=
  ⟨jsRound (jsLinear (95 / 100) c.r (5 / 100) c.g),
   jsRound (jsLinear (433 / 1000) c.g (567 / 1000) c.b),
   jsRound (jsLinear (475 / 1000) c.g (525 / 1000) c.b)⟩

/-- Source `calculateAccessibility(rgb)`; `colorblindMode` is the state of the
check box `#colorblindMode`. -/
def calculateAccessibility (colorblindMode : Bool) (rgb : Rgb) : AccessibilityProfile :=
  if colorblindMode then
    { normal := true
      protanopia := (calculateColorDistance rgb (simulateProtanopia rgb)).ltNum 50
      deuteranopia := (calculateColorDistance rgb (simulateDeuteranopia rgb)).ltNum 50
      tritanopia := (calculateColorDistance rgb (simulateTritanopia rgb)).ltNum 50 }
  else
    { normal := true, protanopia := false, deuteranopia := false, tritanopia := false }

/-- An element of `currentColors`: `{ rgb, hex, percentage, accessibility }`. -/
structure PaletteEntry where
  rgb : Rgb
  hex : String
  percentage : ℚ
  accessibility : AccessibilityProfile
deriving DecidableEq, Repr

/-! ## Synthetic percentages: `generateSimpleColorData` -/

/-- The shares computed by the `map` callback of `generateSimpleColorData`,
before rounding: at position `index` of a list of `length` colours, with
`remainingPercentage` left, the share is the whole remainder for the last
colour and `Math.max(5, Math.random() * (remainingPercentage / (length - index)))`
otherwise. `rand i` is the value of the call of `Math.random()` made at
position `i`. -/
def simpleShares (rand : Nat → ℚ) (length : Nat) :
    Nat → ℚ → List Rgb → List (Rgb × ℚ)
  | _, _, [] => []
  | index, remainingPercentage, color :: rest =>
    let percentage : ℚ :=
      if index = length - 1 then remainingPercentage
      else max 5 (rand index * (remainingPercentage / ((length : ℚ) - (index : ℚ))))
    (color, percentage) :: simpleShares rand length (index + 1) (remainingPercentage - percentage) rest

/-- Source `generateSimpleColorData(colors)`: each share is rounded to one
decimal, `Math.round(percentage * 10) / 10`, and the entries are sorted by
descending percentage (`Array.prototype.sort` is stable). -/
def generateSimpleColorData (colorblindMode : Bool) (rand : Nat → ℚ) (colors : List Rgb) :
    List PaletteEntry :=
  let result := (simpleShares rand colors.length 0 100 colors).map (fun cp =>
    ({ rgb := cp.1
       hex := rgbToHex cp.1.r cp.1.g cp.1.b
       percentage := (jsRound (cp.2 * 10) : ℚ) / 10
       accessibility := calculateAccessibility colorblindMode cp.1 } : PaletteEntry))
  result.insertionSort (fun a b => b.percentage ≤ a.percentage)

/-- Source `rgbToHsv(r, g, b)`; the result is the array `[h, s, v]`. Every
quotient, difference, sum and product is a double. The JS remainder `x % 6`
is `x - 6 * trunc(x / 6)`, which a double holds exactly. -/
def rgbToHsv (r g b : Int) : Int × ℚ × ℚ :=
  let r : ℚ := toDouble ((r : ℚ) / 255)
  let g : ℚ := toDouble ((g : ℚ) / 255)
  let b : ℚ := toDouble ((b : ℚ) / 255)
  let max := Max.max (Max.max r g) b
  let min := Min.min (Min.min r g) b
  let diff := toDouble (max - min)
  let h : ℚ :=
    if diff ≠ 0 then
      if max = r then
        let x := toDouble (toDouble (g - b) / diff)
        x - 6 * (if 0 ≤ x / 6 then (⌊x / 6⌋ : ℚ) else (⌈x / 6⌉ : ℚ))
      else if max = g then toDouble (toDouble (toDouble (b - r) / diff) + 2)
      else toDouble (toDouble (toDouble (r - g) / diff) + 4)
    else 0
  let h := jsRound (toDouble (h * 60))
  let h := if h < 0 then h + 360 else h
  (h, if diff = 0 then 0 else toDouble (diff / max), max)

/-- Source `isSkinColor(rgb)`; the literals `0.1`, `0.7`, `0.2`, `0.95` are
doubles. -/
def isSkinColor (rgb : Rgb) : Bool :=
  let hsv := rgbToHsv rgb.r rgb.g rgb.b
  let h := hsv.1
  let s := hsv.2.1
  let v := hsv.2.2
  (decide (h ≥ 0) && decide (h ≤ 50)) &&
    (decide (s ≥ toDouble (1 / 10)) && decide (s ≤ toDouble (7 / 10))) &&
    (decide (v ≥ toDouble (2 / 10)) && decide (v ≤ toDouble (95 / 100)))

/-! ## Measured percentages: `analyzeImageColors` -/

/-- One pixel of `imageData`: the four consecutive bytes `r, g, b, alpha`. -/
structure Pixel where
  r : Int
  g : Int
  b : Int
  alpha : Int
deriving DecidableEq, Repr

/-- The statement `colorCounts.set(key, (colorCounts.get(key) || 0) + 1)` on a
`Map` kept as the list of its entries in insertion order. The key
`nearestColor.join(',')` is represented by the colour itself. -/
def mapIncrement (key : Rgb) : List (Rgb × Nat) → List (Rgb × Nat)
  | [] => [(key, 1)]
  | (k, count) :: rest =>
    if k = key then (k, count + 1) :: rest else (k, count) :: mapIncrement key rest

/-- The pixels visited by the loop `for (i = 0; i < imageData.length; i += 4 * sampleRate)`:
those whose index is a multiple of `sampleRate`. -/
def sampledPixels (imageData : List Pixel) (sampleRate : Nat) : List Pixel :=
  (imageData.enum.filter (fun ip => ip.1 % sampleRate = 0)).map Prod.snd

/-- The counting loop of `analyzeImageColors` (lines 547-561), run over the
pixels it visits; the state is the `Map` `colorCounts`. -/
def countColors (pixels : List Pixel) (extractedColors : List Rgb) (isPortraitMode : Bool) :
    List (Rgb × Nat) :=
  pixels.foldl
    (fun (colorCounts : List (Rgb × Nat)) (px : Pixel) =>
      if px.alpha < 128 then colorCounts
      else if isPortraitMode && isSkinColor ⟨px.r, px.g, px.b⟩ then colorCounts
      else
        match findNearestColor ⟨px.r, px.g, px.b⟩ extractedColors with
        | some nearestColor => mapIncrement nearestColor colorCounts
        | none => colorCounts)
    []

/-- The array `colorArray` of `analyzeImageColors` (lines 563-569): the map
entries with their share of the sampled pixels, sorted by descending count
(`Array.prototype.sort` is stable). -/
def classifiedColors (imageData : List Pixel) (extractedColors : List Rgb)
    (isPortraitMode : Bool) : List ClassifiedColor :=
  let totalPixels : Nat := imageData.length
  let sampleRate : Nat := Max.max 1 (totalPixels / 50000)
  let colorCounts := countColors (sampledPixels imageData sampleRate) extractedColors isPortraitMode
  (colorCounts.map (fun kc =>
    ({ rgb := kc.1
       count := kc.2
       percentage := (kc.2 : ℚ) / ((totalPixels : ℚ) / (sampleRate : ℚ)) * 100 } : ClassifiedColor))).insertionSort
    (fun a b => b.count ≤ a.count)

/-- Source `addAccessibilityInfo(colors)`: `{ ...color, accessibility }`. -/
def addAccessibilityInfo (colorblindMode : Bool) (colors : List ClassifiedColor) :
    List (ClassifiedColor × AccessibilityProfile) :=
  colors.map (fun color => (color, calculateAccessibility colorblindMode color.rgb))

/-- Source `analyzeImageColors(imageData, extractedColors, isPortraitMode)`;
`imageData` is the pixel buffer, four bytes a pixel. -/
def analyzeImageColors (colorblindMode : Bool) (imageData : List Pixel)
    (extractedColors : List Rgb) (isPortraitMode : Bool) : List PaletteEntry :=
  let backgroundThreshold : ℚ := 25 / 100
  let colorArray := classifiedColors imageData extractedColors isPortraitMode
  let filteredColors := applySmartFilter colorArray backgroundThreshold
  let filteredColors := addAccessibilityInfo colorblindMode filteredColors
  let totalFilteredCount : Nat := filteredColors.foldl (fun sum color => sum + color.1.count) 0
  filteredColors.map (fun color =>
    ({ rgb := color.1.rgb
       hex := rgbToHex color.1.rgb.r color.1.rgb.g color.1.rgb.b
       percentage := (jsRound ((color.1.count : ℚ) / (totalFilteredCount : ℚ) * 1000) : ℚ) / 10
       accessibility := color.2 } : PaletteEntry))

/-- Variance of the three channels in the usual sense of the word: the mean
of the squared deviations from the mean. -/
def channelVariance (c : Rgb) : ℚ :=
  let avg : ℚ := ((c.r + c.g + c.b : Int) : ℚ) / 3
  (((c.r : ℚ) - avg) ^ 2 + ((c.g : ℚ) - avg) ^ 2 + ((c.b : ℚ) - avg) ^ 2) / 3

/-! ## Harmony colours -/

/-- Source `getMonochromatic([r, g, b])`. -/
def getMonochromatic (c : Rgb) : List Rgb :=
  let hsl := rgbToHsl c.r c.g c.b
  [hslToRgb hsl.1 (hsl.2.1 * (7 / 10)) (min 1 (hsl.2.2 * (13 / 10))),
   hslToRgb hsl.1 (hsl.2.1 * (12 / 10)) (hsl.2.2 * (7 / 10)),
   hslToRgb hsl.1 (hsl.2.1 * (9 / 10)) (min 1 (hsl.2.2 * (11 / 10))),
   hslToRgb hsl.1 (hsl.2.1 * (5 / 10)) (hsl.2.2 * (9 / 10))]

/-- Source `getComplementary([r, g, b])`. -/
def getComplementary (c : Rgb) : List Rgb :=
  [⟨255 - c.r, 255 - c.g, 255 - c.b⟩]

/-- Source `getAnalogous([r, g, b])`; the JS remainder `%` on integers is
`Int.tmod`. -/
def getAnalogous (c : Rgb) : List Rgb :=
  let hsl := rgbToHsl c.r c.g c.b
  [hslToRgb (Int.tmod (hsl.1 + 30) 360) hsl.2.1 hsl.2.2,
   hslToRgb (Int.tmod (hsl.1 - 30 + 360) 360) hsl.2.1 hsl.2.2]

/-- Source `getTriad([r, g, b])`. -/
def getTriad (c : Rgb) : List Rgb :=
  let hsl := rgbToHsl c.r c.g c.b
  [hslToRgb (Int.tmod (hsl.1 + 120) 360) hsl.2.1 hsl.2.2,
   hslToRgb (Int.tmod (hsl.1 + 240) 360) hsl.2.1 hsl.2.2]

/-- Source `getTetradic([r, g, b])`. -/
def getTetradic (c : Rgb) : List Rgb :=
  let hsl := rgbToHsl c.r c.g c.b
  [hslToRgb (Int.tmod (hsl.1 + 90) 360) hsl.2.1 hsl.2.2,
   hslToRgb (Int.tmod (hsl.1 + 180) 360) hsl.2.1 hsl.2.2,
   hslToRgb (Int.tmod (hsl.1 + 270) 360) hsl.2.1 hsl.2.2]

/-- An entry of `harmonyTypes` in `displayHarmonyColors`: `{ name, icon, fn }`.
A generator that throws is one that returns `Except.error`. -/
structure HarmonyType where
  name : String
  icon : String
  fn : Rgb → Except String (List Rgb)

/-- One container appended to `#harmonyGrid`: its title and the hex strings
of the colour boxes appended to its `harmony-colors` element. -/
structure HarmonyContainer where
  title : String
  colors : List String
deriving DecidableEq, Repr

/-- The body of the inner loop of `displayHarmonyColors` (lines 891-931): the
title is built outside the `try`; inside it the generator is called and one
box per harmony colour is appended; the `catch` only logs; the container is
appended to the grid in either case. -/
def harmonyContainer (type : HarmonyType) (baseColor : PaletteEntry) : HarmonyContainer :=
  { title := type.icon ++ " " ++ type.name ++ " - " ++ baseColor.hex
    colors :=
      match type.fn baseColor.rgb with
      | .ok harmonyColors => harmonyColors.map (fun c => rgbToHex c.r c.g c.b)
      | .error _ => [] }

/-- The two nested `forEach` loops of `displayHarmonyColors` over
`currentColors.slice(0, 3)` and a list of harmony types. -/
def displayHarmonyColorsWith (harmonyTypes : List HarmonyType)
    (currentColors : List PaletteEntry) : List HarmonyContainer :=
  (currentColors.take 3).flatMap (fun baseColor =>
    harmonyTypes.map (fun type => harmonyContainer type baseColor))

/-- The array `harmonyTypes` of `displayHarmonyColors`. -/
def harmonyTypes : List HarmonyType :=
  [⟨"補色", "🔄", fun c => .ok (getComplementary c)⟩,
   ⟨"類似色", "🌈", fun c => .ok (getAnalogous c)⟩,
   ⟨"トライアド", "🔺", fun c => .ok (getTriad c)⟩,
   ⟨"テトラード", "🟪", fun c => .ok (getTetradic c)⟩,
   ⟨"モノクロマティック", "⬜", fun c => .ok (getMonochromatic c)⟩]

/-- Source `displayHarmonyColors()`, for a page that has the element
`#harmonyGrid`: the containers appended to the grid, in order. -/
def displayHarmonyColors (currentColors : List PaletteEntry) : List HarmonyContainer :=
  displayHarmonyColorsWith harmonyTypes currentColors

/-! ## Hex strings: `hexToRgb`, `getContrastColor` -/

/-- The value `parseInt(c, 16)` of one character matched by `[a-f\d]` under
the flag `i`; `none` when the character does not match. -/
def hexDigitValue (c : Char) : Option Nat :=
  if '0' ≤ c ∧ c ≤ '9' then some (c.toNat - 48)
  else if 'a' ≤ c ∧ c ≤ 'f' then some (c.toNat - 87)
  else if 'A' ≤ c ∧ c ≤ 'F' then some (c.toNat - 55)
  else none

/-- Source `hexToRgb(hex)`: the regular expression
`/^#?([a-f\d]{2})([a-f\d]{2})([a-f\d]{2})$/i` accepts an optional `#` followed
by exactly six hexadecimal digits; each pair is read by `parseInt(_, 16)`.
`none` stands for `null`. -/
def hexToRgb (hex : String) : Option Rgb :=
  let chars := hex.toList
  let digits :=
    match chars with
    | '#' :: rest => rest
    | _ => chars
  match digits with
  | [r1, r2, g1, g2, b1, b2] =>
    match hexDigitValue r1, hexDigitValue r2, hexDigitValue g1, hexDigitValue g2,
      hexDigitValue b1, hexDigitValue b2 with
    | some r1, some r2, some g1, some g2, some b1, some b2 =>
      some ⟨((16 * r1 + r2 : Nat) : Int), ((16 * g1 + g2 : Nat) : Int),
        ((16 * b1 + b2 : Nat) : Int)⟩
    | _, _, _, _, _, _ => none
  | _ => none

/-- Source `getContrastColor(hex)`; `none` stands for the `TypeError` raised
when `hexToRgb` returns `null`. -/
def getContrastColor (hex : String) : Option String :=
  match hexToRgb hex with
  | some rgb =>
    let brightness : ℚ := ((rgb.r * 299 + rgb.g * 587 + rgb.b * 114 : Int) : ℚ) / 1000
    some (if brightness > 128 then "#000000" else "#ffffff")
  | none => none

/-- The uppercase hexadecimal digit of a value `d < 16`: the character at
position `d` of `0123456789ABCDEF`. -/
def upperHexDigit (d : Nat) : Char :=
  "0123456789ABCDEF".toList.getD d '0'

/-! ## Theorems -/

/-! ### Rounding to doubles -/

/-- An integer is its own rounding. -/
theorem roundHalfEven_intCast (n : Int) : roundHalfEven (n : ℚ) = n := by
  unfold roundHalfEven
  simp

/-- Rounding to the nearest integer is monotone. -/
theorem roundHalfEven_mono {a b : ℚ} (h : a ≤ b) : roundHalfEven a ≤ roundHalfEven b := by
  have hfl : ⌊a⌋ ≤ ⌊b⌋ := Int.floor_mono h
  have ha1 := Int.floor_le a
  have ha2 := Int.lt_floor_add_one a
  have hb1 := Int.floor_le b
  have hb2 := Int.lt_floor_add_one b
  rcases eq_or_lt_of_le hfl with heq | hlt
  · unfold roundHalfEven
    simp only
    rw [← heq]
    split_ifs <;> first | omega | (exfalso; linarith)
  · have h1 : roundHalfEven a ≤ ⌊a⌋ + 1 := by
      unfold roundHalfEven
      simp only
      split_ifs <;> omega
    have h2 : ⌊b⌋ ≤ roundHalfEven b := by
      unfold roundHalfEven
      simp only
      split_ifs <;> omega
    omega

/-- Rounding to the nearest integer moves a number by at most one half. -/
theorem roundHalfEven_sub_le (m : ℚ) : |(roundHalfEven m : ℚ) - m| ≤ 1 / 2 := by
  have h1 := Int.floor_le m
  have h2 := Int.lt_floor_add_one m
  unfold roundHalfEven
  simp only
  rw [abs_le]
  split_ifs <;> push_cast <;> constructor <;> linarith

theorem two_zpow_pos (e : ℤ) : (0 : ℚ) < 2 ^ e := zpow_pos (by norm_num) e

/-- The binary exponent `k` of a positive number: `2 ^ k ≤ x < 2 ^ (k + 1)`. -/
theorem log_two_spec {x : ℚ} (hx : 0 < x) :
    (2 : ℚ) ^ Int.log 2 x ≤ x ∧ x < (2 : ℚ) ^ (Int.log 2 x + 1) := by
  have h1 := Int.zpow_log_le_self (b := 2) (by norm_num) hx
  have h2 := Int.lt_zpow_succ_log_self (b := 2) (by norm_num) x
  exact ⟨by exact_mod_cast h1, by exact_mod_cast h2⟩

theorem log_two_eq {x : ℚ} {k : ℤ} (h1 : (2 : ℚ) ^ k ≤ x) (h2 : x < (2 : ℚ) ^ (k + 1)) :
    Int.log 2 x = k := by
  have hx : 0 < x := lt_of_lt_of_le (two_zpow_pos k) h1
  apply le_antisymm
  · have := (Int.lt_zpow_iff_log_lt (b := 2) (by norm_num) hx (x := k + 1)).1 (by exact_mod_cast h2)
    omega
  · exact (Int.zpow_le_iff_le_log (b := 2) (by norm_num) hx).1 (by exact_mod_cast h1)

theorem roundSignificand_zero : roundSignificand 0 = 0 := by
  unfold roundSignificand
  simp [roundHalfEven]

/-- The scaled significand of a positive number lies in `[2 ^ 52, 2 ^ 53)`. -/
theorem significand_bounds {x : ℚ} (hx : 0 < x) :
    (2 : ℚ) ^ (52 : ℤ) ≤ x / 2 ^ (Int.log 2 x - 52) ∧
      x / 2 ^ (Int.log 2 x - 52) < (2 : ℚ) ^ (53 : ℤ) := by
  obtain ⟨h1, h2⟩ := log_two_spec hx
  have hp := two_zpow_pos (Int.log 2 x - 52)
  constructor
  · rw [le_div_iff₀ hp, ← zpow_add₀ (by norm_num : (2 : ℚ) ≠ 0)]
    simpa using h1
  · rw [div_lt_iff₀ hp, ← zpow_add₀ (by norm_num : (2 : ℚ) ≠ 0)]
    have : (53 : ℤ) + (Int.log 2 x - 52) = Int.log 2 x + 1 := by ring
    rw [this]
    exact h2

/-- Rounding stays within the binade of the number, its upper end included. -/
theorem roundSignificand_bounds {x : ℚ} (hx : 0 < x) :
    (2 : ℚ) ^ Int.log 2 x ≤ roundSignificand x ∧
      roundSignificand x ≤ (2 : ℚ) ^ (Int.log 2 x + 1) := by
  obtain ⟨h1, h2⟩ := significand_bounds hx
  have hp := two_zpow_pos (Int.log 2 x - 52)
  have hlo : ((2 ^ 52 : Int) : ℚ) ≤ roundHalfEven (x / 2 ^ (Int.log 2 x - 52)) := by
    have := roundHalfEven_mono (a := ((2 ^ 52 : Int) : ℚ)) (b := x / 2 ^ (Int.log 2 x - 52))
      (by push_cast; exact_mod_cast h1)
    rw [roundHalfEven_intCast] at this
    exact_mod_cast this
  have hhi : (roundHalfEven (x / 2 ^ (Int.log 2 x - 52)) : ℚ) ≤ ((2 ^ 53 : Int) : ℚ) := by
    have := roundHalfEven_mono (a := x / 2 ^ (Int.log 2 x - 52)) (b := ((2 ^ 53 : Int) : ℚ))
      (by push_cast; exact_mod_cast h2.le)
    rw [roundHalfEven_intCast] at this
    exact_mod_cast this
  unfold roundSignificand
  simp only
  constructor
  · calc (2 : ℚ) ^ Int.log 2 x = (2 : ℚ) ^ (52 : ℤ) * 2 ^ (Int.log 2 x - 52) := by
          rw [← zpow_add₀ (by norm_num : (2 : ℚ) ≠ 0)]; congr 1; ring
      _ ≤ _ := by
          apply mul_le_mul_of_nonneg_right _ hp.le
          push_cast at hlo
          exact_mod_cast hlo
  · calc _ ≤ (2 : ℚ) ^ (53 : ℤ) * 2 ^ (Int.log 2 x - 52) := by
          apply mul_le_mul_of_nonneg_right _ hp.le
          push_cast at hhi
          exact_mod_cast hhi
      _ = (2 : ℚ) ^ (Int.log 2 x + 1) := by
          rw [← zpow_add₀ (by norm_num : (2 : ℚ) ≠ 0)]; congr 1; ring

theorem roundSignificand_pos {x : ℚ} (hx : 0 < x) : 0 < roundSignificand x :=
  lt_of_lt_of_le (two_zpow_pos _) (roundSignificand_bounds hx).1

theorem roundSignificand_nonneg {x : ℚ} (hx : 0 ≤ x) : 0 ≤ roundSignificand x := by
  rcases eq_or_lt_of_le hx with h | h
  · rw [← h, roundSignificand_zero]
  · exact (roundSignificand_pos h).le

theorem roundSignificand_mono {x y : ℚ} (hx : 0 ≤ x) (h : x ≤ y) :
    roundSignificand x ≤ roundSignificand y := by
  rcases eq_or_lt_of_le hx with h0 | hx
  · rw [← h0, roundSignificand_zero]
    exact roundSignificand_nonneg (hx.trans h)
  have hy : 0 < y := lt_of_lt_of_le hx h
  have hlog : Int.log 2 x ≤ Int.log 2 y := Int.log_mono_right hx h
  rcases eq_or_lt_of_le hlog with heq | hlt
  · unfold roundSignificand
    simp only
    rw [heq]
    have hp := two_zpow_pos (Int.log 2 y - 52)
    apply mul_le_mul_of_nonneg_right _ hp.le
    exact_mod_cast roundHalfEven_mono (div_le_div_of_nonneg_right h hp.le)
  · calc roundSignificand x ≤ (2 : ℚ) ^ (Int.log 2 x + 1) := (roundSignificand_bounds hx).2
      _ ≤ (2 : ℚ) ^ Int.log 2 y := zpow_le_zpow_right₀ (by norm_num) (by omega)
      _ ≤ roundSignificand y := (roundSignificand_bounds hy).1

/-- Rounding to a double is monotone. -/
theorem toDouble_mono {x y : ℚ} (h : x ≤ y) : toDouble x ≤ toDouble y := by
  unfold toDouble
  split_ifs with hx hy hy
  · exact roundSignificand_mono hx h
  · exact absurd (hx.trans h) hy
  · have := roundSignificand_nonneg (x := -x) (by linarith)
    have := roundSignificand_nonneg hy
    linarith
  · have := roundSignificand_mono (x := -y) (y := -x) (by linarith) (by linarith)
    linarith

/-- Rounding to a double commutes with negation. -/
theorem toDouble_neg (x : ℚ) : toDouble (-x) = -toDouble x := by
  unfold toDouble
  rcases lt_trichotomy x 0 with h | h | h
  · rw [if_pos (by linarith), if_neg (by linarith)]
    simp
  · subst h
    simp [roundSignificand_zero]
  · rw [if_neg (by linarith), if_pos (by linarith)]
    simp

/-- A number with a 53-bit significand is a double. -/
theorem roundSignificand_of_significand (q : Int) (e : ℤ) (h1 : 2 ^ 52 ≤ q) (h2 : q < 2 ^ 53) :
    roundSignificand ((q : ℚ) * 2 ^ e) = (q : ℚ) * 2 ^ e := by
  have hp := two_zpow_pos e
  have hq1 : (2 : ℚ) ^ (52 : ℤ) ≤ (q : ℚ) := by
    have : ((2 ^ 52 : Int) : ℚ) ≤ (q : ℚ) := by exact_mod_cast h1
    push_cast at this
    exact_mod_cast this
  have hq2 : (q : ℚ) < (2 : ℚ) ^ (53 : ℤ) := by
    have : (q : ℚ) < ((2 ^ 53 : Int) : ℚ) := by exact_mod_cast h2
    push_cast at this
    exact_mod_cast this
  have hlog : Int.log 2 ((q : ℚ) * 2 ^ e) = e + 52 := by
    apply log_two_eq
    · rw [add_comm, zpow_add₀ (by norm_num : (2 : ℚ) ≠ 0)]
      exact mul_le_mul_of_nonneg_right hq1 hp.le
    · have : e + 52 + 1 = 53 + e := by ring
      rw [this, zpow_add₀ (by norm_num : (2 : ℚ) ≠ 0)]
      exact mul_lt_mul_of_pos_right hq2 hp
  unfold roundSignificand
  simp only
  rw [hlog]
  have : e + 52 - 52 = e := by ring
  rw [this, mul_div_assoc, div_self hp.ne', mul_one, roundHalfEven_intCast]

theorem roundSignificand_idem {x : ℚ} (hx : 0 ≤ x) :
    roundSignificand (roundSignificand x) = roundSignificand x := by
  rcases eq_or_lt_of_le hx with h0 | hx
  · rw [← h0, roundSignificand_zero, roundSignificand_zero]
  obtain ⟨h1, h2⟩ := significand_bounds hx
  have hlo : (2 ^ 52 : Int) ≤ roundHalfEven (x / 2 ^ (Int.log 2 x - 52)) := by
    have := roundHalfEven_mono (a := ((2 ^ 52 : Int) : ℚ)) (b := x / 2 ^ (Int.log 2 x - 52))
      (by push_cast; exact_mod_cast h1)
    rwa [roundHalfEven_intCast] at this
  have hhi : roundHalfEven (x / 2 ^ (Int.log 2 x - 52)) ≤ (2 ^ 53 : Int) := by
    have := roundHalfEven_mono (a := x / 2 ^ (Int.log 2 x - 52)) (b := ((2 ^ 53 : Int) : ℚ))
      (by push_cast; exact_mod_cast h2.le)
    rwa [roundHalfEven_intCast] at this
  have hrs : roundSignificand x =
      (roundHalfEven (x / 2 ^ (Int.log 2 x - 52)) : ℚ) * 2 ^ (Int.log 2 x - 52) := rfl
  rcases eq_or_lt_of_le hhi with heq | hlt
  · have h3 : roundSignificand x = ((2 ^ 52 : Int) : ℚ) * 2 ^ (Int.log 2 x - 52 + 1) := by
      rw [hrs, heq, zpow_add₀ (by norm_num : (2 : ℚ) ≠ 0)]
      push_cast
      ring
    rw [h3]
    exact roundSignificand_of_significand _ _ (by norm_num) (by norm_num)
  · rw [hrs]
    exact roundSignificand_of_significand _ _ hlo hlt

/-- A double is its own rounding. -/
theorem toDouble_idem (x : ℚ) : toDouble (toDouble x) = toDouble x := by
  unfold toDouble
  by_cases hx : 0 ≤ x
  · rw [if_pos hx, if_pos (roundSignificand_nonneg hx), roundSignificand_idem hx]
  · rw [if_neg hx]
    have hx' : 0 < -x := by linarith
    have := roundSignificand_pos hx'
    rw [if_neg (by linarith), neg_neg, roundSignificand_idem hx'.le]

theorem roundSignificand_sub_le {x : ℚ} (hx : 0 ≤ x) :
    |roundSignificand x - x| ≤ x / 2 ^ 53 := by
  rcases eq_or_lt_of_le hx with h0 | hx
  · rw [← h0, roundSignificand_zero]; simp
  have hp := two_zpow_pos (Int.log 2 x - 52)
  have h := roundHalfEven_sub_le (x / 2 ^ (Int.log 2 x - 52))
  have hlog := (log_two_spec hx).1
  have he : (2 : ℚ) ^ (Int.log 2 x - 52) = 2 ^ Int.log 2 x / 2 ^ 52 := by
    rw [zpow_sub₀ (by norm_num : (2 : ℚ) ≠ 0)]
    norm_cast
  have hrs : roundSignificand x - x =
      ((roundHalfEven (x / 2 ^ (Int.log 2 x - 52)) : ℚ) - x / 2 ^ (Int.log 2 x - 52)) *
        2 ^ (Int.log 2 x - 52) := by
    unfold roundSignificand
    simp only
    field_simp
  rw [hrs, abs_mul, abs_of_pos hp]
  calc _ ≤ 1 / 2 * (2 : ℚ) ^ (Int.log 2 x - 52) := mul_le_mul_of_nonneg_right h hp.le
    _ = 2 ^ Int.log 2 x / 2 ^ 53 := by rw [he]; ring
    _ ≤ x / 2 ^ 53 := div_le_div_of_nonneg_right hlog (by positivity)

/-- The relative error of rounding to a double is at most `2 ^ -53`. -/
theorem toDouble_sub_le (x : ℚ) : |toDouble x - x| ≤ |x| / 2 ^ 53 := by
  unfold toDouble
  by_cases hx : 0 ≤ x
  · rw [if_pos hx, abs_of_nonneg hx]
    exact roundSignificand_sub_le hx
  · rw [if_neg hx]
    have hx' : 0 ≤ -x := by linarith
    have := roundSignificand_sub_le hx'
    rw [abs_of_neg (by linarith : x < 0)]
    rw [abs_le] at this ⊢
    constructor <;> linarith

/-- The integers that bound the hue computation are doubles. -/
theorem toDouble_consts :
    toDouble 0 = 0 ∧ toDouble 1 = 1 ∧ toDouble (-1) = -1 ∧ toDouble 3 = 3 ∧ toDouble 5 = 5 ∧
    toDouble 60 = 60 ∧ toDouble (-60) = -60 ∧ toDouble 180 = 180 ∧ toDouble 300 = 300 := by
  decide!

/-- Rounding to a double keeps a number inside an interval whose ends are
doubles. -/
theorem toDouble_mem {x lo hi : ℚ} (hlo : toDouble lo = lo) (hhi : toDouble hi = hi)
    (h1 : lo ≤ x) (h2 : x ≤ hi) : lo ≤ toDouble x ∧ toDouble x ≤ hi := by
  constructor
  · rw [← hlo]; exact toDouble_mono h1
  · rw [← hhi]; exact toDouble_mono h2

theorem Root.geNum_iff_not_ltNum (x : Root) (t : Nat) : x.geNum t ↔ x.ltNum t = false := by
  unfold Root.geNum Root.ltNum
  simp

/-- The comparison on radicands is the comparison of real square roots with
the literal: `√n < t ↔ n < t²` for `n, t ≥ 0`. -/
theorem Root.ltNum_iff_sqrt (x : Root) (t : Nat) (hx : 0 ≤ x.radicand) :
    x.ltNum t = true ↔ Real.sqrt (x.radicand : ℝ) < (t : ℝ) := by
  unfold Root.ltNum
  rw [decide_eq_true_iff, Real.sqrt_lt (by exact_mod_cast hx) (Nat.cast_nonneg t)]
  norm_cast

theorem removeDuplicateColors_nil (m : String) : removeDuplicateColors [] m = [] := rfl

theorem removeDuplicateColors_snoc (pre : List Rgb) (x : Rgb) (m : String) :
    removeDuplicateColors (pre ++ [x]) m =
      if (removeDuplicateColors pre m).any
          (fun e => belowThreshold (calculateColorDistance x e) (dedupThreshold m))
      then removeDuplicateColors pre m else removeDuplicateColors pre m ++ [x] := by
  unfold removeDuplicateColors
  simp only [List.foldl_append, List.foldl_cons, List.foldl_nil]
  cases (List.foldl _ [] pre).any _ <;> simp

theorem removeDuplicateColors_sublist (xs : List Rgb) (m : String) :
    (removeDuplicateColors xs m).Sublist xs := by
  induction xs using List.reverseRecOn with
  | nil => simp [removeDuplicateColors_nil]
  | append_singleton pre x ih =>
    rw [removeDuplicateColors_snoc]
    split
    · exact ih.trans (List.sublist_append_left pre [x])
    · exact List.Sublist.append ih (List.Sublist.refl [x])

/-- For a mode that names no inherited member the threshold is a number. -/
theorem dedupThreshold_eq (m : String) (hm : m ∉ objectPrototypeMembers) :
    dedupThreshold m = some (if m = "vibrant" then 30 else if m = "muted" then 20 else 25) := by
  unfold dedupThreshold
  split <;> simp_all

/-- For a mode that names an inherited member the threshold is no number. -/
theorem dedupThreshold_inherited (m : String) (hm : m ∈ objectPrototypeMembers) :
    dedupThreshold m = none := by
  unfold dedupThreshold
  split
  · exact absurd hm (by decide)
  · exact absurd hm (by decide)
  · exact absurd hm (by decide)
  · rw [if_pos hm]

/-- With a mode that names an inherited member, such as `toString`, no
comparison succeeds and every colour is kept. -/
theorem removeDuplicateColors_inherited (xs : List Rgb) (m : String)
    (hm : m ∈ objectPrototypeMembers) : removeDuplicateColors xs m = xs := by
  induction xs using List.reverseRecOn with
  | nil => rfl
  | append_singleton pre x ih =>
    rw [removeDuplicateColors_snoc, ih, dedupThreshold_inherited m hm, if_neg]
    simp [belowThreshold]

/-- C4, counterexample. In the mode `toString` the lookup `thresholds[mode]`
finds the inherited function: the colour `(1, 1, 1)` is kept although its
distance to the colour `(0, 0, 0)` kept before it is `sqrt 3`, below 25. -/
theorem removeDuplicateColors_toString_counterexample :
    removeDuplicateColors [⟨0, 0, 0⟩, ⟨1, 1, 1⟩] "toString" = [⟨0, 0, 0⟩, ⟨1, 1, 1⟩] ∧
    ¬ (calculateColorDistance ⟨1, 1, 1⟩ ⟨0, 0, 0⟩).geNum 25 := by
  decide

/-- C4, amended. For a mode that names no member inherited from
`Object.prototype`, `removeDuplicateColors` is the greedy selection in input
order: on the empty list it returns the empty list, and extending the input by
one colour `x` appends `x` to the result exactly when the distance of `x` to
every colour kept so far is `≥` the mode threshold (vibrant 30, muted 20,
balanced and any other such mode 25) and otherwise leaves the result
unchanged; the kept colours form a subsequence of the input. -/
theorem removeDuplicateColors_greedy (xs : List Rgb) (m : String)
    (hm : m ∉ objectPrototypeMembers) :
    removeDuplicateColors [] m = [] ∧
    (removeDuplicateColors xs m).Sublist xs ∧
    ∀ (pre : List Rgb) (x : Rgb),
      removeDuplicateColors (pre ++ [x]) m =
        if ∀ k ∈ removeDuplicateColors pre m,
            (calculateColorDistance x k).geNum
              (if m = "vibrant" then 30 else if m = "muted" then 20 else 25)
        then removeDuplicateColors pre m ++ [x] else removeDuplicateColors pre m := by
  refine ⟨rfl, removeDuplicateColors_sublist xs m, fun pre x => ?_⟩
  rw [removeDuplicateColors_snoc, dedupThreshold_eq m hm]
  simp only [belowThreshold]
  generalize (if m = "vibrant" then 30 else if m = "muted" then 20 else 25 : Nat) = t
  by_cases h : ∀ k ∈ removeDuplicateColors pre m, (calculateColorDistance x k).geNum t
  · rw [if_pos h, if_neg]
    simp only [List.any_eq_true, not_exists, not_and, Bool.not_eq_true]
    exact fun k hk => (Root.geNum_iff_not_ltNum _ _).1 (h k hk)
  · rw [if_neg h, if_pos]
    simp only [List.any_eq_true]
    by_contra hne
    exact h fun k hk => (Root.geNum_iff_not_ltNum _ _).2 (by
      by_contra hk2
      exact hne ⟨k, hk, by simpa using hk2⟩)

/-- Witness for C4 (amended): the vibrant mode on three reds; the second is at
distance 20 from the first and is dropped, the third at distance 50 is kept. -/
theorem removeDuplicateColors_greedy_witness :
    "vibrant" ∉ objectPrototypeMembers ∧
    (removeDuplicateColors [] "vibrant" = [] ∧
    (removeDuplicateColors [⟨200, 0, 0⟩, ⟨220, 0, 0⟩, ⟨250, 0, 0⟩] "vibrant").Sublist
      [⟨200, 0, 0⟩, ⟨220, 0, 0⟩, ⟨250, 0, 0⟩] ∧
    ∀ (pre : List Rgb) (x : Rgb),
      removeDuplicateColors (pre ++ [x]) "vibrant" =
        if ∀ k ∈ removeDuplicateColors pre "vibrant",
            (calculateColorDistance x k).geNum
              (if "vibrant" = "vibrant" then 30 else if "vibrant" = "muted" then 20 else 25)
        then removeDuplicateColors pre "vibrant" ++ [x]
        else removeDuplicateColors pre "vibrant") ∧
    removeDuplicateColors [⟨200, 0, 0⟩, ⟨220, 0, 0⟩, ⟨250, 0, 0⟩] "vibrant" =
      [⟨200, 0, 0⟩, ⟨250, 0, 0⟩] :=
  ⟨by decide, removeDuplicateColors_greedy _ "vibrant" (by decide), by decide⟩

/-- Every colour kept by `removeDuplicateColors` is at distance `≥ threshold`
from every colour kept before it. -/
theorem removeDuplicateColors_pairwise (xs : List Rgb) (m : String) :
    (removeDuplicateColors xs m).Pairwise
      (fun a b => belowThreshold (calculateColorDistance b a) (dedupThreshold m) = false) := by
  induction xs using List.reverseRecOn with
  | nil => simp [removeDuplicateColors_nil]
  | append_singleton pre x ih =>
    rw [removeDuplicateColors_snoc]
    by_cases h : (removeDuplicateColors pre m).any
        (fun e => belowThreshold (calculateColorDistance x e) (dedupThreshold m)) = true
    · rw [if_pos h]; exact ih
    · rw [if_neg h, List.pairwise_append]
      refine ⟨ih, List.pairwise_singleton _ _, fun a ha b hb => ?_⟩
      rw [List.mem_singleton] at hb
      subst hb
      simp only [List.any_eq_true, not_exists, not_and, Bool.not_eq_true] at h
      exact h a ha

/-- A list whose colours are pairwise at distance `≥ threshold` is left
unchanged by `removeDuplicateColors`. -/
theorem removeDuplicateColors_of_pairwise (xs : List Rgb) (m : String)
    (h : xs.Pairwise
      (fun a b => belowThreshold (calculateColorDistance b a) (dedupThreshold m) = false)) :
    removeDuplicateColors xs m = xs := by
  induction xs using List.reverseRecOn with
  | nil => rfl
  | append_singleton pre x ih =>
    rw [List.pairwise_append] at h
    rw [removeDuplicateColors_snoc, ih h.1, if_neg]
    simp only [List.any_eq_true, not_exists, not_and, Bool.not_eq_true]
    exact fun a ha => h.2.2 a ha x (List.mem_singleton_self x)

/-- C5. Deduplication is idempotent: applying `removeDuplicateColors` to its
own output, with the same mode, returns that output. -/
theorem removeDuplicateColors_idempotent (xs : List Rgb) (m : String) :
    removeDuplicateColors (removeDuplicateColors xs m) m = removeDuplicateColors xs m :=
  removeDuplicateColors_of_pairwise _ m (removeDuplicateColors_pairwise xs m)

/-! ### Mode filter -/

theorem max3_eq_zero_iff (c : Rgb) (h : c.InRange) :
    max3 c.r c.g c.b = 0 ↔ c = ⟨0, 0, 0⟩ := by
  obtain ⟨⟨hr, _⟩, ⟨hg, _⟩, ⟨hb, _⟩⟩ := h
  cases c with
  | mk r g b =>
    simp only [max3, Rgb.mk.injEq] at *
    constructor
    · intro hm
      have h1 : max r g ≤ 0 := hm ▸ le_max_left _ _
      have h2 : b ≤ 0 := hm ▸ le_max_right _ _
      have h3 : r ≤ 0 := (le_max_left r g).trans h1
      have h4 : g ≤ 0 := (le_max_right r g).trans h1
      omega
    · rintro ⟨rfl, rfl, rfl⟩
      rfl

theorem isVibrantColor_eq (c : Rgb) (h : c.InRange) :
    isVibrantColor c =
      decide (specSaturation c > 4 / 10 ∧ ((max3 c.r c.g c.b : Int) : ℚ) / 255 > 3 / 10) := by
  unfold isVibrantColor specSaturation
  simp only [max3_eq_zero_iff c h, Bool.decide_and]

theorem isMutedColor_eq (c : Rgb) (h : c.InRange) :
    isMutedColor c = decide (specSaturation c < 6 / 10) := by
  unfold isMutedColor specSaturation
  simp only [max3_eq_zero_iff c h]

/-- C6. On colours with channels in `[0, 255]`, `adjustColorsByMode` keeps, in
order, exactly the colours passing the mode test: in vibrant mode saturation
`> 0.4` and `max / 255 > 0.3`, in muted mode saturation `< 0.6`, in balanced
mode every colour; saturation being `(max - min) / max`, and `0` for black. -/
theorem adjustColorsByMode_filter (colors : List Rgb) (h : ∀ c ∈ colors, c.InRange) :
    adjustColorsByMode colors "vibrant" =
        colors.filter (fun c => decide
          (specSaturation c > 4 / 10 ∧ ((max3 c.r c.g c.b : Int) : ℚ) / 255 > 3 / 10)) ∧
    adjustColorsByMode colors "muted" =
        colors.filter (fun c => decide (specSaturation c < 6 / 10)) ∧
    adjustColorsByMode colors "balanced" = colors := by
  refine ⟨?_, ?_, rfl⟩
  · show colors.filter (fun color => isVibrantColor color) = _
    exact List.filter_congr fun c hc => isVibrantColor_eq c (h c hc)
  · show colors.filter (fun color => isMutedColor color) = _
    exact List.filter_congr fun c hc => isMutedColor_eq c (h c hc)

/-- Witness for C6: a saturated red, a grey and black. -/
theorem adjustColorsByMode_filter_witness :
    (∀ c ∈ [(⟨255, 0, 0⟩ : Rgb), ⟨100, 100, 100⟩, ⟨0, 0, 0⟩], c.InRange) ∧
    (adjustColorsByMode [(⟨255, 0, 0⟩ : Rgb), ⟨100, 100, 100⟩, ⟨0, 0, 0⟩] "vibrant" =
        [(⟨255, 0, 0⟩ : Rgb), ⟨100, 100, 100⟩, ⟨0, 0, 0⟩].filter (fun c => decide
          (specSaturation c > 4 / 10 ∧ ((max3 c.r c.g c.b : Int) : ℚ) / 255 > 3 / 10)) ∧
    adjustColorsByMode [(⟨255, 0, 0⟩ : Rgb), ⟨100, 100, 100⟩, ⟨0, 0, 0⟩] "muted" =
        [(⟨255, 0, 0⟩ : Rgb), ⟨100, 100, 100⟩, ⟨0, 0, 0⟩].filter
          (fun c => decide (specSaturation c < 6 / 10)) ∧
    adjustColorsByMode [(⟨255, 0, 0⟩ : Rgb), ⟨100, 100, 100⟩, ⟨0, 0, 0⟩] "balanced" =
        [(⟨255, 0, 0⟩ : Rgb), ⟨100, 100, 100⟩, ⟨0, 0, 0⟩]) :=
  ⟨by decide, adjustColorsByMode_filter _ (by decide)⟩

/-! ### Candidate pipeline of `extractColors` -/

theorem adjustColorsByMode_sublist (colors : List Rgb) (m : String) :
    (adjustColorsByMode colors m).Sublist colors := by
  unfold adjustColorsByMode
  split
  · exact List.filter_sublist colors
  · exact List.filter_sublist colors
  · exact List.Sublist.refl colors
  · exact List.Sublist.refl colors

theorem slice0_natCast {α : Type} (xs : List α) (n : Nat) : slice0 xs (n : Int) = xs.take n := by
  unfold slice0
  simp

/-- C7. For every dominant colour, swatch list, mode and requested count
`n ≥ 0`, the candidate pipeline of `extractColors` returns at most `n` colours,
and they are an order-preserving subsequence of the candidate list
`[dominantColor, ...palette]`. -/
theorem extractColors_length_le_and_sublist (d : Rgb) (p : List Rgb) (m : String) (n : Nat) :
    (extractColors d p m (n : Int)).length ≤ n ∧
    (extractColors d p m (n : Int)).Sublist (d :: p) := by
  unfold extractColors
  simp only [slice0_natCast]
  refine ⟨List.length_take_le n _, ?_⟩
  exact (List.take_sublist n _).trans
    ((adjustColorsByMode_sublist _ m).trans (removeDuplicateColors_sublist _ m))

theorem removeDuplicateColors_cons_head (d : Rgb) (p : List Rgb) (m : String) :
    (removeDuplicateColors (d :: p) m).head? = some d := by
  induction p using List.reverseRecOn with
  | nil => rfl
  | append_singleton pre x ih =>
    rw [← List.cons_append, removeDuplicateColors_snoc]
    split
    · exact ih
    · cases hq : removeDuplicateColors (d :: pre) m with
      | nil => rw [hq] at ih; simp at ih
      | cons a l => rw [hq] at ih; simpa using ih

/-- C8, counterexample. With the slider at 2 (outside `[3, 15]`) the pipeline
rejects nothing: it hands a palette of two colours on to `generateColorData`;
with the slider at 20 it hands on all sixteen candidates. -/
theorem extractColors_no_rejection :
    extractColors ⟨255, 0, 0⟩ [⟨0, 255, 0⟩, ⟨0, 0, 255⟩] "balanced" (readColorCount (some 2)) =
        [⟨255, 0, 0⟩, ⟨0, 255, 0⟩] ∧
    (extractColors ⟨0, 0, 0⟩ ((List.range 15).map
          (fun i => (⟨60 * (((i + 1) / 4 : Nat) : Int), 60 * (((i + 1) % 4 : Nat) : Int), 0⟩ : Rgb)))
        "balanced" (readColorCount (some 20))).length = 16 := by
  constructor <;> decide

/-- C8, amended. `extractColors` performs no validation of the requested
count: in balanced mode, for every count `n ≥ 1` (inside or outside `[3, 15]`),
every dominant colour and every swatch list, it produces a non-empty palette
whose first colour is the dominant colour; in every mode and for every integer
count the palette is `slice(0, count)` of the deduplicated, mode-filtered
candidates. -/
theorem extractColors_unvalidated (d : Rgb) (p : List Rgb) (m : String) (n : Nat) (k : Int) :
    (extractColors d p "balanced" ((n : Int) + 1)).head? = some d ∧
    extractColors d p m k =
      slice0 (adjustColorsByMode (removeDuplicateColors (d :: p) m) m) k := by
  refine ⟨?_, rfl⟩
  have h := removeDuplicateColors_cons_head d p "balanced"
  unfold extractColors
  have e : ((n : Int) + 1) = ((n + 1 : Nat) : Int) := by push_cast; rfl
  rw [e, slice0_natCast]
  show ((removeDuplicateColors (d :: p) "balanced").take (n + 1)).head? = some d
  cases hq : removeDuplicateColors (d :: p) "balanced" with
  | nil => rw [hq] at h; simp at h
  | cons a l => rw [hq] at h; simpa using h

/-! ### Nearest candidate -/

/-- Loop invariant of `findNearestColor`: either nothing has been accepted and
every colour seen is at distance `≥ 60`, or the state holds a colour seen, its
distance, which is `< 60`, and no colour seen is nearer. -/
theorem findNearestColor_invariant (t : Rgb) (cs : List Rgb) :
    (cs.foldl (findNearestStep t) (none, none) = (none, none) ∧
        ∀ c ∈ cs, (calculateColorDistance t c).ltNum 60 = false) ∨
    ∃ r, cs.foldl (findNearestStep t) (none, none) = (some r, some (calculateColorDistance t r)) ∧
        r ∈ cs ∧ (calculateColorDistance t r).ltNum 60 = true ∧
        ∀ c ∈ cs, (calculateColorDistance t r).le (calculateColorDistance t c) := by
  induction cs using List.reverseRecOn with
  | nil => exact Or.inl ⟨rfl, by simp⟩
  | append_singleton pre x ih =>
    rw [List.foldl_append, List.foldl_cons, List.foldl_nil]
    rcases ih with ⟨hst, hall⟩ | ⟨r, hst, hmem, hlt, hmin⟩
    · rw [hst]
      by_cases hx : (calculateColorDistance t x).ltNum 60 = true
      · refine Or.inr ⟨x, by simp [findNearestStep, hx], by simp, hx, ?_⟩
        intro c hc
        rcases List.mem_append.1 hc with hc | hc
        · have := hall c hc
          simp only [Root.ltNum, Root.le, decide_eq_true_iff, decide_eq_false_iff_not] at *
          omega
        · rw [List.mem_singleton.1 hc]; exact le_refl _
      · refine Or.inl ⟨by simp [findNearestStep, hx], ?_⟩
        intro c hc
        rcases List.mem_append.1 hc with hc | hc
        · exact hall c hc
        · rw [List.mem_singleton.1 hc]; simpa using hx
    · rw [hst]
      by_cases hx : ((calculateColorDistance t x).lt (calculateColorDistance t r) &&
          (calculateColorDistance t x).ltNum 60) = true
      · refine Or.inr ⟨x, by simp [findNearestStep, hx], by simp, ?_, ?_⟩
        · simp only [Bool.and_eq_true] at hx; exact hx.2
        · intro c hc
          simp only [Bool.and_eq_true] at hx
          rcases List.mem_append.1 hc with hc | hc
          · have := hmin c hc
            have h1 := hx.1
            simp only [Root.lt, Root.le, decide_eq_true_iff] at *
            omega
          · rw [List.mem_singleton.1 hc]; exact le_refl _
      · refine Or.inr ⟨r, by simp [findNearestStep, hx], by simp [hmem], hlt, ?_⟩
        intro c hc
        rcases List.mem_append.1 hc with hc | hc
        · exact hmin c hc
        · rw [List.mem_singleton.1 hc]
          simp only [Bool.and_eq_true, not_and_or, Bool.not_eq_true] at hx
          simp only [Root.lt, Root.ltNum, Root.le, decide_eq_true_iff,
            decide_eq_false_iff_not] at *
          omega

/-- C9. `findNearestColor` returns `null` exactly when no candidate is at
distance `< 60` from the target; and a colour it returns is one of the
candidates, at distance `< 60`, and no candidate is nearer to the target. -/
theorem findNearestColor_spec (t : Rgb) (cs : List Rgb) :
    (findNearestColor t cs = none ↔
        ∀ c ∈ cs, (calculateColorDistance t c).ltNum 60 = false) ∧
    ∀ r, findNearestColor t cs = some r →
        r ∈ cs ∧ (calculateColorDistance t r).ltNum 60 = true ∧
        ∀ c ∈ cs, (calculateColorDistance t r).le (calculateColorDistance t c) := by
  unfold findNearestColor
  rcases findNearestColor_invariant t cs with ⟨hst, hall⟩ | ⟨r, hst, hmem, hlt, hmin⟩
  · rw [hst]
    exact ⟨⟨fun _ => hall, fun _ => rfl⟩, fun r hr => by simp at hr⟩
  · rw [hst]
    refine ⟨⟨fun h => by simp at h, fun h => ?_⟩, fun r2 hr => ?_⟩
    · rw [h r hmem] at hlt; simp at hlt
    · simp only [Option.some.injEq] at hr
      subst hr
      exact ⟨hmem, hlt, hmin⟩

/-! ### Background filter -/

theorem filter_enumFrom_succ {α : Type} (p : α → Nat → Bool) (q : α → Bool)
    (hp : ∀ x i, p x (i + 1) = q x) (xs : List α) (n : Nat) :
    ((xs.enumFrom (n + 1)).filter (fun ix => p ix.2 ix.1)).map Prod.snd = xs.filter q := by
  induction xs generalizing n with
  | nil => rfl
  | cons a l ih =>
    simp only [List.enumFrom_cons, List.filter_cons, hp]
    cases q a
    · simpa using ih (n + 1)
    · simpa using ih (n + 1)

theorem filterWithIndex_drop_first {α : Type} (p : α → Nat → Bool) (q : α → Bool)
    (h0 : ∀ x, p x 0 = false) (hp : ∀ x i, p x (i + 1) = q x) (a : α) (xs : List α) :
    filterWithIndex p (a :: xs) = xs.filter q := by
  unfold filterWithIndex
  simp only [List.enum, List.enumFrom_cons, List.filter_cons, h0]
  exact filter_enumFrom_succ p q hp xs 0

/-- On a non-empty list, `applySmartFilter` either returns the list or filters
its tail. -/
theorem applySmartFilter_cons (top : ClassifiedColor) (rest : List ClassifiedColor) (t : ℚ) :
    applySmartFilter (top :: rest) t =
      (if top.percentage < 100 * t then top :: rest
       else rest.filter (fun c =>
         !isBackgroundColor c.rgb && !isSimilarColor c.rgb top.rgb 30)) := by
  unfold applySmartFilter
  simp only [mul_comm t 100]
  split
  · rfl
  · exact filterWithIndex_drop_first _ _ (fun x => by simp) (fun x i => by simp) top rest

/-- C10. `applySmartFilter` returns an empty list unchanged; on a list with top
entry `top` it returns the list unchanged when `top.percentage < 100 * t`, and
otherwise, in order, exactly the entries after the first whose colour is
neither a background colour nor within distance 30 of the top entry's colour.
On the scenario `(250,250,250)` 90%, `(10,20,200)` 8%, `(255,0,0)` 2% with
`t = 0.25` the result is the last two entries. -/
theorem applySmartFilter_spec (top : ClassifiedColor) (rest : List ClassifiedColor) (t : ℚ) :
    applySmartFilter [] t = [] ∧
    applySmartFilter (top :: rest) t =
      (if top.percentage < 100 * t then top :: rest
       else rest.filter (fun c =>
         !isBackgroundColor c.rgb && !isSimilarColor c.rgb top.rgb 30)) ∧
    applySmartFilter
        [⟨⟨250, 250, 250⟩, 900, 90⟩, ⟨⟨10, 20, 200⟩, 80, 8⟩, ⟨⟨255, 0, 0⟩, 20, 2⟩] (1 / 4) =
      [⟨⟨10, 20, 200⟩, 80, 8⟩, ⟨⟨255, 0, 0⟩, 20, 2⟩] := by
  refine ⟨rfl, applySmartFilter_cons top rest t, ?_⟩
  decide!

/-! ### Synthetic percentages -/

theorem jsRound_sub_le (x : ℚ) : |((jsRound x : Int) : ℚ) - x| ≤ 1 / 2 := by
  unfold jsRound
  have h1 := Int.floor_le (x + 1 / 2)
  have h2 := Int.lt_floor_add_one (x + 1 / 2)
  rw [abs_le]
  constructor <;> linarith

/-- Rounding every element of a list to one decimal moves the sum by at most
`0.05` per element. -/
theorem sum_round_tenth_sub_le (l : List ℚ) :
    |(l.map (fun p => ((jsRound (p * 10) : Int) : ℚ) / 10)).sum - l.sum| ≤ (l.length : ℚ) / 20 := by
  induction l with
  | nil => simp
  | cons p l ih =>
    simp only [List.map_cons, List.sum_cons, List.length_cons, Nat.cast_add, Nat.cast_one]
    have hp := jsRound_sub_le (p * 10)
    rw [abs_le] at hp ih ⊢
    constructor <;> linarith [hp.1, hp.2, ih.1, ih.2]

theorem simpleShares_map_fst (rand : Nat → ℚ) (length : Nat) (colors : List Rgb) (index : Nat)
    (rem : ℚ) : (simpleShares rand length index rem colors).map Prod.fst = colors := by
  induction colors generalizing index rem with
  | nil => rfl
  | cons c rest ih => simp [simpleShares, ih]

/-- The unrounded shares of the colours from position `index` on add up to
the percentage remaining at that position. -/
theorem simpleShares_sum (rand : Nat → ℚ) (length : Nat) (colors : List Rgb) (index : Nat)
    (rem : ℚ) (hne : colors ≠ []) (hlen : index + colors.length = length) :
    ((simpleShares rand length index rem colors).map Prod.snd).sum = rem := by
  induction colors generalizing index rem with
  | nil => exact absurd rfl hne
  | cons c rest ih =>
    cases rest with
    | nil =>
      have hidx : index = length - 1 := by simp at hlen; omega
      simp [simpleShares, hidx]
    | cons c2 rest2 =>
      have hrec := ih (index + 1)
        (rem - (if index = length - 1 then rem
          else max 5 (rand index * (rem / ((length : ℚ) - (index : ℚ))))))
        (by simp) (by simp at hlen ⊢; omega)
      rw [simpleShares, List.map_cons, List.sum_cons, hrec]
      ring

/-- C3, counterexample. Three colours with the draws `0.1512` and `126/1187`
get the shares `5.04`, `5.04`, `89.92`, which round to `5`, `5`, `89.9`: the
returned percentages add up to `99.9`. -/
theorem generateSimpleColorData_sum_counterexample :
    ((0 : ℚ) ≤ 189 / 1250 ∧ (189 / 1250 : ℚ) < 1 ∧ (0 : ℚ) ≤ 126 / 1187 ∧ (126 / 1187 : ℚ) < 1) ∧
    ((generateSimpleColorData false (fun i => if i = 0 then 189 / 1250 else 126 / 1187)
        [⟨255, 0, 0⟩, ⟨0, 255, 0⟩, ⟨0, 0, 255⟩]).map (fun e => e.percentage)).sum = 999 / 10 ∧
    ((generateSimpleColorData false (fun i => if i = 0 then 189 / 1250 else 126 / 1187)
        [⟨255, 0, 0⟩, ⟨0, 255, 0⟩, ⟨0, 0, 255⟩]).map (fun e => e.percentage)).sum ≠ 100 := by
  decide!

/-- C3, amended. For every non-empty list of colours and every sequence of
draws, the shares assigned by `generateSimpleColorData` sum to exactly 100
before rounding, and the returned percentages (each rounded to one decimal)
sum to 100 within `0.05` per entry. -/
theorem generateSimpleColorData_sum (colorblindMode : Bool) (rand : Nat → ℚ) (colors : List Rgb)
    (hne : colors ≠ []) :
    ((simpleShares rand colors.length 0 100 colors).map Prod.snd).sum = 100 ∧
    |((generateSimpleColorData colorblindMode rand colors).map (fun e => e.percentage)).sum - 100|
      ≤ (colors.length : ℚ) / 20 := by
  have hs := simpleShares_sum rand colors.length colors 0 100 hne (by simp)
  refine ⟨hs, ?_⟩
  unfold generateSimpleColorData
  rw [((List.perm_insertionSort _ _).map _).sum_eq, List.map_map]
  have hr := sum_round_tenth_sub_le ((simpleShares rand colors.length 0 100 colors).map Prod.snd)
  rw [hs, List.map_map, List.length_map] at hr
  have hl : (simpleShares rand colors.length 0 100 colors).length = colors.length := by
    have := congrArg List.length (simpleShares_map_fst rand colors.length colors 0 100)
    simpa using this
  rw [hl] at hr
  exact hr

/-- Witness for C3 (amended): three colours, every draw `1/2`. -/
theorem generateSimpleColorData_sum_witness :
    ([(⟨255, 0, 0⟩ : Rgb), ⟨0, 255, 0⟩, ⟨0, 0, 255⟩] ≠ []) ∧
    (((simpleShares (fun _ => 1 / 2) [(⟨255, 0, 0⟩ : Rgb), ⟨0, 255, 0⟩, ⟨0, 0, 255⟩].length 0 100
        [(⟨255, 0, 0⟩ : Rgb), ⟨0, 255, 0⟩, ⟨0, 0, 255⟩]).map Prod.snd).sum = 100 ∧
    |((generateSimpleColorData true (fun _ => 1 / 2)
        [(⟨255, 0, 0⟩ : Rgb), ⟨0, 255, 0⟩, ⟨0, 0, 255⟩]).map (fun e => e.percentage)).sum - 100|
      ≤ ([(⟨255, 0, 0⟩ : Rgb), ⟨0, 255, 0⟩, ⟨0, 0, 255⟩].length : ℚ) / 20) :=
  ⟨by decide, generateSimpleColorData_sum true (fun _ => 1 / 2) _ (by decide)⟩

/-! ### Measured percentages -/

theorem mapIncrement_pos (key : Rgb) (m : List (Rgb × Nat)) (h : ∀ kc ∈ m, 1 ≤ kc.2) :
    ∀ kc ∈ mapIncrement key m, 1 ≤ kc.2 := by
  induction m with
  | nil =>
    intro kc hkc
    simp only [mapIncrement, List.mem_singleton] at hkc
    rw [hkc]
  | cons a rest ih =>
    obtain ⟨k, count⟩ := a
    intro kc hkc
    simp only [mapIncrement] at hkc
    split at hkc
    · rcases List.mem_cons.1 hkc with hkc | hkc
      · rw [hkc]; exact Nat.le_add_left 1 count
      · exact h kc (List.mem_cons_of_mem _ hkc)
    · rcases List.mem_cons.1 hkc with hkc | hkc
      · rw [hkc]; exact h (k, count) (List.mem_cons_self _ _)
      · exact ih (fun x hx => h x (List.mem_cons_of_mem _ hx)) kc hkc

/-- Every entry of the map `colorCounts` has a count of at least one. -/
theorem countColors_pos (pixels : List Pixel) (extractedColors : List Rgb) (portrait : Bool) :
    ∀ kc ∈ countColors pixels extractedColors portrait, 1 ≤ kc.2 := by
  unfold countColors
  induction pixels using List.reverseRecOn with
  | nil => simp
  | append_singleton pre px ih =>
    rw [List.foldl_append, List.foldl_cons, List.foldl_nil]
    split
    · exact ih
    · split
      · exact ih
      · split
        · exact mapIncrement_pos _ _ ih
        · exact ih

theorem classifiedColors_pos (imageData : List Pixel) (extractedColors : List Rgb)
    (portrait : Bool) :
    ∀ c ∈ classifiedColors imageData extractedColors portrait, 1 ≤ c.count := by
  intro c hc
  unfold classifiedColors at hc
  rw [(List.perm_insertionSort _ _).mem_iff, List.mem_map] at hc
  obtain ⟨kc, hkc, rfl⟩ := hc
  exact countColors_pos _ _ _ kc hkc

theorem applySmartFilter_sublist (colorArray : List ClassifiedColor) (t : ℚ) :
    (applySmartFilter colorArray t).Sublist colorArray := by
  cases colorArray with
  | nil => exact List.Sublist.refl _
  | cons top rest =>
    rw [applySmartFilter_cons]
    split
    · exact List.Sublist.refl _
    · exact (List.filter_sublist rest).trans (List.sublist_cons_self top rest)

theorem foldl_add_count {α : Type} (f : α → Nat) (l : List α) (init : Nat) :
    l.foldl (fun sum x => sum + f x) init = init + (l.map f).sum := by
  induction l generalizing init with
  | nil => simp
  | cons a l ih => simp [ih, Nat.add_assoc]

/-- Rounding each share `c / T * 1000` to an integer and dividing by ten moves
the sum of the shares, `100 * (Σ c) / T`, by at most `0.05` per entry. -/
theorem sum_round_permille_sub_le (cs : List Nat) (T : ℚ) :
    |(cs.map (fun (c : Nat) => ((jsRound ((c : ℚ) / T * 1000) : Int) : ℚ) / 10)).sum
        - ((cs.map (fun (c : Nat) => (c : ℚ))).sum / T * 100)| ≤ (cs.length : ℚ) / 20 := by
  induction cs with
  | nil => simp
  | cons c cs ih =>
    simp only [List.map_cons, List.sum_cons, List.length_cons, Nat.cast_add, Nat.cast_one]
    have hp := jsRound_sub_le ((c : ℚ) / T * 1000)
    rw [abs_le] at hp ih ⊢
    have e : ((c : ℚ) + (cs.map (fun (c : Nat) => (c : ℚ))).sum) / T * 100 =
        (c : ℚ) / T * 1000 / 10 + (cs.map (fun (c : Nat) => (c : ℚ))).sum / T * 100 := by ring
    rw [e]
    constructor <;> linarith [hp.1, hp.2, ih.1, ih.2]

/-- The palette of `analyzeImageColors` in terms of the filtered classified
colours and the sum of their counts. -/
theorem analyzeImageColors_eq (colorblindMode : Bool) (imageData : List Pixel)
    (extractedColors : List Rgb) (portrait : Bool) :
    analyzeImageColors colorblindMode imageData extractedColors portrait =
      (applySmartFilter (classifiedColors imageData extractedColors portrait) (25 / 100)).map
        (fun c => ({ rgb := c.rgb
                     hex := rgbToHex c.rgb.r c.rgb.g c.rgb.b
                     percentage := ((jsRound ((c.count : ℚ) /
                       ((((applySmartFilter (classifiedColors imageData extractedColors portrait)
                          (25 / 100)).map (fun c => c.count)).sum : Nat) : ℚ) * 1000) : Int) : ℚ) / 10
                     accessibility := calculateAccessibility colorblindMode c.rgb } :
                   PaletteEntry)) := by
  unfold analyzeImageColors addAccessibilityInfo
  simp only [foldl_add_count, List.map_map, Nat.zero_add]
  rfl

theorem analyzeImageColors_sum_sub_le (colorblindMode : Bool) (imageData : List Pixel)
    (extractedColors : List Rgb) (portrait : Bool)
    (hne : analyzeImageColors colorblindMode imageData extractedColors portrait ≠ []) :
    |((analyzeImageColors colorblindMode imageData extractedColors portrait).map
        (fun e => e.percentage)).sum - 100|
      ≤ ((analyzeImageColors colorblindMode imageData extractedColors portrait).length : ℚ) / 20 := by
  rw [analyzeImageColors_eq] at hne ⊢
  generalize hF : applySmartFilter (classifiedColors imageData extractedColors portrait)
    (25 / 100) = F at hne ⊢
  have hpos : ∀ c ∈ F, 1 ≤ c.count := fun c hc =>
    classifiedColors_pos imageData extractedColors portrait c
      ((applySmartFilter_sublist _ _).subset (hF ▸ hc))
  have hFne : F ≠ [] := fun h => hne (by rw [h]; rfl)
  have hT : 1 ≤ (F.map (fun c => c.count)).sum := by
    cases F with
    | nil => exact absurd rfl hFne
    | cons a l =>
      have := hpos a (List.mem_cons_self _ _)
      simp only [List.map_cons, List.sum_cons]
      omega
  have hTq : (((F.map (fun c => c.count)).sum : Nat) : ℚ) ≠ 0 := by
    have : (0 : ℚ) < (((F.map (fun c => c.count)).sum : Nat) : ℚ) := by exact_mod_cast hT
    exact ne_of_gt this
  have key := sum_round_permille_sub_le (F.map (fun c => c.count))
    (((F.map (fun c => c.count)).sum : Nat) : ℚ)
  have hs : ((F.map (fun c => c.count)).map (fun (c : Nat) => (c : ℚ))).sum =
      (((F.map (fun c => c.count)).sum : Nat) : ℚ) := by
    rw [Nat.cast_list_sum]
  rw [hs, div_self hTq, one_mul, List.map_map, List.length_map] at key
  simp only [List.map_map, List.length_map]
  exact key

/-- C2, amended. Whenever `analyzeImageColors` returns a non-empty palette of
`n` entries, the returned percentages sum to 100 within `0.05 * n`; in
particular the sum lies in `[99.5, 100.5]` when the palette has at most ten
entries. -/
theorem analyzeImageColors_sum (colorblindMode : Bool) (imageData : List Pixel)
    (extractedColors : List Rgb) (portrait : Bool)
    (hne : analyzeImageColors colorblindMode imageData extractedColors portrait ≠ []) :
    |((analyzeImageColors colorblindMode imageData extractedColors portrait).map
        (fun e => e.percentage)).sum - 100|
      ≤ ((analyzeImageColors colorblindMode imageData extractedColors portrait).length : ℚ) / 20 ∧
    ((analyzeImageColors colorblindMode imageData extractedColors portrait).length ≤ 10 →
      995 / 10 ≤ ((analyzeImageColors colorblindMode imageData extractedColors portrait).map
        (fun e => e.percentage)).sum ∧
      ((analyzeImageColors colorblindMode imageData extractedColors portrait).map
        (fun e => e.percentage)).sum ≤ 1005 / 10) := by
  have h := analyzeImageColors_sum_sub_le colorblindMode imageData extractedColors portrait hne
  refine ⟨h, fun hlen => ?_⟩
  have hl : ((analyzeImageColors colorblindMode imageData extractedColors portrait).length : ℚ)
      ≤ 10 := by exact_mod_cast hlen
  rw [abs_le] at h
  constructor <;> linarith [h.1, h.2]

/-- Witness for C2 (amended): four opaque pixels, three red and one blue, and
the candidates red, green, blue. -/
theorem analyzeImageColors_sum_witness :
    analyzeImageColors true
        [⟨255, 0, 0, 255⟩, ⟨250, 5, 0, 255⟩, ⟨0, 0, 255, 255⟩, ⟨255, 0, 0, 200⟩]
        [⟨255, 0, 0⟩, ⟨0, 255, 0⟩, ⟨0, 0, 255⟩] false ≠ [] ∧
    (|((analyzeImageColors true
        [⟨255, 0, 0, 255⟩, ⟨250, 5, 0, 255⟩, ⟨0, 0, 255, 255⟩, ⟨255, 0, 0, 200⟩]
        [⟨255, 0, 0⟩, ⟨0, 255, 0⟩, ⟨0, 0, 255⟩] false).map (fun e => e.percentage)).sum - 100|
      ≤ ((analyzeImageColors true
        [⟨255, 0, 0, 255⟩, ⟨250, 5, 0, 255⟩, ⟨0, 0, 255, 255⟩, ⟨255, 0, 0, 200⟩]
        [⟨255, 0, 0⟩, ⟨0, 255, 0⟩, ⟨0, 0, 255⟩] false).length : ℚ) / 20 ∧
    ((analyzeImageColors true
        [⟨255, 0, 0, 255⟩, ⟨250, 5, 0, 255⟩, ⟨0, 0, 255, 255⟩, ⟨255, 0, 0, 200⟩]
        [⟨255, 0, 0⟩, ⟨0, 255, 0⟩, ⟨0, 0, 255⟩] false).length ≤ 10 →
      995 / 10 ≤ ((analyzeImageColors true
        [⟨255, 0, 0, 255⟩, ⟨250, 5, 0, 255⟩, ⟨0, 0, 255, 255⟩, ⟨255, 0, 0, 200⟩]
        [⟨255, 0, 0⟩, ⟨0, 255, 0⟩, ⟨0, 0, 255⟩] false).map (fun e => e.percentage)).sum ∧
      ((analyzeImageColors true
        [⟨255, 0, 0, 255⟩, ⟨250, 5, 0, 255⟩, ⟨0, 0, 255, 255⟩, ⟨255, 0, 0, 200⟩]
        [⟨255, 0, 0⟩, ⟨0, 255, 0⟩, ⟨0, 0, 255⟩] false).map (fun e => e.percentage)).sum
          ≤ 1005 / 10)) :=
  ⟨by decide!, analyzeImageColors_sum true _ _ false (by decide!)⟩

/-- C2, counterexample. Sixteen opaque pixels over twelve candidates, ten of
them hit once and two three times: the top share is 18.75% (below the 25%
background threshold), the twelve returned percentages are ten times `6.3`
and twice `18.8`, and their sum is `100.6`. -/
theorem analyzeImageColors_sum_counterexample :
    (analyzeImageColors false
      [
      ⟨0, 0, 0, 255⟩, ⟨0, 80, 0, 255⟩, ⟨0, 160, 0, 255⟩, ⟨0, 240, 0, 255⟩,
      ⟨80, 0, 0, 255⟩, ⟨80, 80, 0, 255⟩, ⟨80, 160, 0, 255⟩, ⟨80, 240, 0, 255⟩,
      ⟨160, 0, 0, 255⟩, ⟨160, 80, 0, 255⟩, ⟨160, 160, 0, 255⟩, ⟨160, 240, 0, 255⟩,
      ⟨0, 0, 0, 255⟩, ⟨0, 0, 0, 255⟩, ⟨0, 80, 0, 255⟩, ⟨0, 80, 0, 255⟩]
      [
      ⟨0, 0, 0⟩, ⟨0, 80, 0⟩, ⟨0, 160, 0⟩, ⟨0, 240, 0⟩,
      ⟨80, 0, 0⟩, ⟨80, 80, 0⟩, ⟨80, 160, 0⟩, ⟨80, 240, 0⟩,
      ⟨160, 0, 0⟩, ⟨160, 80, 0⟩, ⟨160, 160, 0⟩, ⟨160, 240, 0⟩] false).length = 12 ∧
    ((analyzeImageColors false
      [
      ⟨0, 0, 0, 255⟩, ⟨0, 80, 0, 255⟩, ⟨0, 160, 0, 255⟩, ⟨0, 240, 0, 255⟩,
      ⟨80, 0, 0, 255⟩, ⟨80, 80, 0, 255⟩, ⟨80, 160, 0, 255⟩, ⟨80, 240, 0, 255⟩,
      ⟨160, 0, 0, 255⟩, ⟨160, 80, 0, 255⟩, ⟨160, 160, 0, 255⟩, ⟨160, 240, 0, 255⟩,
      ⟨0, 0, 0, 255⟩, ⟨0, 0, 0, 255⟩, ⟨0, 80, 0, 255⟩, ⟨0, 80, 0, 255⟩]
      [
      ⟨0, 0, 0⟩, ⟨0, 80, 0⟩, ⟨0, 160, 0⟩, ⟨0, 240, 0⟩,
      ⟨80, 0, 0⟩, ⟨80, 80, 0⟩, ⟨80, 160, 0⟩, ⟨80, 240, 0⟩,
      ⟨160, 0, 0⟩, ⟨160, 80, 0⟩, ⟨160, 160, 0⟩, ⟨160, 240, 0⟩] false).map (fun e => e.percentage)).sum = 1006 / 10 ∧
    ¬ (((analyzeImageColors false
      [
      ⟨0, 0, 0, 255⟩, ⟨0, 80, 0, 255⟩, ⟨0, 160, 0, 255⟩, ⟨0, 240, 0, 255⟩,
      ⟨80, 0, 0, 255⟩, ⟨80, 80, 0, 255⟩, ⟨80, 160, 0, 255⟩, ⟨80, 240, 0, 255⟩,
      ⟨160, 0, 0, 255⟩, ⟨160, 80, 0, 255⟩, ⟨160, 160, 0, 255⟩, ⟨160, 240, 0, 255⟩,
      ⟨0, 0, 0, 255⟩, ⟨0, 0, 0, 255⟩, ⟨0, 80, 0, 255⟩, ⟨0, 80, 0, 255⟩]
      [
      ⟨0, 0, 0⟩, ⟨0, 80, 0⟩, ⟨0, 160, 0⟩, ⟨0, 240, 0⟩,
      ⟨80, 0, 0⟩, ⟨80, 80, 0⟩, ⟨80, 160, 0⟩, ⟨80, 240, 0⟩,
      ⟨160, 0, 0⟩, ⟨160, 80, 0⟩, ⟨160, 160, 0⟩, ⟨160, 240, 0⟩] false).map (fun e => e.percentage)).sum ≤ 1005 / 10) := by
  decide!

/-! ### HSL round trip -/

theorem jsRound_intCast (n : Int) : jsRound (n : ℚ) = n := by
  unfold jsRound
  rw [Int.floor_eq_iff]
  constructor <;> linarith

theorem jsRound_mono {x y : ℚ} (h : x ≤ y) : jsRound x ≤ jsRound y := by
  unfold jsRound
  exact Int.floor_mono (by linarith)

theorem le_jsRound {n : Int} {x : ℚ} (h : (n : ℚ) ≤ x) : n ≤ jsRound x := by
  have := jsRound_mono h
  rwa [jsRound_intCast] at this

theorem jsRound_le {n : Int} {x : ℚ} (h : x ≤ (n : ℚ)) : jsRound x ≤ n := by
  have := jsRound_mono h
  rwa [jsRound_intCast] at this

/-- A number within `5/2` of an integer rounds to within 2 of it. -/
theorem jsRound_near (n : Int) (x : ℚ) (h : |x - (n : ℚ)| < 5 / 2) : |jsRound x - n| ≤ 2 := by
  rw [abs_lt] at h
  rw [abs_le]
  unfold jsRound
  constructor
  · have : n - 2 ≤ ⌊x + 1 / 2⌋ := Int.le_floor.2 (by push_cast; linarith [h.1])
    linarith
  · have : ⌊x + 1 / 2⌋ < n + 3 := Int.floor_lt.2 (by push_cast; linarith [h.2])
    omega

theorem hue2rgb_unit (p q t : ℚ) (h0 : 0 ≤ t) (h1 : t ≤ 1) :
    hue2rgb p q t =
      if t < 1 / 6 then p + (q - p) * 6 * t
      else if t < 1 / 2 then q
      else if t < 2 / 3 then p + (q - p) * (2 / 3 - t) * 6
      else p := by
  unfold hue2rgb
  simp only [if_neg (not_lt.2 h0), gt_iff_lt, if_neg (not_lt.2 h1)]

theorem hue2rgb_below (p q t : ℚ) (h0 : t < 0) (h1 : -1 ≤ t) :
    hue2rgb p q t = hue2rgb p q (t + 1) := by
  unfold hue2rgb
  simp only [if_pos h0, if_neg (not_lt.2 (by linarith : (0 : ℚ) ≤ t + 1))]

theorem hue2rgb_above (p q t : ℚ) (h0 : 1 < t) (h1 : t ≤ 2) :
    hue2rgb p q t = hue2rgb p q (t - 1) := by
  unfold hue2rgb
  simp only [if_neg (not_lt.2 (le_of_lt (lt_trans zero_lt_one h0))), gt_iff_lt, if_pos h0,
    if_neg (not_lt.2 (by linarith : (0 : ℚ) ≤ t - 1)), if_neg (not_lt.2 (by linarith : t - 1 ≤ 1))]

theorem hue2rgb_rise (p q t : ℚ) (h0 : 0 ≤ t) (h1 : t ≤ 1 / 6) :
    hue2rgb p q t = p + (q - p) * 6 * t := by
  rw [hue2rgb_unit p q t (by linarith) (by linarith)]
  split_ifs <;> first | ring1 | (exfalso; linarith) | ((have ht : t = 1 / 6 := by linarith); rw [ht]; ring1)

theorem hue2rgb_top (p q t : ℚ) (h0 : 1 / 6 ≤ t) (h1 : t ≤ 1 / 2) :
    hue2rgb p q t = q := by
  rw [hue2rgb_unit p q t (by linarith) (by linarith)]
  split_ifs <;> first | ring1 | (exfalso; linarith) | ((have ht : t = 1 / 2 := by linarith); rw [ht]; ring1)

theorem hue2rgb_fall (p q t : ℚ) (h0 : 1 / 2 ≤ t) (h1 : t ≤ 2 / 3) :
    hue2rgb p q t = p + (q - p) * (2 / 3 - t) * 6 := by
  rw [hue2rgb_unit p q t (by linarith) (by linarith)]
  split_ifs <;> first | ring1 | (exfalso; linarith) | ((have ht : t = 2 / 3 := by linarith); rw [ht]; ring1)

theorem hue2rgb_bottom (p q t : ℚ) (h0 : 2 / 3 ≤ t) (h1 : t ≤ 1) :
    hue2rgb p q t = p := by
  rw [hue2rgb_unit p q t (by linarith) (by linarith)]
  split_ifs <;> first | ring1 | (exfalso; linarith)

theorem hue2rgb_neg (p q t : ℚ) (h0 : -(1 / 3) ≤ t) (h1 : t < 0) : hue2rgb p q t = p := by
  rw [hue2rgb_below p q t h1 (by linarith)]
  exact hue2rgb_bottom p q (t + 1) (by linarith) (by linarith)

theorem hue2rgb_wrap_rise (p q t : ℚ) (h0 : 1 < t) (h1 : t ≤ 1 + 1 / 6) :
    hue2rgb p q t = p + (q - p) * 6 * (t - 1) := by
  rw [hue2rgb_above p q t h0 (by linarith)]
  exact hue2rgb_rise p q (t - 1) (by linarith) (by linarith)

theorem hue2rgb_wrap_top (p q t : ℚ) (h0 : 1 + 1 / 6 ≤ t) (h1 : t ≤ 1 + 1 / 2) :
    hue2rgb p q t = q := by
  rw [hue2rgb_above p q t (by linarith) (by linarith)]
  exact hue2rgb_top p q (t - 1) (by linarith) (by linarith)

/-- With the saturation and lightness that `rgbToHsl` derives from the extreme
channels `mn < mx`, `hslToRgb` interpolates between exactly these extremes. -/
theorem hslToRgb_of_extremes (mx mn hue : ℚ) (h0 : 0 ≤ mn) (h1 : mn < mx) (h2 : mx ≤ 1) :
    hslToRgb hue
        (if (mx + mn) / 2 > 1 / 2 then (mx - mn) / (2 - mx - mn) else (mx - mn) / (mx + mn))
        ((mx + mn) / 2) =
      ⟨jsRound (hue2rgb mn mx (hue / 360 + 1 / 3) * 255),
       jsRound (hue2rgb mn mx (hue / 360) * 255),
       jsRound (hue2rgb mn mx (hue / 360 - 1 / 3) * 255)⟩ := by
  have hd : 0 < mx - mn := by linarith
  have hs1 : 0 < 2 - mx - mn := by linarith
  have hs2 : 0 < mx + mn := by linarith
  have hs : (if (mx + mn) / 2 > 1 / 2 then (mx - mn) / (2 - mx - mn)
      else (mx - mn) / (mx + mn)) ≠ 0 := by
    split_ifs
    · exact ne_of_gt (div_pos hd hs1)
    · exact ne_of_gt (div_pos hd hs2)
  have hq : (if (mx + mn) / 2 < 1 / 2 then
        (mx + mn) / 2 * (1 + (if (mx + mn) / 2 > 1 / 2 then (mx - mn) / (2 - mx - mn)
          else (mx - mn) / (mx + mn)))
      else (mx + mn) / 2 + (if (mx + mn) / 2 > 1 / 2 then (mx - mn) / (2 - mx - mn)
          else (mx - mn) / (mx + mn)) - (mx + mn) / 2 * (if (mx + mn) / 2 > 1 / 2 then
            (mx - mn) / (2 - mx - mn) else (mx - mn) / (mx + mn))) = mx := by
    split_ifs with ha hb hb
    · exfalso; linarith
    · field_simp; ring
    · field_simp; ring
    · have e : mn = 1 - mx := by linarith
      subst e
      field_simp
      ring
  unfold hslToRgb
  rw [if_neg hs]
  simp only [hq]
  have hp : 2 * ((mx + mn) / 2) - mx = mn := by ring
  rw [hp]

theorem hue2rgb_low (p q t : ℚ) (h0 : -(1 / 3) ≤ t) (h1 : t ≤ 0) : hue2rgb p q t = p := by
  rcases lt_or_eq_of_le h1 with h | h
  · exact hue2rgb_neg p q t h0 h
  · rw [h, hue2rgb_rise p q 0 le_rfl (by norm_num)]
    ring

theorem jsRound_scaled (m : Int) : jsRound ((m : ℚ) / 255 * 255) = m := by
  rw [div_mul_cancel₀ _ (by norm_num : (255 : ℚ) ≠ 0)]
  exact jsRound_intCast m

/-- A channel interpolated at the rounded hue `x` instead of the exact hue `y`
stays within `5/2` of the channel it came from. -/
theorem interp_near (mn c : Int) (D x y : ℚ) (hD0 : 0 ≤ D) (hD : D ≤ 255)
    (hxy : |x - y| ≤ 1 / 2) (hc : (c : ℚ) = (mn : ℚ) + D * y / 60) :
    |((mn : ℚ) + D * x / 60) - (c : ℚ)| < 5 / 2 := by
  rw [hc]
  have e : ((mn : ℚ) + D * x / 60) - ((mn : ℚ) + D * y / 60) = D * (x - y) / 60 := by ring
  rw [e, abs_lt]
  rw [abs_le] at hxy
  constructor <;> nlinarith [hxy.1, hxy.2]

theorem hue2rgb_wrap_rise_le (p q t : ℚ) (h0 : 1 ≤ t) (h1 : t ≤ 1 + 1 / 6) :
    hue2rgb p q t = p + (q - p) * 6 * (t - 1) := by
  rcases lt_or_eq_of_le h0 with h | h
  · exact hue2rgb_wrap_rise p q t h h1
  · rw [← h, hue2rgb_bottom p q 1 (by norm_num) le_rfl]
    ring

theorem roundtrip_max_r_min_b (R G B : Int) (h0 : 0 ≤ B) (h255 : R ≤ 255) (hBG : B ≤ G) (hGR : G ≤ R) (hBR : B < R) :
    |(hslToRgb ((rgbToHsl R G B).1 : ℚ) (rgbToHsl R G B).2.1 (rgbToHsl R G B).2.2).r - R| ≤ 2 ∧
    |(hslToRgb ((rgbToHsl R G B).1 : ℚ) (rgbToHsl R G B).2.1 (rgbToHsl R G B).2.2).g - G| ≤ 2 ∧
    |(hslToRgb ((rgbToHsl R G B).1 : ℚ) (rgbToHsl R G B).2.1 (rgbToHsl R G B).2.2).b - B| ≤ 2 := by
  have hp : (0 : ℚ) < 255 := by norm_num
  have h0q : (0 : ℚ) ≤ (B : ℚ) := by exact_mod_cast h0
  have h255q : (R : ℚ) ≤ 255 := by exact_mod_cast h255
  have hmid1 : (B : ℚ) ≤ (G : ℚ) := by exact_mod_cast (by omega : B ≤ G)
  have hmid2 : (G : ℚ) ≤ (R : ℚ) := by exact_mod_cast (by omega : G ≤ R)
  have hlt : (B : ℚ) < (R : ℚ) := by exact_mod_cast (by omega : B < R)
  have hg : ((G : ℚ) / 255) ≤ ((R : ℚ) / 255) :=
    div_le_div_of_nonneg_right (by exact_mod_cast (by omega : G ≤ R)) hp.le
  have hb : ((B : ℚ) / 255) ≤ ((R : ℚ) / 255) :=
    div_le_div_of_nonneg_right (by exact_mod_cast (by omega : B ≤ R)) hp.le
  have kr : ((B : ℚ) / 255) ≤ ((R : ℚ) / 255) :=
    div_le_div_of_nonneg_right (by exact_mod_cast (by omega : B ≤ R)) hp.le
  have kg : ((B : ℚ) / 255) ≤ ((G : ℚ) / 255) :=
    div_le_div_of_nonneg_right (by exact_mod_cast (by omega : B ≤ G)) hp.le
  have mlt : ((B : ℚ) / 255) < ((R : ℚ) / 255) := div_lt_div_of_pos_right hlt hp
  have hmax : max (max ((R : ℚ) / 255) ((G : ℚ) / 255)) ((B : ℚ) / 255) = ((R : ℚ) / 255) :=
    le_antisymm (max_le (max_le le_rfl hg) hb) (le_trans (le_max_left _ _) (le_max_left _ _))
  have hmin : min (min ((R : ℚ) / 255) ((G : ℚ) / 255)) ((B : ℚ) / 255) = ((B : ℚ) / 255) :=
    le_antisymm (min_le_right _ _) (le_min (le_min kr kg) le_rfl)
  have hsl : rgbToHsl R G B =
      (jsRound (((((G : ℚ) / 255) - ((B : ℚ) / 255)) / (((R : ℚ) / 255) - ((B : ℚ) / 255)) + 0) / 6 * 360),
       (if (((R : ℚ) / 255) + ((B : ℚ) / 255)) / 2 > 1 / 2 then (((R : ℚ) / 255) - ((B : ℚ) / 255)) / (2 - ((R : ℚ) / 255) - ((B : ℚ) / 255))
        else (((R : ℚ) / 255) - ((B : ℚ) / 255)) / (((R : ℚ) / 255) + ((B : ℚ) / 255))),
       (((R : ℚ) / 255) + ((B : ℚ) / 255)) / 2) := by
    unfold rgbToHsl
    simp only [hmax, hmin, if_neg (ne_of_gt mlt), if_true, if_neg (not_lt.2 kg)]
  rw [hsl]
  simp only
  rw [hslToRgb_of_extremes _ _ _ (div_nonneg h0q hp.le) mlt ((div_le_one hp).2 h255q)]
  simp only
  have hD : (0 : ℚ) < (R : ℚ) - (B : ℚ) := by linarith
  have hstar : ((((G : ℚ) / 255) - ((B : ℚ) / 255)) / (((R : ℚ) / 255) - ((B : ℚ) / 255)) + 0) / 6 * 360
      = 60 * ((G : ℚ) - B) / ((R : ℚ) - B) := by
    field_simp
    ring
  rw [hstar]
  have herr := jsRound_sub_le (60 * ((G : ℚ) - B) / ((R : ℚ) - B))
  have hfrac0 : (0 : ℚ) ≤ 60 * ((G : ℚ) - B) / ((R : ℚ) - B) :=
    div_nonneg (by linarith) hD.le
  have hfrac1 : 60 * ((G : ℚ) - B) / ((R : ℚ) - B) ≤ 60 := by
    rw [div_le_iff₀ hD]
    linarith
  have hlo : ((0 : Int) : ℚ) ≤ (jsRound (60 * ((G : ℚ) - B) / ((R : ℚ) - B)) : ℚ) := by
    have : (0 : Int) ≤ jsRound (60 * ((G : ℚ) - B) / ((R : ℚ) - B)) := le_jsRound (by
      push_cast
      linarith)
    exact_mod_cast this
  have hhi : (jsRound (60 * ((G : ℚ) - B) / ((R : ℚ) - B)) : ℚ) ≤ ((60 : Int) : ℚ) := by
    have : jsRound (60 * ((G : ℚ) - B) / ((R : ℚ) - B)) ≤ (60 : Int) := jsRound_le (by
      push_cast
      linarith)
    exact_mod_cast this
  push_cast at hlo hhi
  generalize jsRound (60 * ((G : ℚ) - B) / ((R : ℚ) - B)) = h' at herr hlo hhi ⊢
  refine ⟨?_, ?_, ?_⟩
  · rw [hue2rgb_top _ _ _ (by linarith) (by linarith), jsRound_scaled]
    simp
  · rw [hue2rgb_rise _ _ _ (by linarith) (by linarith)]
    apply jsRound_near
    have hxy : |(h' : ℚ) - (60 * ((G : ℚ) - B) / ((R : ℚ) - B))| ≤ 1 / 2 := by
      rw [abs_le] at herr ⊢
      constructor <;> linarith [herr.1, herr.2]
    have := interp_near B G ((R : ℚ) - B) (h' : ℚ) (60 * ((G : ℚ) - B) / ((R : ℚ) - B))
      hD.le (by linarith) hxy (by field_simp)
    convert this using 2
    field_simp
    ring
  · rw [hue2rgb_low _ _ _ (by linarith) (by linarith), jsRound_scaled]
    simp

theorem roundtrip_max_r_min_g (R G B : Int) (h0 : 0 ≤ G) (h255 : R ≤ 255) (hGB : G < B) (hBR : B ≤ R) :
    |(hslToRgb ((rgbToHsl R G B).1 : ℚ) (rgbToHsl R G B).2.1 (rgbToHsl R G B).2.2).r - R| ≤ 2 ∧
    |(hslToRgb ((rgbToHsl R G B).1 : ℚ) (rgbToHsl R G B).2.1 (rgbToHsl R G B).2.2).g - G| ≤ 2 ∧
    |(hslToRgb ((rgbToHsl R G B).1 : ℚ) (rgbToHsl R G B).2.1 (rgbToHsl R G B).2.2).b - B| ≤ 2 := by
  have hp : (0 : ℚ) < 255 := by norm_num
  have h0q : (0 : ℚ) ≤ (G : ℚ) := by exact_mod_cast h0
  have h255q : (R : ℚ) ≤ 255 := by exact_mod_cast h255
  have hmid1 : (G : ℚ) ≤ (B : ℚ) := by exact_mod_cast (by omega : G ≤ B)
  have hmid2 : (B : ℚ) ≤ (R : ℚ) := by exact_mod_cast (by omega : B ≤ R)
  have hlt : (G : ℚ) < (R : ℚ) := by exact_mod_cast (by omega : G < R)
  have hg : ((G : ℚ) / 255) ≤ ((R : ℚ) / 255) :=
    div_le_div_of_nonneg_right (by exact_mod_cast (by omega : G ≤ R)) hp.le
  have hb : ((B : ℚ) / 255) ≤ ((R : ℚ) / 255) :=
    div_le_div_of_nonneg_right (by exact_mod_cast (by omega : B ≤ R)) hp.le
  have kr : ((G : ℚ) / 255) ≤ ((R : ℚ) / 255) :=
    div_le_div_of_nonneg_right (by exact_mod_cast (by omega : G ≤ R)) hp.le
  have kb : ((G : ℚ) / 255) ≤ ((B : ℚ) / 255) :=
    div_le_div_of_nonneg_right (by exact_mod_cast (by omega : G ≤ B)) hp.le
  have mlt : ((G : ℚ) / 255) < ((R : ℚ) / 255) := div_lt_div_of_pos_right hlt hp
  have glb : ((G : ℚ) / 255) < ((B : ℚ) / 255) :=
    div_lt_div_of_pos_right (by exact_mod_cast hGB) hp
  have hmax : max (max ((R : ℚ) / 255) ((G : ℚ) / 255)) ((B : ℚ) / 255) = ((R : ℚ) / 255) :=
    le_antisymm (max_le (max_le le_rfl hg) hb) (le_trans (le_max_left _ _) (le_max_left _ _))
  have hmin : min (min ((R : ℚ) / 255) ((G : ℚ) / 255)) ((B : ℚ) / 255) = ((G : ℚ) / 255) :=
    le_antisymm (le_trans (min_le_left _ _) (min_le_right _ _)) (le_min (le_min kr le_rfl) kb)
  have hsl : rgbToHsl R G B =
      (jsRound (((((G : ℚ) / 255) - ((B : ℚ) / 255)) / (((R : ℚ) / 255) - ((G : ℚ) / 255)) + 6) / 6 * 360),
       (if (((R : ℚ) / 255) + ((G : ℚ) / 255)) / 2 > 1 / 2 then (((R : ℚ) / 255) - ((G : ℚ) / 255)) / (2 - ((R : ℚ) / 255) - ((G : ℚ) / 255))
        else (((R : ℚ) / 255) - ((G : ℚ) / 255)) / (((R : ℚ) / 255) + ((G : ℚ) / 255))),
       (((R : ℚ) / 255) + ((G : ℚ) / 255)) / 2) := by
    unfold rgbToHsl
    simp only [hmax, hmin, if_neg (ne_of_gt mlt), if_true, if_pos glb]
  rw [hsl]
  simp only
  rw [hslToRgb_of_extremes _ _ _ (div_nonneg h0q hp.le) mlt ((div_le_one hp).2 h255q)]
  simp only
  have hD : (0 : ℚ) < (R : ℚ) - (G : ℚ) := by linarith
  have hstar : ((((G : ℚ) / 255) - ((B : ℚ) / 255)) / (((R : ℚ) / 255) - ((G : ℚ) / 255)) + 6) / 6 * 360
      = 360 - 60 * ((B : ℚ) - G) / ((R : ℚ) - G) := by
    field_simp
    ring
  rw [hstar]
  have herr := jsRound_sub_le (360 - 60 * ((B : ℚ) - G) / ((R : ℚ) - G))
  have hfrac0 : (0 : ℚ) ≤ 60 * ((B : ℚ) - G) / ((R : ℚ) - G) :=
    div_nonneg (by linarith) hD.le
  have hfrac1 : 60 * ((B : ℚ) - G) / ((R : ℚ) - G) ≤ 60 := by
    rw [div_le_iff₀ hD]
    linarith
  have hlo : ((300 : Int) : ℚ) ≤ (jsRound (360 - 60 * ((B : ℚ) - G) / ((R : ℚ) - G)) : ℚ) := by
    have : (300 : Int) ≤ jsRound (360 - 60 * ((B : ℚ) - G) / ((R : ℚ) - G)) := le_jsRound (by
      push_cast
      linarith)
    exact_mod_cast this
  have hhi : (jsRound (360 - 60 * ((B : ℚ) - G) / ((R : ℚ) - G)) : ℚ) ≤ ((360 : Int) : ℚ) := by
    have : jsRound (360 - 60 * ((B : ℚ) - G) / ((R : ℚ) - G)) ≤ (360 : Int) := jsRound_le (by
      push_cast
      linarith)
    exact_mod_cast this
  push_cast at hlo hhi
  generalize jsRound (360 - 60 * ((B : ℚ) - G) / ((R : ℚ) - G)) = h' at herr hlo hhi ⊢
  refine ⟨?_, ?_, ?_⟩
  · rw [hue2rgb_wrap_top _ _ _ (by linarith) (by linarith), jsRound_scaled]
    simp
  · rw [hue2rgb_bottom _ _ _ (by linarith) (by linarith), jsRound_scaled]
    simp
  · rw [hue2rgb_fall _ _ _ (by linarith) (by linarith)]
    apply jsRound_near
    have hxy : |(360 - (h' : ℚ)) - (360 - (360 - 60 * ((B : ℚ) - G) / ((R : ℚ) - G)))| ≤ 1 / 2 := by
      rw [abs_le] at herr ⊢
      constructor <;> linarith [herr.1, herr.2]
    have := interp_near G B ((R : ℚ) - G) (360 - (h' : ℚ)) (360 - (360 - 60 * ((B : ℚ) - G) / ((R : ℚ) - G)))
      hD.le (by linarith) hxy (by field_simp)
    convert this using 2
    field_simp
    ring

theorem roundtrip_max_g_min_b (R G B : Int) (h0 : 0 ≤ B) (h255 : G ≤ 255) (hRG : R < G) (hBR : B ≤ R) :
    |(hslToRgb ((rgbToHsl R G B).1 : ℚ) (rgbToHsl R G B).2.1 (rgbToHsl R G B).2.2).r - R| ≤ 2 ∧
    |(hslToRgb ((rgbToHsl R G B).1 : ℚ) (rgbToHsl R G B).2.1 (rgbToHsl R G B).2.2).g - G| ≤ 2 ∧
    |(hslToRgb ((rgbToHsl R G B).1 : ℚ) (rgbToHsl R G B).2.1 (rgbToHsl R G B).2.2).b - B| ≤ 2 := by
  have hp : (0 : ℚ) < 255 := by norm_num
  have h0q : (0 : ℚ) ≤ (B : ℚ) := by exact_mod_cast h0
  have h255q : (G : ℚ) ≤ 255 := by exact_mod_cast h255
  have hmid1 : (B : ℚ) ≤ (R : ℚ) := by exact_mod_cast (by omega : B ≤ R)
  have hmid2 : (R : ℚ) ≤ (G : ℚ) := by exact_mod_cast (by omega : R ≤ G)
  have hlt : (B : ℚ) < (G : ℚ) := by exact_mod_cast (by omega : B < G)
  have hr : ((R : ℚ) / 255) ≤ ((G : ℚ) / 255) :=
    div_le_div_of_nonneg_right (by exact_mod_cast (by omega : R ≤ G)) hp.le
  have hb : ((B : ℚ) / 255) ≤ ((G : ℚ) / 255) :=
    div_le_div_of_nonneg_right (by exact_mod_cast (by omega : B ≤ G)) hp.le
  have kr : ((B : ℚ) / 255) ≤ ((R : ℚ) / 255) :=
    div_le_div_of_nonneg_right (by exact_mod_cast (by omega : B ≤ R)) hp.le
  have kg : ((B : ℚ) / 255) ≤ ((G : ℚ) / 255) :=
    div_le_div_of_nonneg_right (by exact_mod_cast (by omega : B ≤ G)) hp.le
  have mlt : ((B : ℚ) / 255) < ((G : ℚ) / 255) := div_lt_div_of_pos_right hlt hp
  have rlm : ((R : ℚ) / 255) < ((G : ℚ) / 255) :=
    div_lt_div_of_pos_right (by exact_mod_cast (by omega : R < G)) hp
  have hmax : max (max ((R : ℚ) / 255) ((G : ℚ) / 255)) ((B : ℚ) / 255) = ((G : ℚ) / 255) :=
    le_antisymm (max_le (max_le hr le_rfl) hb) (le_trans (le_max_right _ _) (le_max_left _ _))
  have hmin : min (min ((R : ℚ) / 255) ((G : ℚ) / 255)) ((B : ℚ) / 255) = ((B : ℚ) / 255) :=
    le_antisymm (min_le_right _ _) (le_min (le_min kr kg) le_rfl)
  have hsl : rgbToHsl R G B =
      (jsRound (((((B : ℚ) / 255) - ((R : ℚ) / 255)) / (((G : ℚ) / 255) - ((B : ℚ) / 255)) + 2) / 6 * 360),
       (if (((G : ℚ) / 255) + ((B : ℚ) / 255)) / 2 > 1 / 2 then (((G : ℚ) / 255) - ((B : ℚ) / 255)) / (2 - ((G : ℚ) / 255) - ((B : ℚ) / 255))
        else (((G : ℚ) / 255) - ((B : ℚ) / 255)) / (((G : ℚ) / 255) + ((B : ℚ) / 255))),
       (((G : ℚ) / 255) + ((B : ℚ) / 255)) / 2) := by
    unfold rgbToHsl
    simp only [hmax, hmin, if_neg (ne_of_gt mlt), if_neg (ne_of_gt rlm), if_true]
  rw [hsl]
  simp only
  rw [hslToRgb_of_extremes _ _ _ (div_nonneg h0q hp.le) mlt ((div_le_one hp).2 h255q)]
  simp only
  have hD : (0 : ℚ) < (G : ℚ) - (B : ℚ) := by linarith
  have hstar : ((((B : ℚ) / 255) - ((R : ℚ) / 255)) / (((G : ℚ) / 255) - ((B : ℚ) / 255)) + 2) / 6 * 360
      = 120 - 60 * ((R : ℚ) - B) / ((G : ℚ) - B) := by
    field_simp
    ring
  rw [hstar]
  have herr := jsRound_sub_le (120 - 60 * ((R : ℚ) - B) / ((G : ℚ) - B))
  have hfrac0 : (0 : ℚ) ≤ 60 * ((R : ℚ) - B) / ((G : ℚ) - B) :=
    div_nonneg (by linarith) hD.le
  have hfrac1 : 60 * ((R : ℚ) - B) / ((G : ℚ) - B) ≤ 60 := by
    rw [div_le_iff₀ hD]
    linarith
  have hlo : ((60 : Int) : ℚ) ≤ (jsRound (120 - 60 * ((R : ℚ) - B) / ((G : ℚ) - B)) : ℚ) := by
    have : (60 : Int) ≤ jsRound (120 - 60 * ((R : ℚ) - B) / ((G : ℚ) - B)) := le_jsRound (by
      push_cast
      linarith)
    exact_mod_cast this
  have hhi : (jsRound (120 - 60 * ((R : ℚ) - B) / ((G : ℚ) - B)) : ℚ) ≤ ((120 : Int) : ℚ) := by
    have : jsRound (120 - 60 * ((R : ℚ) - B) / ((G : ℚ) - B)) ≤ (120 : Int) := jsRound_le (by
      push_cast
      linarith)
    exact_mod_cast this
  push_cast at hlo hhi
  generalize jsRound (120 - 60 * ((R : ℚ) - B) / ((G : ℚ) - B)) = h' at herr hlo hhi ⊢
  refine ⟨?_, ?_, ?_⟩
  · rw [hue2rgb_fall _ _ _ (by linarith) (by linarith)]
    apply jsRound_near
    have hxy : |(120 - (h' : ℚ)) - (120 - (120 - 60 * ((R : ℚ) - B) / ((G : ℚ) - B)))| ≤ 1 / 2 := by
      rw [abs_le] at herr ⊢
      constructor <;> linarith [herr.1, herr.2]
    have := interp_near B R ((G : ℚ) - B) (120 - (h' : ℚ)) (120 - (120 - 60 * ((R : ℚ) - B) / ((G : ℚ) - B)))
      hD.le (by linarith) hxy (by field_simp)
    convert this using 2
    field_simp
    ring
  · rw [hue2rgb_top _ _ _ (by linarith) (by linarith), jsRound_scaled]
    simp
  · rw [hue2rgb_low _ _ _ (by linarith) (by linarith), jsRound_scaled]
    simp

theorem roundtrip_max_g_min_r (R G B : Int) (h0 : 0 ≤ R) (h255 : G ≤ 255) (hRB : R < B) (hBG : B ≤ G) :
    |(hslToRgb ((rgbToHsl R G B).1 : ℚ) (rgbToHsl R G B).2.1 (rgbToHsl R G B).2.2).r - R| ≤ 2 ∧
    |(hslToRgb ((rgbToHsl R G B).1 : ℚ) (rgbToHsl R G B).2.1 (rgbToHsl R G B).2.2).g - G| ≤ 2 ∧
    |(hslToRgb ((rgbToHsl R G B).1 : ℚ) (rgbToHsl R G B).2.1 (rgbToHsl R G B).2.2).b - B| ≤ 2 := by
  have hp : (0 : ℚ) < 255 := by norm_num
  have h0q : (0 : ℚ) ≤ (R : ℚ) := by exact_mod_cast h0
  have h255q : (G : ℚ) ≤ 255 := by exact_mod_cast h255
  have hmid1 : (R : ℚ) ≤ (B : ℚ) := by exact_mod_cast (by omega : R ≤ B)
  have hmid2 : (B : ℚ) ≤ (G : ℚ) := by exact_mod_cast (by omega : B ≤ G)
  have hlt : (R : ℚ) < (G : ℚ) := by exact_mod_cast (by omega : R < G)
  have hr : ((R : ℚ) / 255) ≤ ((G : ℚ) / 255) :=
    div_le_div_of_nonneg_right (by exact_mod_cast (by omega : R ≤ G)) hp.le
  have hb : ((B : ℚ) / 255) ≤ ((G : ℚ) / 255) :=
    div_le_div_of_nonneg_right (by exact_mod_cast (by omega : B ≤ G)) hp.le
  have kg : ((R : ℚ) / 255) ≤ ((G : ℚ) / 255) :=
    div_le_div_of_nonneg_right (by exact_mod_cast (by omega : R ≤ G)) hp.le
  have kb : ((R : ℚ) / 255) ≤ ((B : ℚ) / 255) :=
    div_le_div_of_nonneg_right (by exact_mod_cast (by omega : R ≤ B)) hp.le
  have mlt : ((R : ℚ) / 255) < ((G : ℚ) / 255) := div_lt_div_of_pos_right hlt hp
  have rlm : ((R : ℚ) / 255) < ((G : ℚ) / 255) :=
    div_lt_div_of_pos_right (by exact_mod_cast (by omega : R < G)) hp
  have hmax : max (max ((R : ℚ) / 255) ((G : ℚ) / 255)) ((B : ℚ) / 255) = ((G : ℚ) / 255) :=
    le_antisymm (max_le (max_le hr le_rfl) hb) (le_trans (le_max_right _ _) (le_max_left _ _))
  have hmin : min (min ((R : ℚ) / 255) ((G : ℚ) / 255)) ((B : ℚ) / 255) = ((R : ℚ) / 255) :=
    le_antisymm (le_trans (min_le_left _ _) (min_le_left _ _)) (le_min (le_min le_rfl kg) kb)
  have hsl : rgbToHsl R G B =
      (jsRound (((((B : ℚ) / 255) - ((R : ℚ) / 255)) / (((G : ℚ) / 255) - ((R : ℚ) / 255)) + 2) / 6 * 360),
       (if (((G : ℚ) / 255) + ((R : ℚ) / 255)) / 2 > 1 / 2 then (((G : ℚ) / 255) - ((R : ℚ) / 255)) / (2 - ((G : ℚ) / 255) - ((R : ℚ) / 255))
        else (((G : ℚ) / 255) - ((R : ℚ) / 255)) / (((G : ℚ) / 255) + ((R : ℚ) / 255))),
       (((G : ℚ) / 255) + ((R : ℚ) / 255)) / 2) := by
    unfold rgbToHsl
    simp only [hmax, hmin, if_neg (ne_of_gt mlt), if_neg (ne_of_gt rlm), if_true]
  rw [hsl]
  simp only
  rw [hslToRgb_of_extremes _ _ _ (div_nonneg h0q hp.le) mlt ((div_le_one hp).2 h255q)]
  simp only
  have hD : (0 : ℚ) < (G : ℚ) - (R : ℚ) := by linarith
  have hstar : ((((B : ℚ) / 255) - ((R : ℚ) / 255)) / (((G : ℚ) / 255) - ((R : ℚ) / 255)) + 2) / 6 * 360
      = 120 + 60 * ((B : ℚ) - R) / ((G : ℚ) - R) := by
    field_simp
    ring
  rw [hstar]
  have herr := jsRound_sub_le (120 + 60 * ((B : ℚ) - R) / ((G : ℚ) - R))
  have hfrac0 : (0 : ℚ) ≤ 60 * ((B : ℚ) - R) / ((G : ℚ) - R) :=
    div_nonneg (by linarith) hD.le
  have hfrac1 : 60 * ((B : ℚ) - R) / ((G : ℚ) - R) ≤ 60 := by
    rw [div_le_iff₀ hD]
    linarith
  have hlo : ((120 : Int) : ℚ) ≤ (jsRound (120 + 60 * ((B : ℚ) - R) / ((G : ℚ) - R)) : ℚ) := by
    have : (120 : Int) ≤ jsRound (120 + 60 * ((B : ℚ) - R) / ((G : ℚ) - R)) := le_jsRound (by
      push_cast
      linarith)
    exact_mod_cast this
  have hhi : (jsRound (120 + 60 * ((B : ℚ) - R) / ((G : ℚ) - R)) : ℚ) ≤ ((180 : Int) : ℚ) := by
    have : jsRound (120 + 60 * ((B : ℚ) - R) / ((G : ℚ) - R)) ≤ (180 : Int) := jsRound_le (by
      push_cast
      linarith)
    exact_mod_cast this
  push_cast at hlo hhi
  generalize jsRound (120 + 60 * ((B : ℚ) - R) / ((G : ℚ) - R)) = h' at herr hlo hhi ⊢
  refine ⟨?_, ?_, ?_⟩
  · rw [hue2rgb_bottom _ _ _ (by linarith) (by linarith), jsRound_scaled]
    simp
  · rw [hue2rgb_top _ _ _ (by linarith) (by linarith), jsRound_scaled]
    simp
  · rw [hue2rgb_rise _ _ _ (by linarith) (by linarith)]
    apply jsRound_near
    have hxy : |((h' : ℚ) - 120) - ((120 + 60 * ((B : ℚ) - R) / ((G : ℚ) - R)) - 120)| ≤ 1 / 2 := by
      rw [abs_le] at herr ⊢
      constructor <;> linarith [herr.1, herr.2]
    have := interp_near R B ((G : ℚ) - R) ((h' : ℚ) - 120) ((120 + 60 * ((B : ℚ) - R) / ((G : ℚ) - R)) - 120)
      hD.le (by linarith) hxy (by field_simp; ring1)
    convert this using 2
    field_simp
    ring

theorem roundtrip_max_b_min_g (R G B : Int) (h0 : 0 ≤ G) (h255 : B ≤ 255) (hGR : G ≤ R) (hRB : R < B) :
    |(hslToRgb ((rgbToHsl R G B).1 : ℚ) (rgbToHsl R G B).2.1 (rgbToHsl R G B).2.2).r - R| ≤ 2 ∧
    |(hslToRgb ((rgbToHsl R G B).1 : ℚ) (rgbToHsl R G B).2.1 (rgbToHsl R G B).2.2).g - G| ≤ 2 ∧
    |(hslToRgb ((rgbToHsl R G B).1 : ℚ) (rgbToHsl R G B).2.1 (rgbToHsl R G B).2.2).b - B| ≤ 2 := by
  have hp : (0 : ℚ) < 255 := by norm_num
  have h0q : (0 : ℚ) ≤ (G : ℚ) := by exact_mod_cast h0
  have h255q : (B : ℚ) ≤ 255 := by exact_mod_cast h255
  have hmid1 : (G : ℚ) ≤ (R : ℚ) := by exact_mod_cast (by omega : G ≤ R)
  have hmid2 : (R : ℚ) ≤ (B : ℚ) := by exact_mod_cast (by omega : R ≤ B)
  have hlt : (G : ℚ) < (B : ℚ) := by exact_mod_cast (by omega : G < B)
  have hr : ((R : ℚ) / 255) ≤ ((B : ℚ) / 255) :=
    div_le_div_of_nonneg_right (by exact_mod_cast (by omega : R ≤ B)) hp.le
  have hg : ((G : ℚ) / 255) ≤ ((B : ℚ) / 255) :=
    div_le_div_of_nonneg_right (by exact_mod_cast (by omega : G ≤ B)) hp.le
  have kr : ((G : ℚ) / 255) ≤ ((R : ℚ) / 255) :=
    div_le_div_of_nonneg_right (by exact_mod_cast (by omega : G ≤ R)) hp.le
  have kb : ((G : ℚ) / 255) ≤ ((B : ℚ) / 255) :=
    div_le_div_of_nonneg_right (by exact_mod_cast (by omega : G ≤ B)) hp.le
  have mlt : ((G : ℚ) / 255) < ((B : ℚ) / 255) := div_lt_div_of_pos_right hlt hp
  have rlm : ((R : ℚ) / 255) < ((B : ℚ) / 255) :=
    div_lt_div_of_pos_right (by exact_mod_cast (by omega : R < B)) hp
  have glm : ((G : ℚ) / 255) < ((B : ℚ) / 255) :=
    div_lt_div_of_pos_right (by exact_mod_cast (by omega : G < B)) hp
  have hmax : max (max ((R : ℚ) / 255) ((G : ℚ) / 255)) ((B : ℚ) / 255) = ((B : ℚ) / 255) :=
    le_antisymm (max_le (max_le hr hg) le_rfl) (le_max_right _ _)
  have hmin : min (min ((R : ℚ) / 255) ((G : ℚ) / 255)) ((B : ℚ) / 255) = ((G : ℚ) / 255) :=
    le_antisymm (le_trans (min_le_left _ _) (min_le_right _ _)) (le_min (le_min kr le_rfl) kb)
  have hsl : rgbToHsl R G B =
      (jsRound (((((R : ℚ) / 255) - ((G : ℚ) / 255)) / (((B : ℚ) / 255) - ((G : ℚ) / 255)) + 4) / 6 * 360),
       (if (((B : ℚ) / 255) + ((G : ℚ) / 255)) / 2 > 1 / 2 then (((B : ℚ) / 255) - ((G : ℚ) / 255)) / (2 - ((B : ℚ) / 255) - ((G : ℚ) / 255))
        else (((B : ℚ) / 255) - ((G : ℚ) / 255)) / (((B : ℚ) / 255) + ((G : ℚ) / 255))),
       (((B : ℚ) / 255) + ((G : ℚ) / 255)) / 2) := by
    unfold rgbToHsl
    simp only [hmax, hmin, if_neg (ne_of_gt mlt), if_neg (ne_of_gt rlm), if_neg (ne_of_gt glm), if_true]
  rw [hsl]
  simp only
  rw [hslToRgb_of_extremes _ _ _ (div_nonneg h0q hp.le) mlt ((div_le_one hp).2 h255q)]
  simp only
  have hD : (0 : ℚ) < (B : ℚ) - (G : ℚ) := by linarith
  have hstar : ((((R : ℚ) / 255) - ((G : ℚ) / 255)) / (((B : ℚ) / 255) - ((G : ℚ) / 255)) + 4) / 6 * 360
      = 240 + 60 * ((R : ℚ) - G) / ((B : ℚ) - G) := by
    field_simp
    ring
  rw [hstar]
  have herr := jsRound_sub_le (240 + 60 * ((R : ℚ) - G) / ((B : ℚ) - G))
  have hfrac0 : (0 : ℚ) ≤ 60 * ((R : ℚ) - G) / ((B : ℚ) - G) :=
    div_nonneg (by linarith) hD.le
  have hfrac1 : 60 * ((R : ℚ) - G) / ((B : ℚ) - G) ≤ 60 := by
    rw [div_le_iff₀ hD]
    linarith
  have hlo : ((240 : Int) : ℚ) ≤ (jsRound (240 + 60 * ((R : ℚ) - G) / ((B : ℚ) - G)) : ℚ) := by
    have : (240 : Int) ≤ jsRound (240 + 60 * ((R : ℚ) - G) / ((B : ℚ) - G)) := le_jsRound (by
      push_cast
      linarith)
    exact_mod_cast this
  have hhi : (jsRound (240 + 60 * ((R : ℚ) - G) / ((B : ℚ) - G)) : ℚ) ≤ ((300 : Int) : ℚ) := by
    have : jsRound (240 + 60 * ((R : ℚ) - G) / ((B : ℚ) - G)) ≤ (300 : Int) := jsRound_le (by
      push_cast
      linarith)
    exact_mod_cast this
  push_cast at hlo hhi
  generalize jsRound (240 + 60 * ((R : ℚ) - G) / ((B : ℚ) - G)) = h' at herr hlo hhi ⊢
  refine ⟨?_, ?_, ?_⟩
  · rw [hue2rgb_wrap_rise_le _ _ _ (by linarith) (by linarith)]
    apply jsRound_near
    have hxy : |((h' : ℚ) - 240) - ((240 + 60 * ((R : ℚ) - G) / ((B : ℚ) - G)) - 240)| ≤ 1 / 2 := by
      rw [abs_le] at herr ⊢
      constructor <;> linarith [herr.1, herr.2]
    have := interp_near G R ((B : ℚ) - G) ((h' : ℚ) - 240) ((240 + 60 * ((R : ℚ) - G) / ((B : ℚ) - G)) - 240)
      hD.le (by linarith) hxy (by field_simp; ring1)
    convert this using 2
    field_simp
    ring
  · rw [hue2rgb_bottom _ _ _ (by linarith) (by linarith), jsRound_scaled]
    simp
  · rw [hue2rgb_top _ _ _ (by linarith) (by linarith), jsRound_scaled]
    simp

theorem roundtrip_max_b_min_r (R G B : Int) (h0 : 0 ≤ R) (h255 : B ≤ 255) (hRG : R < G) (hGB : G < B) :
    |(hslToRgb ((rgbToHsl R G B).1 : ℚ) (rgbToHsl R G B).2.1 (rgbToHsl R G B).2.2).r - R| ≤ 2 ∧
    |(hslToRgb ((rgbToHsl R G B).1 : ℚ) (rgbToHsl R G B).2.1 (rgbToHsl R G B).2.2).g - G| ≤ 2 ∧
    |(hslToRgb ((rgbToHsl R G B).1 : ℚ) (rgbToHsl R G B).2.1 (rgbToHsl R G B).2.2).b - B| ≤ 2 := by
  have hp : (0 : ℚ) < 255 := by norm_num
  have h0q : (0 : ℚ) ≤ (R : ℚ) := by exact_mod_cast h0
  have h255q : (B : ℚ) ≤ 255 := by exact_mod_cast h255
  have hmid1 : (R : ℚ) ≤ (G : ℚ) := by exact_mod_cast (by omega : R ≤ G)
  have hmid2 : (G : ℚ) ≤ (B : ℚ) := by exact_mod_cast (by omega : G ≤ B)
  have hlt : (R : ℚ) < (B : ℚ) := by exact_mod_cast (by omega : R < B)
  have hr : ((R : ℚ) / 255) ≤ ((B : ℚ) / 255) :=
    div_le_div_of_nonneg_right (by exact_mod_cast (by omega : R ≤ B)) hp.le
  have hg : ((G : ℚ) / 255) ≤ ((B : ℚ) / 255) :=
    div_le_div_of_nonneg_right (by exact_mod_cast (by omega : G ≤ B)) hp.le
  have kg : ((R : ℚ) / 255) ≤ ((G : ℚ) / 255) :=
    div_le_div_of_nonneg_right (by exact_mod_cast (by omega : R ≤ G)) hp.le
  have kb : ((R : ℚ) / 255) ≤ ((B : ℚ) / 255) :=
    div_le_div_of_nonneg_right (by exact_mod_cast (by omega : R ≤ B)) hp.le
  have mlt : ((R : ℚ) / 255) < ((B : ℚ) / 255) := div_lt_div_of_pos_right hlt hp
  have rlm : ((R : ℚ) / 255) < ((B : ℚ) / 255) :=
    div_lt_div_of_pos_right (by exact_mod_cast (by omega : R < B)) hp
  have glm : ((G : ℚ) / 255) < ((B : ℚ) / 255) :=
    div_lt_div_of_pos_right (by exact_mod_cast (by omega : G < B)) hp
  have hmax : max (max ((R : ℚ) / 255) ((G : ℚ) / 255)) ((B : ℚ) / 255) = ((B : ℚ) / 255) :=
    le_antisymm (max_le (max_le hr hg) le_rfl) (le_max_right _ _)
  have hmin : min (min ((R : ℚ) / 255) ((G : ℚ) / 255)) ((B : ℚ) / 255) = ((R : ℚ) / 255) :=
    le_antisymm (le_trans (min_le_left _ _) (min_le_left _ _)) (le_min (le_min le_rfl kg) kb)
  have hsl : rgbToHsl R G B =
      (jsRound (((((R : ℚ) / 255) - ((G : ℚ) / 255)) / (((B : ℚ) / 255) - ((R : ℚ) / 255)) + 4) / 6 * 360),
       (if (((B : ℚ) / 255) + ((R : ℚ) / 255)) / 2 > 1 / 2 then (((B : ℚ) / 255) - ((R : ℚ) / 255)) / (2 - ((B : ℚ) / 255) - ((R : ℚ) / 255))
        else (((B : ℚ) / 255) - ((R : ℚ) / 255)) / (((B : ℚ) / 255) + ((R : ℚ) / 255))),
       (((B : ℚ) / 255) + ((R : ℚ) / 255)) / 2) := by
    unfold rgbToHsl
    simp only [hmax, hmin, if_neg (ne_of_gt mlt), if_neg (ne_of_gt rlm), if_neg (ne_of_gt glm), if_true]
  rw [hsl]
  simp only
  rw [hslToRgb_of_extremes _ _ _ (div_nonneg h0q hp.le) mlt ((div_le_one hp).2 h255q)]
  simp only
  have hD : (0 : ℚ) < (B : ℚ) - (R : ℚ) := by linarith
  have hstar : ((((R : ℚ) / 255) - ((G : ℚ) / 255)) / (((B : ℚ) / 255) - ((R : ℚ) / 255)) + 4) / 6 * 360
      = 240 - 60 * ((G : ℚ) - R) / ((B : ℚ) - R) := by
    field_simp
    ring
  rw [hstar]
  have herr := jsRound_sub_le (240 - 60 * ((G : ℚ) - R) / ((B : ℚ) - R))
  have hfrac0 : (0 : ℚ) ≤ 60 * ((G : ℚ) - R) / ((B : ℚ) - R) :=
    div_nonneg (by linarith) hD.le
  have hfrac1 : 60 * ((G : ℚ) - R) / ((B : ℚ) - R) ≤ 60 := by
    rw [div_le_iff₀ hD]
    linarith
  have hlo : ((180 : Int) : ℚ) ≤ (jsRound (240 - 60 * ((G : ℚ) - R) / ((B : ℚ) - R)) : ℚ) := by
    have : (180 : Int) ≤ jsRound (240 - 60 * ((G : ℚ) - R) / ((B : ℚ) - R)) := le_jsRound (by
      push_cast
      linarith)
    exact_mod_cast this
  have hhi : (jsRound (240 - 60 * ((G : ℚ) - R) / ((B : ℚ) - R)) : ℚ) ≤ ((240 : Int) : ℚ) := by
    have : jsRound (240 - 60 * ((G : ℚ) - R) / ((B : ℚ) - R)) ≤ (240 : Int) := jsRound_le (by
      push_cast
      linarith)
    exact_mod_cast this
  push_cast at hlo hhi
  generalize jsRound (240 - 60 * ((G : ℚ) - R) / ((B : ℚ) - R)) = h' at herr hlo hhi ⊢
  refine ⟨?_, ?_, ?_⟩
  · rw [hue2rgb_bottom _ _ _ (by linarith) (by linarith), jsRound_scaled]
    simp
  · rw [hue2rgb_fall _ _ _ (by linarith) (by linarith)]
    apply jsRound_near
    have hxy : |(240 - (h' : ℚ)) - (240 - (240 - 60 * ((G : ℚ) - R) / ((B : ℚ) - R)))| ≤ 1 / 2 := by
      rw [abs_le] at herr ⊢
      constructor <;> linarith [herr.1, herr.2]
    have := interp_near R G ((B : ℚ) - R) (240 - (h' : ℚ)) (240 - (240 - 60 * ((G : ℚ) - R) / ((B : ℚ) - R)))
      hD.le (by linarith) hxy (by field_simp)
    convert this using 2
    field_simp
    ring
  · rw [hue2rgb_top _ _ _ (by linarith) (by linarith), jsRound_scaled]
    simp

theorem roundtrip_achromatic (R : Int) :
    hslToRgb ((rgbToHsl R R R).1 : ℚ) (rgbToHsl R R R).2.1 (rgbToHsl R R R).2.2 = ⟨R, R, R⟩ := by
  have hsl : rgbToHsl R R R = (jsRound (0 * 360), 0, ((R : ℚ) / 255 + (R : ℚ) / 255) / 2) := by
    unfold rgbToHsl
    simp only [max_self, min_self, if_true]
  rw [hsl]
  simp only
  unfold hslToRgb
  simp only [if_true]
  have e : ((R : ℚ) / 255 + (R : ℚ) / 255) / 2 * 255 = (R : ℚ) := by
    field_simp
    ring
  rw [e, jsRound_intCast]

/-- C1, counterexample. `rgbToHsl(255, 2, 0)` is `[0, 1, 0.5]` (the hue
`0.47°` rounds to `0`), and `hslToRgb(0, 1, 0.5)` is `(255, 0, 0)`: the green
channel comes back 2 lower. -/
theorem hsl_roundtrip_counterexample :
    rgbToHsl 255 2 0 = (0, 1, 1 / 2) ∧
    hslToRgb ((rgbToHsl 255 2 0).1 : ℚ) (rgbToHsl 255 2 0).2.1 (rgbToHsl 255 2 0).2.2 =
      ⟨255, 0, 0⟩ ∧
    ¬ |(hslToRgb ((rgbToHsl 255 2 0).1 : ℚ) (rgbToHsl 255 2 0).2.1
        (rgbToHsl 255 2 0).2.2).g - 2| ≤ 1 := by
  decide!

/-- C1, amended. For every RGB triple `c` with channels in `[0, 255]`,
`hslToRgb(rgbToHsl(c))` differs from `c` by at most 2 in each channel. -/
theorem hsl_roundtrip_within_two (c : Rgb) (hc : c.InRange) :
    |(hslToRgb ((rgbToHsl c.r c.g c.b).1 : ℚ) (rgbToHsl c.r c.g c.b).2.1
        (rgbToHsl c.r c.g c.b).2.2).r - c.r| ≤ 2 ∧
    |(hslToRgb ((rgbToHsl c.r c.g c.b).1 : ℚ) (rgbToHsl c.r c.g c.b).2.1
        (rgbToHsl c.r c.g c.b).2.2).g - c.g| ≤ 2 ∧
    |(hslToRgb ((rgbToHsl c.r c.g c.b).1 : ℚ) (rgbToHsl c.r c.g c.b).2.1
        (rgbToHsl c.r c.g c.b).2.2).b - c.b| ≤ 2 := by
  obtain ⟨R, G, B⟩ := c
  obtain ⟨⟨hR0, hR1⟩, ⟨hG0, hG1⟩, ⟨hB0, hB1⟩⟩ := hc
  simp only at hR0 hR1 hG0 hG1 hB0 hB1 ⊢
  by_cases hgrey : R = G ∧ G = B
  · obtain ⟨rfl, rfl⟩ := hgrey
    rw [roundtrip_achromatic]
    simp
  · by_cases h1 : B ≤ G ∧ G ≤ R
    · exact roundtrip_max_r_min_b R G B hB0 hR1 h1.1 h1.2 (by omega)
    · by_cases h2 : G < B ∧ B ≤ R
      · exact roundtrip_max_r_min_g R G B hG0 hR1 h2.1 h2.2
      · by_cases h3 : R < G ∧ B ≤ R
        · exact roundtrip_max_g_min_b R G B hB0 hG1 h3.1 h3.2
        · by_cases h4 : R < B ∧ B ≤ G
          · exact roundtrip_max_g_min_r R G B hR0 hG1 h4.1 h4.2
          · by_cases h5 : G ≤ R ∧ R < B
            · exact roundtrip_max_b_min_g R G B hG0 hB1 h5.1 h5.2
            · exact roundtrip_max_b_min_r R G B hR0 hB1 (by omega) (by omega)

/-- Witness for C1 (amended): the colour `(255, 2, 0)`, where the bound 2 is
attained. -/
theorem hsl_roundtrip_within_two_witness :
    (⟨255, 2, 0⟩ : Rgb).InRange ∧
    (|(hslToRgb ((rgbToHsl 255 2 0).1 : ℚ) (rgbToHsl 255 2 0).2.1 (rgbToHsl 255 2 0).2.2).r - 255|
        ≤ 2 ∧
     |(hslToRgb ((rgbToHsl 255 2 0).1 : ℚ) (rgbToHsl 255 2 0).2.1 (rgbToHsl 255 2 0).2.2).g - 2|
        ≤ 2 ∧
     |(hslToRgb ((rgbToHsl 255 2 0).1 : ℚ) (rgbToHsl 255 2 0).2.1 (rgbToHsl 255 2 0).2.2).b - 0|
        ≤ 2) :=
  ⟨by decide, hsl_roundtrip_within_two ⟨255, 2, 0⟩ (by decide)⟩

/-! ### Share of the sampled pixels -/

/-- C11, counterexample. Seven opaque pixels, three red, one green and three
black, with the candidates red and green: the black pixels match no candidate,
so four pixels are classified. The percentages attached before filtering are
`300/7` and `100/7` (shares of all seven pixels, unrounded), not `75` and `25`
(shares of the four classified pixels, rounded to one decimal). -/
theorem classifiedColors_percentage_counterexample :
    (classifiedColors
        [⟨255, 0, 0, 255⟩, ⟨255, 0, 0, 255⟩, ⟨255, 0, 0, 255⟩, ⟨0, 255, 0, 255⟩,
          ⟨0, 0, 0, 255⟩, ⟨0, 0, 0, 255⟩, ⟨0, 0, 0, 255⟩]
        [⟨255, 0, 0⟩, ⟨0, 255, 0⟩] false).map (fun c => (c.count, c.percentage)) =
      [(3, 300 / 7), (1, 100 / 7)] ∧
    (jsRound ((3 : ℚ) / (3 + 1) * 100 * 10) : ℚ) / 10 = 75 ∧
    (300 / 7 : ℚ) ≠ 75 := by
  decide!

/-- C11, amended. The percentage attached to each classified colour before
filtering is its count divided by `totalPixels / sampleRate` (the number of
pixels of the buffer over the sampling stride, whether classified or not),
times 100, without rounding; it is this list that `analyzeImageColors` hands
to `applySmartFilter` with the threshold `0.25`. -/
theorem classifiedColors_percentage (colorblindMode : Bool) (imageData : List Pixel)
    (extractedColors : List Rgb) (portrait : Bool) :
    (classifiedColors imageData extractedColors portrait).map (fun c => c.percentage) =
      (classifiedColors imageData extractedColors portrait).map (fun c =>
        (c.count : ℚ) /
          ((imageData.length : ℚ) / ((max 1 (imageData.length / 50000) : Nat) : ℚ)) * 100) ∧
    (analyzeImageColors colorblindMode imageData extractedColors portrait).map (fun e => e.rgb) =
      (applySmartFilter (classifiedColors imageData extractedColors portrait) (25 / 100)).map
        (fun c => c.rgb) := by
  constructor
  · apply List.map_congr_left
    intro c hc
    unfold classifiedColors at hc
    rw [(List.perm_insertionSort _ _).mem_iff, List.mem_map] at hc
    obtain ⟨kc, _, rfl⟩ := hc
    rfl
  · rw [analyzeImageColors_eq, List.map_map]
    rfl

/-! ### Background colours -/

/-- C12, counterexample. `(222, 198, 210)` has mean 210, and the quantity the
code calls `variance`, the sum of the absolute deviations `12 + 12 + 0 = 24`,
is below 25, so `isBackgroundColor` returns true; the variance of the three
channels is 96 (144 with the divisor 2), the channels are not all above 240
and not all below 25. -/
theorem isBackgroundColor_counterexample :
    isBackgroundColor ⟨222, 198, 210⟩ = true ∧
    channelVariance ⟨222, 198, 210⟩ = 96 ∧
    ¬ (((222 : Int) > 240 ∧ (198 : Int) > 240 ∧ (210 : Int) > 240) ∨
       (channelVariance ⟨222, 198, 210⟩ < 25 ∧ (((222 + 198 + 210 : Int) : ℚ) / 3 > 200)) ∨
       ((222 : Int) < 25 ∧ (198 : Int) < 25 ∧ (210 : Int) < 25)) := by
  decide!

/-- C12, amended. `isBackgroundColor` returns true exactly when all channels
are `> 240`, or the sum of the absolute deviations of the three channels from
their mean is `< 25` and the mean is `> 200`, or all channels are `< 25`. -/
theorem isBackgroundColor_iff (c : Rgb) :
    isBackgroundColor c = true ↔
      (c.r > 240 ∧ c.g > 240 ∧ c.b > 240) ∨
      (|(c.r : ℚ) - ((c.r + c.g + c.b : Int) : ℚ) / 3| +
          |(c.g : ℚ) - ((c.r + c.g + c.b : Int) : ℚ) / 3| +
          |(c.b : ℚ) - ((c.r + c.g + c.b : Int) : ℚ) / 3| < 25 ∧
        ((c.r + c.g + c.b : Int) : ℚ) / 3 > 200) ∨
      (c.r < 25 ∧ c.g < 25 ∧ c.b < 25) := by
  unfold isBackgroundColor
  simp only
  split_ifs with h1 h2 h3
  · simp [h1]
  · simp only [true_iff]
    exact Or.inr (Or.inl h2)
  · simp only [true_iff]
    exact Or.inr (Or.inr h3)
  · simp only [Bool.false_eq_true, false_iff]
    rintro (h | h | h)
    · exact h1 h
    · exact h2 h
    · exact h3 h

/-! ### Portrait mode -/

theorem sampledPixels_sublist (imageData : List Pixel) (sampleRate : Nat) :
    (sampledPixels imageData sampleRate).Sublist imageData := by
  unfold sampledPixels
  have h := (List.filter_sublist (p := fun ip => decide (ip.1 % sampleRate = 0))
    imageData.enum).map Prod.snd
  rwa [List.enum_map_snd] at h

/-- In portrait mode a run of skin-toned pixels leaves the map `colorCounts`
empty. -/
theorem countColors_skin (pixels : List Pixel) (extractedColors : List Rgb)
    (hskin : ∀ px ∈ pixels, isSkinColor ⟨px.r, px.g, px.b⟩ = true) :
    countColors pixels extractedColors true = [] := by
  unfold countColors
  induction pixels using List.reverseRecOn with
  | nil => rfl
  | append_singleton pre px ih =>
    rw [List.foldl_append, List.foldl_cons, List.foldl_nil,
      ih (fun p hp => hskin p (List.mem_append_left _ hp))]
    have hpx := hskin px (List.mem_append_right _ (List.mem_singleton_self px))
    simp [hpx]

/-! ### Transparent pixels -/

theorem forall₂_filter_enumFrom {R : Pixel → Pixel → Prop} (sampleRate : Nat)
    {l l' : List Pixel} (h : List.Forall₂ R l l') (n : Nat) :
    List.Forall₂ R
      (((l.enumFrom n).filter (fun ip => decide (ip.1 % sampleRate = 0))).map Prod.snd)
      (((l'.enumFrom n).filter (fun ip => decide (ip.1 % sampleRate = 0))).map Prod.snd) := by
  induction h generalizing n with
  | nil => exact List.Forall₂.nil
  | cons hab _ ih =>
    simp only [List.enumFrom_cons, List.filter_cons]
    by_cases hn : n % sampleRate = 0
    · simp only [hn, decide_True, if_true, List.map_cons]
      exact List.Forall₂.cons hab (ih (n + 1))
    · simp only [hn, decide_False, Bool.false_eq_true, if_false]
      exact ih (n + 1)

/-- The counting loop does not read the colour of a pixel whose alpha is
below 128. -/
theorem countColors_congr (extractedColors : List Rgb) (portrait : Bool)
    {pixels pixels' : List Pixel}
    (h : List.Forall₂ (fun p q => p = q ∨ (p.alpha < 128 ∧ q.alpha = p.alpha)) pixels pixels') :
    countColors pixels extractedColors portrait = countColors pixels' extractedColors portrait := by
  unfold countColors
  generalize ([] : List (Rgb × Nat)) = acc
  induction h generalizing acc with
  | nil => rfl
  | cons hab _ ih =>
    simp only [List.foldl_cons]
    rcases hab with rfl | ⟨ha, hb⟩
    · exact ih _
    · rw [if_pos ha, if_pos (hb ▸ ha)]
      exact ih _

/-- C14. Pixels with alpha `< 128` do not influence the result: two buffers
that agree pixel by pixel, except for the colour of pixels whose alpha is
below 128, give the same palette. -/
theorem analyzeImageColors_transparent (colorblindMode : Bool) (imageData imageData' : List Pixel)
    (extractedColors : List Rgb) (portrait : Bool)
    (h : List.Forall₂ (fun p q => p = q ∨ (p.alpha < 128 ∧ q.alpha = p.alpha))
      imageData imageData') :
    analyzeImageColors colorblindMode imageData extractedColors portrait =
      analyzeImageColors colorblindMode imageData' extractedColors portrait := by
  have hlen : imageData.length = imageData'.length := h.length_eq
  have hs : countColors (sampledPixels imageData (max 1 (imageData.length / 50000)))
        extractedColors portrait =
      countColors (sampledPixels imageData' (max 1 (imageData'.length / 50000)))
        extractedColors portrait := by
    rw [← hlen]
    exact countColors_congr _ _ (forall₂_filter_enumFrom _ h 0)
  have hc : classifiedColors imageData extractedColors portrait =
      classifiedColors imageData' extractedColors portrait := by
    unfold classifiedColors
    rw [hlen] at hs
    simp only [hlen, hs]
  rw [analyzeImageColors_eq, analyzeImageColors_eq, hc]

/-- Witness for C14: the transparent second pixel changes from red to green. -/
theorem analyzeImageColors_transparent_witness :
    List.Forall₂ (fun p q => p = q ∨ (p.alpha < 128 ∧ q.alpha = p.alpha))
      [(⟨0, 0, 255, 255⟩ : Pixel), ⟨255, 0, 0, 100⟩, ⟨0, 250, 0, 255⟩]
      [(⟨0, 0, 255, 255⟩ : Pixel), ⟨0, 255, 0, 100⟩, ⟨0, 250, 0, 255⟩] ∧
    analyzeImageColors true [(⟨0, 0, 255, 255⟩ : Pixel), ⟨255, 0, 0, 100⟩, ⟨0, 250, 0, 255⟩]
        [⟨255, 0, 0⟩, ⟨0, 255, 0⟩, ⟨0, 0, 255⟩] false =
      analyzeImageColors true [(⟨0, 0, 255, 255⟩ : Pixel), ⟨0, 255, 0, 100⟩, ⟨0, 250, 0, 255⟩]
        [⟨255, 0, 0⟩, ⟨0, 255, 0⟩, ⟨0, 0, 255⟩] false :=
  have hw : List.Forall₂ (fun p q => p = q ∨ (p.alpha < 128 ∧ q.alpha = p.alpha))
      [(⟨0, 0, 255, 255⟩ : Pixel), ⟨255, 0, 0, 100⟩, ⟨0, 250, 0, 255⟩]
      [(⟨0, 0, 255, 255⟩ : Pixel), ⟨0, 255, 0, 100⟩, ⟨0, 250, 0, 255⟩] :=
    List.Forall₂.cons (Or.inl rfl)
      (List.Forall₂.cons (Or.inr ⟨by decide, rfl⟩)
        (List.Forall₂.cons (Or.inl rfl) List.Forall₂.nil))
  ⟨hw, analyzeImageColors_transparent true _ _ _ false hw⟩

/-! ### Sampling stride -/

/-- Indices that are no multiple of the stride are skipped. -/
theorem filter_enumFrom_skip (s : Nat) (j : Nat) (l : List Pixel) (n : Nat)
    (h : ∀ i, i < j → (n + i) % s ≠ 0) :
    ((l.enumFrom n).filter (fun ip => decide (ip.1 % s = 0))).map Prod.snd =
      (((l.drop j).enumFrom (n + j)).filter (fun ip => decide (ip.1 % s = 0))).map Prod.snd := by
  induction j generalizing l n with
  | zero => simp
  | succ j ih =>
    cases l with
    | nil => simp
    | cons a rest =>
      have h0 : n % s ≠ 0 := by simpa using h 0 (Nat.succ_pos j)
      simp only [List.enumFrom_cons, List.filter_cons, h0, decide_False, Bool.false_eq_true,
        if_false, List.drop_succ_cons]
      rw [ih rest (n + 1) (fun i hi => by
        have := h (i + 1) (Nat.succ_lt_succ hi)
        rwa [show n + 1 + i = n + (i + 1) by omega])]
      rw [show n + 1 + j = n + (j + 1) by omega]

/-- The loop keeps the first pixel and continues `s` pixels further on. -/
theorem filter_enumFrom_step (s : Nat) (hs : 1 ≤ s) (a : Pixel) (rest : List Pixel) (n : Nat)
    (hn : n % s = 0) :
    (((a :: rest).enumFrom n).filter (fun ip => decide (ip.1 % s = 0))).map Prod.snd =
      a :: ((((a :: rest).drop s).enumFrom (n + s)).filter
        (fun ip => decide (ip.1 % s = 0))).map Prod.snd := by
  simp only [List.enumFrom_cons, List.filter_cons, hn, decide_True, if_true, List.map_cons]
  congr 1
  obtain ⟨t, rfl⟩ : ∃ t, s = t + 1 := ⟨s - 1, by omega⟩
  rw [List.drop_succ_cons, filter_enumFrom_skip (t + 1) t rest (n + 1) (fun i hi => by
    have e : (n + 1 + i) % (t + 1) = (i + 1) % (t + 1) := by
      rw [show n + 1 + i = (i + 1) + n by omega, Nat.add_mod, hn, Nat.add_zero, Nat.mod_mod]
    rw [e, Nat.mod_eq_of_lt (by omega)]
    omega)]
  rw [show n + 1 + t = n + (t + 1) by omega]

theorem filter_enumFrom_getElem? (s : Nat) (hs : 1 ≤ s) (k : Nat) (l : List Pixel) (n : Nat)
    (hn : n % s = 0) :
    (((l.enumFrom n).filter (fun ip => decide (ip.1 % s = 0))).map Prod.snd)[k]? = l[k * s]? := by
  induction k generalizing l n with
  | zero =>
    cases l with
    | nil => simp
    | cons a rest => rw [filter_enumFrom_step s hs a rest n hn]; simp
  | succ k ih =>
    cases l with
    | nil => simp
    | cons a rest =>
      rw [filter_enumFrom_step s hs a rest n hn, List.getElem?_cons_succ,
        ih _ (n + s) (by rw [Nat.add_mod_right]; exact hn), List.getElem?_drop]
      congr 1
      rw [Nat.succ_mul]
      omega

/-- The `k`-th pixel visited by the loop is pixel `k * sampleRate` of the
buffer. -/
theorem sampledPixels_getElem? (imageData : List Pixel) (s : Nat) (hs : 1 ≤ s) (k : Nat) :
    (sampledPixels imageData s)[k]? = imageData[k * s]? :=
  filter_enumFrom_getElem? s hs k imageData 0 (Nat.zero_mod s)

theorem sampledPixels_length (imageData : List Pixel) (s : Nat) (hs : 1 ≤ s) :
    (sampledPixels imageData s).length = (imageData.length + s - 1) / s := by
  have key : ∀ k, (sampledPixels imageData s).length ≤ k ↔ imageData.length ≤ k * s := by
    intro k
    rw [← List.getElem?_eq_none_iff, sampledPixels_getElem? imageData s hs k,
      List.getElem?_eq_none_iff]
  apply le_antisymm
  · rw [key, ← Nat.lt_add_one_iff]
    have := Nat.lt_div_mul_add (a := imageData.length + s - 1) (b := s) (by omega)
    omega
  · rw [Nat.div_le_iff_le_mul_add_pred (by omega)]
    have := (key (sampledPixels imageData s).length).1 le_rfl
    rw [Nat.mul_comm]
    omega

/-! ### Skin-toned pixels -/

/-- The saturation and the value returned by `rgbToHsv` are doubles. -/
theorem rgbToHsv_double (r g b : Int) :
    toDouble (rgbToHsv r g b).2.1 = (rgbToHsv r g b).2.1 ∧
      toDouble (rgbToHsv r g b).2.2 = (rgbToHsv r g b).2.2 := by
  unfold rgbToHsv
  simp only
  constructor
  · split_ifs
    · exact toDouble_consts.1
    · exact toDouble_idem _
  · rcases max_choice (max (toDouble ((r : ℚ) / 255)) (toDouble ((g : ℚ) / 255)))
      (toDouble ((b : ℚ) / 255)) with h | h
    · rcases max_choice (toDouble ((r : ℚ) / 255)) (toDouble ((g : ℚ) / 255)) with h' | h'
      · rw [h, h', toDouble_idem]
      · rw [h, h', toDouble_idem]
    · rw [h, toDouble_idem]

/-- The four literals of `isSkinColor`: the doubles `0.1` and `0.2` lie above
the decimal fractions, the doubles `0.7` and `0.95` below. -/
theorem skin_literals :
    (1 / 10 : ℚ) ≤ toDouble (1 / 10) ∧ toDouble (7 / 10) ≤ (7 / 10 : ℚ) ∧
      (2 / 10 : ℚ) ≤ toDouble (2 / 10) ∧ toDouble (95 / 100) ≤ (95 / 100 : ℚ) := by
  decide!

/-- A double is at least the double of a literal lying above its decimal
fraction exactly when it is at least the fraction. -/
theorem toDouble_le_iff {c s : ℚ} (hs : toDouble s = s) (hc : c ≤ toDouble c) :
    toDouble c ≤ s ↔ c ≤ s :=
  ⟨fun h => hc.trans h, fun h => hs ▸ toDouble_mono h⟩

/-- A double is at most the double of a literal lying below its decimal
fraction exactly when it is at most the fraction. -/
theorem le_toDouble_iff {c s : ℚ} (hs : toDouble s = s) (hc : toDouble c ≤ c) :
    s ≤ toDouble c ↔ s ≤ c :=
  ⟨fun h => h.trans hc, fun h => hs ▸ toDouble_mono h⟩

/-- The test of `isSkinColor` in terms of the decimal fractions. -/
theorem isSkinColor_iff (rgb : Rgb) :
    isSkinColor rgb = true ↔
      (0 ≤ (rgbToHsv rgb.r rgb.g rgb.b).1 ∧ (rgbToHsv rgb.r rgb.g rgb.b).1 ≤ 50) ∧
      (1 / 10 ≤ (rgbToHsv rgb.r rgb.g rgb.b).2.1 ∧ (rgbToHsv rgb.r rgb.g rgb.b).2.1 ≤ 7 / 10) ∧
      (2 / 10 ≤ (rgbToHsv rgb.r rgb.g rgb.b).2.2 ∧
        (rgbToHsv rgb.r rgb.g rgb.b).2.2 ≤ 95 / 100) := by
  obtain ⟨hs, hv⟩ := rgbToHsv_double rgb.r rgb.g rgb.b
  obtain ⟨l1, l2, l3, l4⟩ := skin_literals
  unfold isSkinColor
  simp only [Bool.and_eq_true, decide_eq_true_iff, ge_iff_le, and_assoc]
  rw [toDouble_le_iff hs l1, le_toDouble_iff hs l2, toDouble_le_iff hv l3, le_toDouble_iff hv l4]

theorem sampledPixels_map (f : Pixel → Pixel) (imageData : List Pixel) (s : Nat) (hs : 1 ≤ s) :
    sampledPixels (imageData.map f) s = (sampledPixels imageData s).map f := by
  apply List.ext_getElem?
  intro k
  rw [sampledPixels_getElem? _ s hs, List.getElem?_map, List.getElem?_map,
    sampledPixels_getElem? _ s hs]

/-- In portrait mode the counting loop treats a skin-toned pixel as it treats
a transparent one. -/
theorem countColors_portrait (pixels : List Pixel) (extractedColors : List Rgb) :
    countColors pixels extractedColors true =
      countColors (pixels.map (fun px =>
        if isSkinColor ⟨px.r, px.g, px.b⟩ then ⟨px.r, px.g, px.b, 0⟩ else px))
        extractedColors false := by
  unfold countColors
  generalize ([] : List (Rgb × Nat)) = acc
  induction pixels generalizing acc with
  | nil => rfl
  | cons px rest ih =>
    simp only [List.map_cons, List.foldl_cons]
    rw [ih]
    congr 1
    by_cases hsk : isSkinColor ⟨px.r, px.g, px.b⟩ = true
    · simp [hsk]
    · simp [hsk]

/-- C13. `isSkinColor` is true exactly when the hue, saturation and value of
`rgbToHsv` lie in `[0, 50]`, `[0.1, 0.7]` and `[0.2, 0.95]`. In portrait mode
`analyzeImageColors` counts no such pixel: the palette is the one obtained
without portrait mode from the buffer in which every skin-toned pixel has been
made transparent; in particular a buffer whose pixels are all skin-toned
yields an empty palette, for every candidate list. -/
theorem isSkinColor_portrait (rgb : Rgb) (colorblindMode : Bool) (imageData : List Pixel)
    (extractedColors : List Rgb) :
    (isSkinColor rgb = true ↔
      (0 ≤ (rgbToHsv rgb.r rgb.g rgb.b).1 ∧ (rgbToHsv rgb.r rgb.g rgb.b).1 ≤ 50) ∧
      (1 / 10 ≤ (rgbToHsv rgb.r rgb.g rgb.b).2.1 ∧ (rgbToHsv rgb.r rgb.g rgb.b).2.1 ≤ 7 / 10) ∧
      (2 / 10 ≤ (rgbToHsv rgb.r rgb.g rgb.b).2.2 ∧
        (rgbToHsv rgb.r rgb.g rgb.b).2.2 ≤ 95 / 100)) ∧
    analyzeImageColors colorblindMode imageData extractedColors true =
      analyzeImageColors colorblindMode
        (imageData.map (fun px =>
          if isSkinColor ⟨px.r, px.g, px.b⟩ then ⟨px.r, px.g, px.b, 0⟩ else px))
        extractedColors false ∧
    ((∀ px ∈ imageData, isSkinColor ⟨px.r, px.g, px.b⟩ = true) →
      analyzeImageColors colorblindMode imageData extractedColors true = []) := by
  refine ⟨isSkinColor_iff rgb, ?_, fun hskin => ?_⟩
  · have hs : 1 ≤ max 1 (imageData.length / 50000) := le_max_left _ _
    have hc : classifiedColors imageData extractedColors true =
        classifiedColors (imageData.map (fun px =>
          if isSkinColor ⟨px.r, px.g, px.b⟩ then ⟨px.r, px.g, px.b, 0⟩ else px))
          extractedColors false := by
      unfold classifiedColors
      simp only [List.length_map]
      rw [sampledPixels_map _ _ _ hs, ← countColors_portrait]
    rw [analyzeImageColors_eq, analyzeImageColors_eq, hc]
  · have hc : countColors
        (sampledPixels imageData (max 1 (imageData.length / 50000))) extractedColors true = [] :=
      countColors_skin _ _ fun px hpx => hskin px ((sampledPixels_sublist _ _).subset hpx)
    have hcl : classifiedColors imageData extractedColors true = [] := by
      unfold classifiedColors
      simp only [hc]
      rfl
    rw [analyzeImageColors_eq, hcl]
    rfl

/-- Witness for C13: four opaque pixels, one of them of the skin tone
`(200, 150, 100)`, and a transparent one; the candidates are the four colours.
The skin tone is part of the palette without portrait mode and is missing from
it in portrait mode. The colour `(70, 21, 21)`, whose saturation is the double
next above `0.7`, is not skin-toned. -/
theorem isSkinColor_portrait_witness :
    (isSkinColor ⟨200, 150, 100⟩ = true ∧ isSkinColor ⟨70, 21, 21⟩ = false) ∧
    (analyzeImageColors false
        [⟨200, 150, 100, 255⟩, ⟨0, 255, 0, 255⟩, ⟨0, 0, 255, 255⟩, ⟨255, 0, 0, 255⟩,
          ⟨9, 9, 9, 0⟩]
        [⟨200, 150, 100⟩, ⟨0, 255, 0⟩, ⟨0, 0, 255⟩, ⟨255, 0, 0⟩] false).map
        (fun e => (e.rgb, e.percentage)) =
      [(⟨200, 150, 100⟩, 25), (⟨0, 255, 0⟩, 25), (⟨0, 0, 255⟩, 25), (⟨255, 0, 0⟩, 25)] ∧
    (analyzeImageColors false
        [⟨200, 150, 100, 255⟩, ⟨0, 255, 0, 255⟩, ⟨0, 0, 255, 255⟩, ⟨255, 0, 0, 255⟩,
          ⟨9, 9, 9, 0⟩]
        [⟨200, 150, 100⟩, ⟨0, 255, 0⟩, ⟨0, 0, 255⟩, ⟨255, 0, 0⟩] true).map
        (fun e => (e.rgb, e.percentage)) =
      [(⟨0, 255, 0⟩, 333 / 10), (⟨0, 0, 255⟩, 333 / 10), (⟨255, 0, 0⟩, 333 / 10)] ∧
    ((isSkinColor ⟨70, 21, 21⟩ = true ↔
      (0 ≤ (rgbToHsv 70 21 21).1 ∧ (rgbToHsv 70 21 21).1 ≤ 50) ∧
      (1 / 10 ≤ (rgbToHsv 70 21 21).2.1 ∧ (rgbToHsv 70 21 21).2.1 ≤ 7 / 10) ∧
      (2 / 10 ≤ (rgbToHsv 70 21 21).2.2 ∧ (rgbToHsv 70 21 21).2.2 ≤ 95 / 100)) ∧
    analyzeImageColors false
        [⟨200, 150, 100, 255⟩, ⟨0, 255, 0, 255⟩, ⟨0, 0, 255, 255⟩, ⟨255, 0, 0, 255⟩,
          ⟨9, 9, 9, 0⟩]
        [⟨200, 150, 100⟩, ⟨0, 255, 0⟩, ⟨0, 0, 255⟩, ⟨255, 0, 0⟩] true =
      analyzeImageColors false
        (([⟨200, 150, 100, 255⟩, ⟨0, 255, 0, 255⟩, ⟨0, 0, 255, 255⟩, ⟨255, 0, 0, 255⟩,
          ⟨9, 9, 9, 0⟩] : List Pixel).map (fun px =>
          if isSkinColor ⟨px.r, px.g, px.b⟩ then ⟨px.r, px.g, px.b, 0⟩ else px))
        [⟨200, 150, 100⟩, ⟨0, 255, 0⟩, ⟨0, 0, 255⟩, ⟨255, 0, 0⟩] false ∧
    ((∀ px ∈ ([⟨200, 150, 100, 255⟩, ⟨0, 255, 0, 255⟩, ⟨0, 0, 255, 255⟩, ⟨255, 0, 0, 255⟩,
          ⟨9, 9, 9, 0⟩] : List Pixel), isSkinColor ⟨px.r, px.g, px.b⟩ = true) →
      analyzeImageColors false
        [⟨200, 150, 100, 255⟩, ⟨0, 255, 0, 255⟩, ⟨0, 0, 255, 255⟩, ⟨255, 0, 0, 255⟩,
          ⟨9, 9, 9, 0⟩]
        [⟨200, 150, 100⟩, ⟨0, 255, 0⟩, ⟨0, 0, 255⟩, ⟨255, 0, 0⟩] true = [])) :=
  ⟨by decide!, by decide!, by decide!, isSkinColor_portrait ⟨70, 21, 21⟩ false _ _⟩

/-! ### Visited pixels -/

/-- A list is the list of its elements by index. -/
theorem filterMap_range_getElem? {α : Type} (l : List α) :
    (List.range l.length).filterMap (fun k => l[k]?) = l := by
  induction l with
  | nil => rfl
  | cons a rest ih =>
    rw [List.length_cons, List.range_succ_eq_map, List.filterMap_cons]
    simp only [List.getElem?_cons_zero, List.filterMap_map]
    have e : ((fun k => (a :: rest)[k]?) ∘ Nat.succ) = fun k => rest[k]? := by
      funext k
      simp
    rw [e, ih]

/-- The pixels visited by the loop are the pixels `k * sampleRate` for
`k < ceil(N / sampleRate)`, in this order. -/
theorem sampledPixels_eq_range (imageData : List Pixel) (s : Nat) (hs : 1 ≤ s) :
    sampledPixels imageData s =
      (List.range ((imageData.length + s - 1) / s)).filterMap (fun k => imageData[k * s]?) := by
  have h := filterMap_range_getElem? (sampledPixels imageData s)
  rw [sampledPixels_length imageData s hs] at h
  rw [← h]
  congr 1
  funext k
  exact sampledPixels_getElem? imageData s hs k

/-- C15. For a buffer of `N` pixels `analyzeImageColors` samples with the
stride `max(1, floor(N / 50000))`: the classified colours are computed by the
counting loop from the pixels at the indices `0, stride, 2 * stride, ...`,
which are `ceil(N / stride)` pixels (the least `k` with `N ≤ k * stride`), and
from `N`; hence a second buffer of the same length that agrees with the first
at these indices gives the same palette. The number of visited pixels is at
most 50,000 when `N` is a multiple of 50,000, and below 100,000 for every
`N`. -/
theorem analyzeImageColors_stride (colorblindMode : Bool) (imageData imageData' : List Pixel)
    (extractedColors : List Rgb) (portrait : Bool) :
    classifiedColors imageData extractedColors portrait =
      ((countColors
          ((List.range ((imageData.length + max 1 (imageData.length / 50000) - 1) /
              max 1 (imageData.length / 50000))).filterMap
            (fun k => imageData[k * max 1 (imageData.length / 50000)]?))
          extractedColors portrait).map (fun kc =>
        ({ rgb := kc.1
           count := kc.2
           percentage := (kc.2 : ℚ) /
             ((imageData.length : ℚ) / ((max 1 (imageData.length / 50000) : Nat) : ℚ)) * 100 } :
          ClassifiedColor))).insertionSort (fun a b => b.count ≤ a.count) ∧
    ((List.range ((imageData.length + max 1 (imageData.length / 50000) - 1) /
        max 1 (imageData.length / 50000))).filterMap
      (fun k => imageData[k * max 1 (imageData.length / 50000)]?)).length =
      (imageData.length + max 1 (imageData.length / 50000) - 1) /
        max 1 (imageData.length / 50000) ∧
    (∀ k, (imageData.length + max 1 (imageData.length / 50000) - 1) /
        max 1 (imageData.length / 50000) ≤ k ↔
      imageData.length ≤ k * max 1 (imageData.length / 50000)) ∧
    (imageData'.length = imageData.length →
      (∀ k, imageData'[k * max 1 (imageData.length / 50000)]? =
        imageData[k * max 1 (imageData.length / 50000)]?) →
      analyzeImageColors colorblindMode imageData' extractedColors portrait =
        analyzeImageColors colorblindMode imageData extractedColors portrait) ∧
    (imageData.length % 50000 = 0 →
      (imageData.length + max 1 (imageData.length / 50000) - 1) /
        max 1 (imageData.length / 50000) ≤ 50000) ∧
    (imageData.length + max 1 (imageData.length / 50000) - 1) /
      max 1 (imageData.length / 50000) < 100000 := by
  have hs : 1 ≤ max 1 (imageData.length / 50000) := le_max_left _ _
  refine ⟨?_, ?_, ?_, ?_, ?_, ?_⟩
  · unfold classifiedColors
    simp only
    rw [sampledPixels_eq_range imageData _ hs]
  · rw [← sampledPixels_eq_range imageData _ hs, sampledPixels_length imageData _ hs]
  · intro k
    rw [Nat.div_le_iff_le_mul_add_pred (by omega), Nat.mul_comm]
    omega
  · intro hlen hk
    have hs' : 1 ≤ max 1 (imageData'.length / 50000) := le_max_left _ _
    have hc' : classifiedColors imageData' extractedColors portrait =
        classifiedColors imageData extractedColors portrait := by
      unfold classifiedColors
      simp only
      rw [sampledPixels_eq_range imageData _ hs, sampledPixels_eq_range imageData' _ hs', hlen]
      simp only [hk]
    rw [analyzeImageColors_eq, analyzeImageColors_eq, hc']
  · intro hmod
    rw [← Nat.lt_add_one_iff, Nat.div_lt_iff_lt_mul (by omega)]
    rcases max_cases 1 (imageData.length / 50000) with ⟨h1, h2⟩ | ⟨h1, h2⟩
    · rw [h1]; omega
    · rw [h1]; omega
  · rw [Nat.div_lt_iff_lt_mul (by omega)]
    rcases max_cases 1 (imageData.length / 50000) with ⟨h1, h2⟩ | ⟨h1, h2⟩
    · rw [h1]; omega
    · rw [h1]; omega

/-! ### Order of the result -/

/-- The array `colorArray` is sorted by non-increasing count. -/
theorem classifiedColors_sorted (imageData : List Pixel) (extractedColors : List Rgb)
    (portrait : Bool) :
    (classifiedColors imageData extractedColors portrait).Pairwise
      (fun a b => b.count ≤ a.count) := by
  haveI : IsTotal ClassifiedColor (fun a b => b.count ≤ a.count) :=
    ⟨fun a b => Nat.le_total b.count a.count⟩
  haveI : IsTrans ClassifiedColor (fun a b => b.count ≤ a.count) :=
    ⟨fun _ _ _ hab hbc => Nat.le_trans hbc hab⟩
  unfold classifiedColors
  exact List.sorted_insertionSort (fun (a b : ClassifiedColor) => b.count ≤ a.count) _

/-- A larger count gets a percentage that is not smaller. -/
theorem percentage_mono (T : ℚ) (hT : 0 ≤ T) {m n : Nat} (h : m ≤ n) :
    ((jsRound ((m : ℚ) / T * 1000) : Int) : ℚ) / 10 ≤
      ((jsRound ((n : ℚ) / T * 1000) : Int) : ℚ) / 10 := by
  have hmn : (m : ℚ) ≤ (n : ℚ) := by exact_mod_cast h
  have h1 : (m : ℚ) / T * 1000 ≤ (n : ℚ) / T * 1000 :=
    mul_le_mul_of_nonneg_right (div_le_div_of_nonneg_right hmn hT) (by norm_num)
  have h2 : ((jsRound ((m : ℚ) / T * 1000) : Int) : ℚ) ≤ (jsRound ((n : ℚ) / T * 1000) : Int) := by
    exact_mod_cast jsRound_mono h1
  linarith

/-- C16. The classified colours that `analyzeImageColors` passes to the
filter are sorted by non-increasing count, and the palette it returns has
non-increasing percentages. -/
theorem analyzeImageColors_sorted (colorblindMode : Bool) (imageData : List Pixel)
    (extractedColors : List Rgb) (portrait : Bool) :
    (classifiedColors imageData extractedColors portrait).Pairwise
      (fun a b => b.count ≤ a.count) ∧
    (analyzeImageColors colorblindMode imageData extractedColors portrait).Pairwise
      (fun a b => b.percentage ≤ a.percentage) := by
  have hsorted := classifiedColors_sorted imageData extractedColors portrait
  refine ⟨hsorted, ?_⟩
  rw [analyzeImageColors_eq, List.pairwise_map]
  have hsub := (applySmartFilter_sublist
    (classifiedColors imageData extractedColors portrait) (25 / 100))
  exact (hsorted.sublist hsub).imp fun {a b} hab =>
    percentage_mono _ (Nat.cast_nonneg _) hab

/-! ### Accessibility flags -/

theorem calculateColorDistance_radicand_nonneg (a b : Rgb) :
    0 ≤ (calculateColorDistance a b).radicand := by
  unfold calculateColorDistance
  positivity

/-- A distance is below the literal 50 exactly when the Euclidean distance
`sqrt(Δr² + Δg² + Δb²)` is. -/
theorem distance_ltNum_iff (a b : Rgb) (t : Nat) :
    (calculateColorDistance a b).ltNum t = true ↔
      Real.sqrt (((a.r - b.r) ^ 2 + (a.g - b.g) ^ 2 + (a.b - b.b) ^ 2 : Int) : ℝ) < (t : ℝ) :=
  Root.ltNum_iff_sqrt _ t (calculateColorDistance_radicand_nonneg a b)

/-- Rounding a number of `[0, 1024]` to a double gives a non-negative number
that differs from it by at most `2 ^ -43`. -/
theorem toDouble_near {x : ℚ} (h0 : 0 ≤ x) (h1 : x ≤ 1024) :
    0 ≤ toDouble x ∧ |toDouble x - x| ≤ 1 / 2 ^ 43 := by
  constructor
  · have h := toDouble_mono h0
    have hz : toDouble 0 = 0 := by simp [toDouble, roundSignificand_zero]
    rwa [hz] at h
  · refine (toDouble_sub_le x).trans ?_
    rw [abs_of_nonneg h0]
    calc x / 2 ^ 53 ≤ 1024 / 2 ^ 53 := div_le_div_of_nonneg_right h1 (by positivity)
      _ = 1 / 2 ^ 43 := by norm_num

/-- The JS value of `a * x + b * y`, for coefficients in `[0, 1]` and channels
in `[0, 255]`, differs from the exact value by less than `10 ^ -10`. -/
theorem jsLinear_near (a b : ℚ) (x y : Int) (ha0 : 0 ≤ a) (ha1 : a ≤ 1) (hb0 : 0 ≤ b)
    (hb1 : b ≤ 1) (hx0 : 0 ≤ x) (hx1 : x ≤ 255) (hy0 : 0 ≤ y) (hy1 : y ≤ 255) :
    |jsLinear a x b y - (a * x + b * y)| ≤ 513 / 2 ^ 43 := by
  have hx0' : (0 : ℚ) ≤ x := by exact_mod_cast hx0
  have hx1' : (x : ℚ) ≤ 255 := by exact_mod_cast hx1
  have hy0' : (0 : ℚ) ≤ y := by exact_mod_cast hy0
  have hy1' : (y : ℚ) ≤ 255 := by exact_mod_cast hy1
  have key : ∀ (c : ℚ) (z : ℚ), 0 ≤ c → c ≤ 1 → 0 ≤ z → z ≤ 255 →
      0 ≤ toDouble (toDouble c * z) ∧ |toDouble (toDouble c * z) - c * z| ≤ 256 / 2 ^ 43 := by
    intro c z hc0 hc1 hz0 hz1
    obtain ⟨h1, h2⟩ := toDouble_near hc0 (by linarith)
    rw [abs_le] at h2
    have h3 : 0 ≤ toDouble c * z := mul_nonneg h1 hz0
    have h4 : toDouble c * z ≤ 1024 := by nlinarith
    obtain ⟨h5, h6⟩ := toDouble_near h3 h4
    rw [abs_le] at h6
    refine ⟨h5, ?_⟩
    rw [abs_le]
    constructor <;> nlinarith
  obtain ⟨p0, p1⟩ := key a x ha0 ha1 hx0' hx1'
  obtain ⟨q0, q1⟩ := key b y hb0 hb1 hy0' hy1'
  rw [abs_le] at p1 q1
  have hax : a * x ≤ 255 := by nlinarith
  have hby : b * y ≤ 255 := by nlinarith
  obtain ⟨_, h⟩ := toDouble_near
    (x := toDouble (toDouble a * x) + toDouble (toDouble b * y)) (by linarith)
    (by norm_num at p1 q1 ⊢; linarith)
  rw [abs_le] at h
  unfold jsLinear
  rw [abs_le]
  constructor <;> linarith

/-- `Math.round` of the JS value of `a * x + b * y` is an integer nearest to
the exact value, for coefficients in `[0, 1]` that are multiples of `1 / 1000`
and channels in `[0, 255]`. -/
theorem jsRound_jsLinear_near (a b : ℚ) (x y : Int) (ha : 0 ≤ a ∧ a ≤ 1)
    (hb : 0 ≤ b ∧ b ≤ 1) (hA : ∃ A : Int, a * 1000 = A) (hB : ∃ B : Int, b * 1000 = B)
    (hx : 0 ≤ x ∧ x ≤ 255) (hy : 0 ≤ y ∧ y ≤ 255) :
    |(jsRound (jsLinear a x b y) : ℚ) - (a * x + b * y)| ≤ 1 / 2 := by
  obtain ⟨A, hA⟩ := hA
  obtain ⟨B, hB⟩ := hB
  have h := jsLinear_near a b x y ha.1 ha.2 hb.1 hb.2 hx.1 hx.2 hy.1 hy.2
  rw [abs_le] at h
  generalize jsLinear a x b y = c at h
  have hs1 : ((jsRound c : Int) : ℚ) ≤ c + 1 / 2 := Int.floor_le _
  have hs2 : c + 1 / 2 < ((jsRound c : Int) : ℚ) + 1 := Int.lt_floor_add_one _
  generalize jsRound c = s at hs1 hs2
  have e : a * x + b * y = ((A * x + B * y : Int) : ℚ) / 1000 := by
    push_cast
    rw [← hA, ← hB]
    ring
  rw [e] at h ⊢
  generalize A * x + B * y = N at h ⊢
  have h1 : (1000 * s : ℚ) < N + 501 := by
    norm_num at h
    linarith
  have h2 : ((N : ℚ) - 501) < 1000 * s := by
    norm_num at h
    linarith
  have h1' : 1000 * s < N + 501 := by exact_mod_cast h1
  have h2' : N - 501 < 1000 * s := by exact_mod_cast h2
  have h3 : (1000 * s : ℚ) ≤ N + 500 := by exact_mod_cast (by omega : 1000 * s ≤ N + 500)
  have h4 : (N : ℚ) - 500 ≤ 1000 * s := by exact_mod_cast (by omega : N - 500 ≤ 1000 * s)
  rw [abs_le]
  constructor <;> linarith

/-- C17. With accessibility analysis enabled, each of the three flags of
`calculateAccessibility` is true exactly when the Euclidean distance between
the colour and its simulated colour is `< 50`. For a colour with channels in
`[0, 255]` every channel of a simulated colour is an integer nearest to the
fixed linear transform of the deficiency. At `(0, 0, 165)`, where the double
`0.7 * 165` lies just below `115.5`, the simulated blue is 115, at distance
50, and the deuteranopia flag is false. -/
theorem calculateAccessibility_flags (rgb : Rgb) :
    ((calculateAccessibility true rgb).protanopia = true ↔
      Real.sqrt (((rgb.r - (simulateProtanopia rgb).r) ^ 2 +
        (rgb.g - (simulateProtanopia rgb).g) ^ 2 +
        (rgb.b - (simulateProtanopia rgb).b) ^ 2 : Int) : ℝ) < 50) ∧
    ((calculateAccessibility true rgb).deuteranopia = true ↔
      Real.sqrt (((rgb.r - (simulateDeuteranopia rgb).r) ^ 2 +
        (rgb.g - (simulateDeuteranopia rgb).g) ^ 2 +
        (rgb.b - (simulateDeuteranopia rgb).b) ^ 2 : Int) : ℝ) < 50) ∧
    ((calculateAccessibility true rgb).tritanopia = true ↔
      Real.sqrt (((rgb.r - (simulateTritanopia rgb).r) ^ 2 +
        (rgb.g - (simulateTritanopia rgb).g) ^ 2 +
        (rgb.b - (simulateTritanopia rgb).b) ^ 2 : Int) : ℝ) < 50) ∧
    (rgb.InRange →
      (|((simulateProtanopia rgb).r : ℚ) - (567 / 1000 * rgb.r + 433 / 1000 * rgb.g)| ≤ 1 / 2 ∧
       |((simulateProtanopia rgb).g : ℚ) - (558 / 1000 * rgb.r + 442 / 1000 * rgb.g)| ≤ 1 / 2 ∧
       |((simulateProtanopia rgb).b : ℚ) - (242 / 1000 * rgb.g + 758 / 1000 * rgb.b)| ≤ 1 / 2) ∧
      (|((simulateDeuteranopia rgb).r : ℚ) - (625 / 1000 * rgb.r + 375 / 1000 * rgb.g)| ≤ 1 / 2 ∧
       |((simulateDeuteranopia rgb).g : ℚ) - (7 / 10 * rgb.r + 3 / 10 * rgb.g)| ≤ 1 / 2 ∧
       |((simulateDeuteranopia rgb).b : ℚ) - (3 / 10 * rgb.g + 7 / 10 * rgb.b)| ≤ 1 / 2) ∧
      (|((simulateTritanopia rgb).r : ℚ) - (95 / 100 * rgb.r + 5 / 100 * rgb.g)| ≤ 1 / 2 ∧
       |((simulateTritanopia rgb).g : ℚ) - (433 / 1000 * rgb.g + 567 / 1000 * rgb.b)| ≤ 1 / 2 ∧
       |((simulateTritanopia rgb).b : ℚ) - (475 / 1000 * rgb.g + 525 / 1000 * rgb.b)| ≤ 1 / 2)) ∧
    (simulateDeuteranopia ⟨0, 0, 165⟩ = ⟨0, 0, 115⟩ ∧
      (calculateAccessibility true ⟨0, 0, 165⟩).deuteranopia = false) := by
  refine ⟨?_, ?_, ?_, ?_, by decide!, by decide!⟩
  · have h := distance_ltNum_iff rgb (simulateProtanopia rgb) 50
    simpa [calculateAccessibility] using h
  · have h := distance_ltNum_iff rgb (simulateDeuteranopia rgb) 50
    simpa [calculateAccessibility] using h
  · have h := distance_ltNum_iff rgb (simulateTritanopia rgb) 50
    simpa [calculateAccessibility] using h
  · rintro ⟨hr, hg, hb⟩
    refine ⟨⟨?_, ?_, ?_⟩, ⟨?_, ?_, ?_⟩, ⟨?_, ?_, ?_⟩⟩
    · exact jsRound_jsLinear_near _ _ _ _ (by norm_num) (by norm_num) ⟨567, by norm_num⟩
        ⟨433, by norm_num⟩ hr hg
    · exact jsRound_jsLinear_near _ _ _ _ (by norm_num) (by norm_num) ⟨558, by norm_num⟩
        ⟨442, by norm_num⟩ hr hg
    · exact jsRound_jsLinear_near _ _ _ _ (by norm_num) (by norm_num) ⟨242, by norm_num⟩
        ⟨758, by norm_num⟩ hg hb
    · exact jsRound_jsLinear_near _ _ _ _ (by norm_num) (by norm_num) ⟨625, by norm_num⟩
        ⟨375, by norm_num⟩ hr hg
    · exact jsRound_jsLinear_near _ _ _ _ (by norm_num) (by norm_num) ⟨700, by norm_num⟩
        ⟨300, by norm_num⟩ hr hg
    · exact jsRound_jsLinear_near _ _ _ _ (by norm_num) (by norm_num) ⟨300, by norm_num⟩
        ⟨700, by norm_num⟩ hg hb
    · exact jsRound_jsLinear_near _ _ _ _ (by norm_num) (by norm_num) ⟨950, by norm_num⟩
        ⟨50, by norm_num⟩ hr hg
    · exact jsRound_jsLinear_near _ _ _ _ (by norm_num) (by norm_num) ⟨433, by norm_num⟩
        ⟨567, by norm_num⟩ hg hb
    · exact jsRound_jsLinear_near _ _ _ _ (by norm_num) (by norm_num) ⟨475, by norm_num⟩
        ⟨525, by norm_num⟩ hg hb

/-- C18, counterexample. For pure red the distance to the protanopia
simulation exceeds 50 and the flag is false; for the grey `(128, 128, 128)`
the simulation returns the colour itself, the distance is 0, and the flag is
true. -/
theorem calculateAccessibility_exceeds_counterexample :
    ¬ ((calculateAccessibility true ⟨255, 0, 0⟩).protanopia = true ↔
      50 < Real.sqrt (((calculateColorDistance ⟨255, 0, 0⟩
        (simulateProtanopia ⟨255, 0, 0⟩)).radicand : Int) : ℝ)) ∧
    ¬ ((calculateAccessibility true ⟨128, 128, 128⟩).protanopia = true ↔
      50 < Real.sqrt (((calculateColorDistance ⟨128, 128, 128⟩
        (simulateProtanopia ⟨128, 128, 128⟩)).radicand : Int) : ℝ)) := by
  have h1 : (calculateAccessibility true ⟨255, 0, 0⟩).protanopia = false := by decide!
  have h2 : (calculateColorDistance ⟨255, 0, 0⟩ (simulateProtanopia ⟨255, 0, 0⟩)).radicand =
      32264 := by decide!
  have h3 : (calculateAccessibility true ⟨128, 128, 128⟩).protanopia = true := by decide!
  have h4 : (calculateColorDistance ⟨128, 128, 128⟩
      (simulateProtanopia ⟨128, 128, 128⟩)).radicand = 0 := by decide!
  constructor
  · rw [h1, h2]
    intro h
    have : (50 : ℝ) < Real.sqrt ((32264 : Int) : ℝ) := by
      rw [Real.lt_sqrt (by norm_num)]
      norm_num
    exact absurd (h.2 this) (by simp)
  · rw [h3, h4]
    intro h
    have := h.1 rfl
    simp at this
    linarith

/-- C18, amended. With accessibility analysis enabled each of the three flags
of `calculateAccessibility` is false exactly when the Euclidean distance
between the colour and its simulated colour is at least 50, hence true exactly
when it is below 50; the flag `normal` is true with the analysis on or off. -/
theorem calculateAccessibility_below_threshold (colorblindMode : Bool) (rgb : Rgb) :
    (calculateAccessibility colorblindMode rgb).normal = true ∧
    ((calculateAccessibility true rgb).protanopia = false ↔
      50 ≤ Real.sqrt (((calculateColorDistance rgb (simulateProtanopia rgb)).radicand : Int) : ℝ)) ∧
    ((calculateAccessibility true rgb).deuteranopia = false ↔
      50 ≤ Real.sqrt (((calculateColorDistance rgb (simulateDeuteranopia rgb)).radicand : Int) : ℝ)) ∧
    ((calculateAccessibility true rgb).tritanopia = false ↔
      50 ≤ Real.sqrt (((calculateColorDistance rgb (simulateTritanopia rgb)).radicand : Int) : ℝ)) := by
  have key : ∀ c : Rgb, (calculateColorDistance rgb c).ltNum 50 = false ↔
      50 ≤ Real.sqrt (((calculateColorDistance rgb c).radicand : Int) : ℝ) := by
    intro c
    have h := Root.ltNum_iff_sqrt (calculateColorDistance rgb c) 50
      (calculateColorDistance_radicand_nonneg rgb c)
    rw [← not_lt, ← Bool.not_eq_true]
    exact not_congr (by simpa using h)
  refine ⟨by cases colorblindMode <;> rfl, ?_, ?_, ?_⟩
  · simpa [calculateAccessibility] using key (simulateProtanopia rgb)
  · simpa [calculateAccessibility] using key (simulateDeuteranopia rgb)
  · simpa [calculateAccessibility] using key (simulateTritanopia rgb)

/-- C19, counterexample. The distance between `(255, 0, 0)` and its protanopia
simulation `(145, 142, 0)` is `sqrt(110² + 142²) = sqrt(32264)`, which is not
between 192.65 and 192.75. -/
theorem protanopia_red_distance_counterexample :
    (calculateColorDistance ⟨255, 0, 0⟩ (simulateProtanopia ⟨255, 0, 0⟩)).radicand = 32264 ∧
    ¬ ((19265 / 100 : ℝ) ≤ Real.sqrt ((32264 : Int) : ℝ) ∧
        Real.sqrt ((32264 : Int) : ℝ) ≤ 19275 / 100) := by
  refine ⟨by decide!, fun h => ?_⟩
  have h1 : Real.sqrt ((32264 : Int) : ℝ) < 19265 / 100 := by
    rw [Real.sqrt_lt' (by norm_num)]
    norm_num
  linarith [h.1]

/-- C19, amended. For pure red `simulateProtanopia` returns `(145, 142, 0)`,
the distance between `(255, 0, 0)` and `(145, 142, 0)` is approximately 179.6
(between 179.6 and 179.7), and the protanopia flag is false. -/
theorem protanopia_red :
    simulateProtanopia ⟨255, 0, 0⟩ = ⟨145, 142, 0⟩ ∧
    (1796 / 10 : ℝ) <
      Real.sqrt (((calculateColorDistance ⟨255, 0, 0⟩ ⟨145, 142, 0⟩).radicand : Int) : ℝ) ∧
    Real.sqrt (((calculateColorDistance ⟨255, 0, 0⟩ ⟨145, 142, 0⟩).radicand : Int) : ℝ)
      < 1797 / 10 ∧
    (calculateAccessibility true ⟨255, 0, 0⟩).protanopia = false := by
  have hr : (calculateColorDistance ⟨255, 0, 0⟩ ⟨145, 142, 0⟩).radicand = 32264 := by decide
  refine ⟨by decide!, ?_, ?_, by decide!⟩
  · rw [hr, Real.lt_sqrt (by norm_num)]
    norm_num
  · rw [hr, Real.sqrt_lt' (by norm_num)]
    norm_num

/-! ### Monochromatic harmony -/

/-- C20, the code at the failing input. For pure red, `rgbToHsl` gives
saturation 1 and lightness 0.5; the second monochromatic colour is
`hslToRgb(0, 1.2, 0.35)`, where `p = 2 * 0.35 - 0.35 * 2.2 = -0.07`, and its
green and blue channels are `Math.round(-17.85) = -18`. The list has four
colours. -/
theorem getMonochromatic_red :
    rgbToHsl 255 0 0 = (0, 1, 1 / 2) ∧
    getMonochromatic ⟨255, 0, 0⟩ =
      [⟨228, 103, 103⟩, ⟨196, -18, -18⟩, ⟨244, 37, 37⟩, ⟨172, 57, 57⟩] ∧
    (getMonochromatic ⟨255, 0, 0⟩).length = 4 ∧
    ¬ (∀ c ∈ getMonochromatic ⟨255, 0, 0⟩, c.InRange) := by
  decide!

/-! ### Complementary colour and distance -/

/-- C22. `getComplementary(c)` is the single colour `(255 - r, 255 - g, 255 - b)`,
and applying `getComplementary` to that colour returns `c`. -/
theorem getComplementary_involution (c : Rgb) :
    getComplementary c = [⟨255 - c.r, 255 - c.g, 255 - c.b⟩] ∧
    getComplementary ⟨255 - c.r, 255 - c.g, 255 - c.b⟩ = [c] := by
  refine ⟨rfl, ?_⟩
  obtain ⟨r, g, b⟩ := c
  simp only [getComplementary, List.cons.injEq, Rgb.mk.injEq, and_true]
  refine ⟨?_, ?_, ?_⟩ <;> omega

/-- C29. `calculateColorDistance` is symmetric, and the distance of a colour
to itself is `sqrt(0) = 0`. -/
theorem calculateColorDistance_symm_self (a b : Rgb) :
    calculateColorDistance a b = calculateColorDistance b a ∧
    calculateColorDistance a a = ⟨0⟩ ∧
    Real.sqrt ((calculateColorDistance a b).radicand : ℝ) =
      Real.sqrt ((calculateColorDistance b a).radicand : ℝ) ∧
    Real.sqrt ((calculateColorDistance a a).radicand : ℝ) = 0 := by
  have h1 : calculateColorDistance a b = calculateColorDistance b a := by
    unfold calculateColorDistance
    congr 1
    ring
  have h2 : calculateColorDistance a a = ⟨0⟩ := by
    unfold calculateColorDistance
    congr 1
    ring
  refine ⟨h1, h2, by rw [h1], ?_⟩
  rw [h2]
  simp

/-! ### Ranges of `rgbToHsl` and `rgbToHsv` -/

theorem div_mem_unit {x d : ℚ} (hd : 0 < d) (h1 : -d ≤ x) (h2 : x ≤ d) :
    -1 ≤ x / d ∧ x / d ≤ 1 := by
  constructor
  · rw [le_div_iff₀ hd]; linarith
  · rw [div_le_iff₀ hd]; linarith

theorem jsRound_mem_of_mem {x : ℚ} {lo hi : Int} (h1 : (lo : ℚ) ≤ x) (h2 : x ≤ (hi : ℚ)) :
    lo ≤ jsRound x ∧ jsRound x ≤ hi :=
  ⟨le_jsRound h1, jsRound_le h2⟩

/-- Ranges of the result of `rgbToHsl` on scaled channels in `[0, 1]`. -/
theorem rgbToHsl_range_scaled (R G B : Int) (c : Rgb.InRange ⟨R, G, B⟩) :
    (0 ≤ (rgbToHsl R G B).1 ∧ (rgbToHsl R G B).1 ≤ 360) ∧
    (0 ≤ (rgbToHsl R G B).2.1 ∧ (rgbToHsl R G B).2.1 ≤ 1) ∧
    (0 ≤ (rgbToHsl R G B).2.2 ∧ (rgbToHsl R G B).2.2 ≤ 1) := by
  obtain ⟨⟨hR0, hR1⟩, ⟨hG0, hG1⟩, ⟨hB0, hB1⟩⟩ := c
  simp only at hR0 hR1 hG0 hG1 hB0 hB1
  have hp : (0 : ℚ) < 255 := by norm_num
  have r0 : (0 : ℚ) ≤ (R : ℚ) / 255 := div_nonneg (by exact_mod_cast hR0) hp.le
  have r1 : (R : ℚ) / 255 ≤ 1 := (div_le_one hp).2 (by exact_mod_cast hR1)
  have g0 : (0 : ℚ) ≤ (G : ℚ) / 255 := div_nonneg (by exact_mod_cast hG0) hp.le
  have g1 : (G : ℚ) / 255 ≤ 1 := (div_le_one hp).2 (by exact_mod_cast hG1)
  have b0 : (0 : ℚ) ≤ (B : ℚ) / 255 := div_nonneg (by exact_mod_cast hB0) hp.le
  have b1 : (B : ℚ) / 255 ≤ 1 := (div_le_one hp).2 (by exact_mod_cast hB1)
  unfold rgbToHsl
  simp only
  generalize (R : ℚ) / 255 = r at r0 r1 ⊢
  generalize (G : ℚ) / 255 = g at g0 g1 ⊢
  generalize (B : ℚ) / 255 = b at b0 b1 ⊢
  have hxr : r ≤ max (max r g) b := le_trans (le_max_left _ _) (le_max_left _ _)
  have hxg : g ≤ max (max r g) b := le_trans (le_max_right _ _) (le_max_left _ _)
  have hxb : b ≤ max (max r g) b := le_max_right _ _
  have hnr : min (min r g) b ≤ r := le_trans (min_le_left _ _) (min_le_left _ _)
  have hng : min (min r g) b ≤ g := le_trans (min_le_left _ _) (min_le_right _ _)
  have hnb : min (min r g) b ≤ b := min_le_right _ _
  have hx1 : max (max r g) b ≤ 1 := max_le (max_le r1 g1) b1
  have hn0 : 0 ≤ min (min r g) b := le_min (le_min r0 g0) b0
  generalize max (max r g) b = mx at hxr hxg hxb hx1 ⊢
  generalize min (min r g) b = mn at hnr hng hnb hn0 ⊢
  by_cases hmm : mx = mn
  · rw [if_pos hmm]
    simp only
    refine ⟨?_, ⟨le_rfl, zero_le_one⟩, ?_⟩
    · exact jsRound_mem_of_mem (by norm_num) (by norm_num)
    · constructor <;> linarith
  · rw [if_neg hmm]
    simp only
    have hd : 0 < mx - mn := by
      have : mn ≤ mx := le_trans hnr hxr
      rcases lt_or_eq_of_le this with h | h
      · linarith
      · exact absurd h.symm hmm
    refine ⟨?_, ?_, ?_⟩
    · apply jsRound_mem_of_mem
      · push_cast
        have hgb := div_mem_unit hd (by linarith : -(mx - mn) ≤ g - b) (by linarith)
        have hbr := div_mem_unit hd (by linarith : -(mx - mn) ≤ b - r) (by linarith)
        have hrg := div_mem_unit hd (by linarith : -(mx - mn) ≤ r - g) (by linarith)
        split_ifs with h1 h2 h3
        · linarith [hgb.1]
        · have : 0 ≤ (g - b) / (mx - mn) := div_nonneg (by linarith) hd.le
          linarith
        · linarith [hbr.1]
        · linarith [hrg.1]
      · push_cast
        have hgb := div_mem_unit hd (by linarith : -(mx - mn) ≤ g - b) (by linarith)
        have hbr := div_mem_unit hd (by linarith : -(mx - mn) ≤ b - r) (by linarith)
        have hrg := div_mem_unit hd (by linarith : -(mx - mn) ≤ r - g) (by linarith)
        split_ifs with h1 h2 h3
        · have : (g - b) / (mx - mn) ≤ 0 :=
            div_nonpos_of_nonpos_of_nonneg (by linarith) hd.le
          linarith
        · linarith [hgb.2]
        · linarith [hbr.2]
        · linarith [hrg.2]
    · split_ifs with h1
      · have h2 : 0 < 2 - mx - mn := by linarith
        exact ⟨div_nonneg hd.le h2.le, (div_le_one h2).2 (by linarith)⟩
      · have h2 : 0 < mx + mn := by linarith
        exact ⟨div_nonneg hd.le h2.le, (div_le_one h2).2 (by linarith)⟩
    · constructor <;> linarith

/-- C24, counterexample. For `(255, 0, 1)` the hue before rounding is
`360 - 60/255 = 359.76`, which `Math.round` takes to 360. -/
theorem rgbToHsl_hue_counterexample :
    rgbToHsl 255 0 1 = (360, 1, 1 / 2) ∧ ¬ (rgbToHsl 255 0 1).1 < 360 := by
  decide!

/-- C24, amended. For every RGB triple with channels in `[0, 255]`,
`rgbToHsl` returns an integer hue `h` with `0 ≤ h ≤ 360`, a saturation in
`[0, 1]` and a lightness in `[0, 1]`. -/
theorem rgbToHsl_range (c : Rgb) (hc : c.InRange) :
    (0 ≤ (rgbToHsl c.r c.g c.b).1 ∧ (rgbToHsl c.r c.g c.b).1 ≤ 360) ∧
    (0 ≤ (rgbToHsl c.r c.g c.b).2.1 ∧ (rgbToHsl c.r c.g c.b).2.1 ≤ 1) ∧
    (0 ≤ (rgbToHsl c.r c.g c.b).2.2 ∧ (rgbToHsl c.r c.g c.b).2.2 ≤ 1) :=
  rgbToHsl_range_scaled c.r c.g c.b hc

/-- Witness for C24 (amended): the colour `(255, 0, 1)`, whose hue is 360. -/
theorem rgbToHsl_range_witness :
    (⟨255, 0, 1⟩ : Rgb).InRange ∧
    ((0 ≤ (rgbToHsl 255 0 1).1 ∧ (rgbToHsl 255 0 1).1 ≤ 360) ∧
     (0 ≤ (rgbToHsl 255 0 1).2.1 ∧ (rgbToHsl 255 0 1).2.1 ≤ 1) ∧
     (0 ≤ (rgbToHsl 255 0 1).2.2 ∧ (rgbToHsl 255 0 1).2.2 ≤ 1)) :=
  ⟨by decide, rgbToHsl_range ⟨255, 0, 1⟩ (by decide)⟩

/-- The JS remainder `x % 6` of a number with `-6 < x < 6` is `x` itself. -/
theorem trunc_rem_small (x : ℚ) (h1 : -1 ≤ x) (h2 : x ≤ 1) :
    x - 6 * (if 0 ≤ x / 6 then (⌊x / 6⌋ : ℚ) else (⌈x / 6⌉ : ℚ)) = x := by
  split_ifs with h
  · have : ⌊x / 6⌋ = 0 := by
      rw [Int.floor_eq_iff]
      constructor
      · simpa using h
      · push_cast; linarith
    rw [this]; simp
  · have : ⌈x / 6⌉ = 0 := by
      rw [Int.ceil_eq_iff]
      constructor
      · push_cast; linarith
      · push_cast; linarith
    rw [this]; simp

/-- A scaled channel `c / 255` of a byte is a double in `[0, 1]`. -/
theorem scaled_channel (c : Int) (h0 : 0 ≤ c) (h1 : c ≤ 255) :
    (0 ≤ toDouble ((c : ℚ) / 255) ∧ toDouble ((c : ℚ) / 255) ≤ 1) ∧
      toDouble (toDouble ((c : ℚ) / 255)) = toDouble ((c : ℚ) / 255) := by
  have hp : (0 : ℚ) < 255 := by norm_num
  exact ⟨toDouble_mem toDouble_consts.1 toDouble_consts.2.1
    (div_nonneg (by exact_mod_cast h0) hp.le) ((div_le_one hp).2 (by exact_mod_cast h1)),
    toDouble_idem _⟩

/-- The quotient `(x - y) / diff` of `rgbToHsv`, as the code computes it, lies
in `[-1, 1]`. -/
theorem hsv_quotient_mem {x y mx mn : ℚ} (h1 : x - y ≤ mx - mn) (h2 : -(mx - mn) ≤ x - y)
    (hd : 0 < toDouble (mx - mn)) :
    -1 ≤ toDouble (toDouble (x - y) / toDouble (mx - mn)) ∧
      toDouble (toDouble (x - y) / toDouble (mx - mn)) ≤ 1 := by
  have a1 : toDouble (x - y) ≤ toDouble (mx - mn) := toDouble_mono h1
  have a2 : -toDouble (mx - mn) ≤ toDouble (x - y) := by
    rw [← toDouble_neg]; exact toDouble_mono h2
  have q := div_mem_unit hd a2 a1
  exact toDouble_mem toDouble_consts.2.2.1 toDouble_consts.2.1 q.1 q.2

/-- C25. For every RGB triple with channels in `[0, 255]`, `rgbToHsv` returns
an integer hue `h` with `0 ≤ h < 360`, a saturation in `[0, 1]` and a value in
`[0, 1]`. -/
theorem rgbToHsv_range (c : Rgb) (hc : c.InRange) :
    (0 ≤ (rgbToHsv c.r c.g c.b).1 ∧ (rgbToHsv c.r c.g c.b).1 < 360) ∧
    (0 ≤ (rgbToHsv c.r c.g c.b).2.1 ∧ (rgbToHsv c.r c.g c.b).2.1 ≤ 1) ∧
    (0 ≤ (rgbToHsv c.r c.g c.b).2.2 ∧ (rgbToHsv c.r c.g c.b).2.2 ≤ 1) := by
  obtain ⟨R, G, B⟩ := c
  obtain ⟨⟨hR0, hR1⟩, ⟨hG0, hG1⟩, ⟨hB0, hB1⟩⟩ := hc
  simp only at hR0 hR1 hG0 hG1 hB0 hB1 ⊢
  obtain ⟨⟨r0, r1⟩, ri⟩ := scaled_channel R hR0 hR1
  obtain ⟨⟨g0, g1⟩, gi⟩ := scaled_channel G hG0 hG1
  obtain ⟨⟨b0, b1⟩, bi⟩ := scaled_channel B hB0 hB1
  obtain ⟨c0, c1, cm1, c3, c5, c60, cm60, c180, c300⟩ := toDouble_consts
  unfold rgbToHsv
  simp only
  generalize toDouble ((R : ℚ) / 255) = r at r0 r1 ri ⊢
  generalize toDouble ((G : ℚ) / 255) = g at g0 g1 gi ⊢
  generalize toDouble ((B : ℚ) / 255) = b at b0 b1 bi ⊢
  have hxr : r ≤ max (max r g) b := le_trans (le_max_left _ _) (le_max_left _ _)
  have hxg : g ≤ max (max r g) b := le_trans (le_max_right _ _) (le_max_left _ _)
  have hxb : b ≤ max (max r g) b := le_max_right _ _
  have hnr : min (min r g) b ≤ r := le_trans (min_le_left _ _) (min_le_left _ _)
  have hng : min (min r g) b ≤ g := le_trans (min_le_left _ _) (min_le_right _ _)
  have hnb : min (min r g) b ≤ b := min_le_right _ _
  have hx1 : max (max r g) b ≤ 1 := max_le (max_le r1 g1) b1
  have hn0 : 0 ≤ min (min r g) b := le_min (le_min r0 g0) b0
  have hxi : toDouble (max (max r g) b) = max (max r g) b := by
    rcases max_choice (max r g) b with h | h
    · rcases max_choice r g with h' | h'
      · rw [h, h', ri]
      · rw [h, h', gi]
    · rw [h, bi]
  generalize max (max r g) b = mx at hxr hxg hxb hx1 hxi ⊢
  generalize min (min r g) b = mn at hnr hng hnb hn0 ⊢
  have hle : mn ≤ mx := le_trans hnr hxr
  have hd0 : 0 ≤ toDouble (mx - mn) := by
    rw [← c0]; exact toDouble_mono (by linarith)
  have hdx : toDouble (mx - mn) ≤ mx := by
    rw [← hxi]; exact toDouble_mono (by linarith)
  refine ⟨?_, ?_, ?_⟩
  · by_cases hz : toDouble (mx - mn) = 0
    · have h0 : jsRound (0 : ℚ) = 0 := by
        exact_mod_cast jsRound_intCast 0
      simp [hz, h0, c0]
    · have hd : 0 < toDouble (mx - mn) := lt_of_le_of_ne hd0 (Ne.symm hz)
      have hgb := hsv_quotient_mem (x := g) (y := b) (by linarith) (by linarith) hd
      have hbr := hsv_quotient_mem (x := b) (y := r) (by linarith) (by linarith) hd
      have hrg := hsv_quotient_mem (x := r) (y := g) (by linarith) (by linarith) hd
      simp only [ne_eq, hz, not_false_eq_true, if_true]
      by_cases h1 : mx = r
      · simp only [h1, if_true]
        rw [h1] at hgb
        rw [trunc_rem_small _ hgb.1 hgb.2]
        have hm := toDouble_mem (x := toDouble (toDouble (g - b) / toDouble (r - mn)) * 60)
          cm60 c60 (by linarith [hgb.1]) (by linarith [hgb.2])
        have hb := @jsRound_mem_of_mem _ (-60) 60 (by push_cast; exact hm.1)
          (by push_cast; exact hm.2)
        split_ifs with hneg
        · omega
        · omega
      · simp only [h1, if_false]
        by_cases h2 : mx = g
        · simp only [h2, if_true]
          rw [h2] at hbr
          have hs := toDouble_mem (x := toDouble (toDouble (b - r) / toDouble (g - mn)) + 2)
            c1 c3 (by linarith [hbr.1]) (by linarith [hbr.2])
          have hm := toDouble_mem
            (x := toDouble (toDouble (toDouble (b - r) / toDouble (g - mn)) + 2) * 60)
            c60 c180 (by linarith [hs.1]) (by linarith [hs.2])
          have hb := @jsRound_mem_of_mem _ 60 180 (by push_cast; exact hm.1)
            (by push_cast; exact hm.2)
          split_ifs with hneg
          · omega
          · omega
        · simp only [h2, if_false]
          have hs := toDouble_mem (x := toDouble (toDouble (r - g) / toDouble (mx - mn)) + 4)
            c3 c5 (by linarith [hrg.1]) (by linarith [hrg.2])
          have hm := toDouble_mem
            (x := toDouble (toDouble (toDouble (r - g) / toDouble (mx - mn)) + 4) * 60)
            c180 c300 (by linarith [hs.1]) (by linarith [hs.2])
          have hb := @jsRound_mem_of_mem _ 180 300 (by push_cast; exact hm.1)
            (by push_cast; exact hm.2)
          split_ifs with hneg
          · omega
          · omega
  · split_ifs with hz
    · exact ⟨le_rfl, zero_le_one⟩
    · have hd : 0 < toDouble (mx - mn) := lt_of_le_of_ne hd0 (Ne.symm hz)
      have hmx : 0 < mx := by linarith
      exact toDouble_mem c0 c1 (div_nonneg hd.le hmx.le) ((div_le_one hmx).2 hdx)
  · constructor <;> linarith

/-- Witness for C25: the colour `(255, 0, 1)`, whose HSV hue is 0. -/
theorem rgbToHsv_range_witness :
    (⟨255, 0, 1⟩ : Rgb).InRange ∧
    ((0 ≤ (rgbToHsv 255 0 1).1 ∧ (rgbToHsv 255 0 1).1 < 360) ∧
     (0 ≤ (rgbToHsv 255 0 1).2.1 ∧ (rgbToHsv 255 0 1).2.1 ≤ 1) ∧
     (0 ≤ (rgbToHsv 255 0 1).2.2 ∧ (rgbToHsv 255 0 1).2.2 ≤ 1)) :=
  ⟨by decide, rgbToHsv_range ⟨255, 0, 1⟩ (by decide)⟩

/-! ### Hue rotations -/

/-- For `p ≤ q`, `hue2rgb(p, q, t)` lies between `p` and `q`. -/
theorem hue2rgb_mem (p q t : ℚ) (hpq : p ≤ q) (ht0 : -1 ≤ t) (ht1 : t ≤ 2) :
    p ≤ hue2rgb p q t ∧ hue2rgb p q t ≤ q := by
  have key : ∀ u : ℚ, 0 ≤ u → u ≤ 1 → p ≤ hue2rgb p q u ∧ hue2rgb p q u ≤ q := by
    intro u hu0 hu1
    rw [hue2rgb_unit p q u hu0 hu1]
    have hd : 0 ≤ q - p := by linarith
    split_ifs with h1 h2 h3
    · constructor
      · nlinarith [mul_nonneg hd hu0]
      · nlinarith [mul_nonneg hd (by linarith : (0 : ℚ) ≤ 1 / 6 - u)]
    · exact ⟨hpq, le_rfl⟩
    · constructor
      · nlinarith [mul_nonneg hd (by linarith : (0 : ℚ) ≤ 2 / 3 - u)]
      · nlinarith [mul_nonneg hd (by linarith : (0 : ℚ) ≤ u - 1 / 2)]
    · exact ⟨le_rfl, hpq⟩
  rcases lt_or_le t 0 with h | h
  · rw [hue2rgb_below p q t h ht0]
    exact key (t + 1) (by linarith) (by linarith)
  · rcases le_or_lt t 1 with h' | h'
    · exact key t h h'
    · rw [hue2rgb_above p q t h' ht1]
      exact key (t - 1) (by linarith) (by linarith)

/-- With the saturation and lightness of an in-range colour and any hue in
`[0, 360]`, `hslToRgb` returns channels in `[0, 255]`. -/
theorem hslToRgb_rgbToHsl_inRange (R G B : Int) (c : Rgb.InRange ⟨R, G, B⟩) (hue : ℚ)
    (h0 : 0 ≤ hue) (h1 : hue ≤ 360) :
    (hslToRgb hue (rgbToHsl R G B).2.1 (rgbToHsl R G B).2.2).InRange := by
  obtain ⟨⟨hR0, hR1⟩, ⟨hG0, hG1⟩, ⟨hB0, hB1⟩⟩ := c
  simp only at hR0 hR1 hG0 hG1 hB0 hB1
  have hp : (0 : ℚ) < 255 := by norm_num
  have r0 : (0 : ℚ) ≤ (R : ℚ) / 255 := div_nonneg (by exact_mod_cast hR0) hp.le
  have r1 : (R : ℚ) / 255 ≤ 1 := (div_le_one hp).2 (by exact_mod_cast hR1)
  have g0 : (0 : ℚ) ≤ (G : ℚ) / 255 := div_nonneg (by exact_mod_cast hG0) hp.le
  have g1 : (G : ℚ) / 255 ≤ 1 := (div_le_one hp).2 (by exact_mod_cast hG1)
  have b0 : (0 : ℚ) ≤ (B : ℚ) / 255 := div_nonneg (by exact_mod_cast hB0) hp.le
  have b1 : (B : ℚ) / 255 ≤ 1 := (div_le_one hp).2 (by exact_mod_cast hB1)
  unfold rgbToHsl
  simp only
  generalize (R : ℚ) / 255 = r at r0 r1 ⊢
  generalize (G : ℚ) / 255 = g at g0 g1 ⊢
  generalize (B : ℚ) / 255 = b at b0 b1 ⊢
  have hxr : r ≤ max (max r g) b := le_trans (le_max_left _ _) (le_max_left _ _)
  have hnr : min (min r g) b ≤ r := le_trans (min_le_left _ _) (min_le_left _ _)
  have hx1 : max (max r g) b ≤ 1 := max_le (max_le r1 g1) b1
  have hn0 : 0 ≤ min (min r g) b := le_min (le_min r0 g0) b0
  generalize max (max r g) b = mx at hxr hx1 ⊢
  generalize min (min r g) b = mn at hnr hn0 ⊢
  have hle : mn ≤ mx := le_trans hnr hxr
  have hround : ∀ x : ℚ, 0 ≤ x → x ≤ 1 → 0 ≤ jsRound (x * 255) ∧ jsRound (x * 255) ≤ 255 :=
    fun x hx0 hx1 => jsRound_mem_of_mem (by push_cast; nlinarith) (by push_cast; nlinarith)
  by_cases hmm : mx = mn
  · rw [if_pos hmm]
    simp only
    unfold hslToRgb
    simp only [if_true]
    have hl := hround ((mx + mn) / 2) (by linarith) (by linarith)
    exact ⟨hl, hl, hl⟩
  · rw [if_neg hmm]
    simp only
    have hlt : mn < mx := lt_of_le_of_ne hle (Ne.symm hmm)
    rw [hslToRgb_of_extremes mx mn hue hn0 hlt hx1]
    have hq0 : 0 ≤ hue / 360 := div_nonneg h0 (by norm_num)
    have hq1 : hue / 360 ≤ 1 := (div_le_one (by norm_num)).2 h1
    have m1 := hue2rgb_mem mn mx (hue / 360 + 1 / 3) hle (by linarith) (by linarith)
    have m2 := hue2rgb_mem mn mx (hue / 360) hle (by linarith) (by linarith)
    have m3 := hue2rgb_mem mn mx (hue / 360 - 1 / 3) hle (by linarith) (by linarith)
    exact ⟨hround _ (by linarith [m1.1]) (by linarith [m1.2]),
      hround _ (by linarith [m2.1]) (by linarith [m2.2]),
      hround _ (by linarith [m3.1]) (by linarith [m3.2])⟩

theorem tmod_360_eq (a : Int) (ha : 0 ≤ a) : Int.tmod a 360 = a % 360 :=
  Int.tmod_eq_emod ha (by decide)

theorem tmod_360_mem (a : Int) (ha : 0 ≤ a) :
    (0 : ℚ) ≤ ((Int.tmod a 360 : Int) : ℚ) ∧ ((Int.tmod a 360 : Int) : ℚ) ≤ 360 := by
  rw [tmod_360_eq a ha]
  have h1 : 0 ≤ a % 360 := Int.emod_nonneg a (by decide)
  have h2 : a % 360 < 360 := Int.emod_lt_of_pos a (by decide)
  constructor
  · exact_mod_cast h1
  · exact_mod_cast h2.le

/-- C21. For every RGB triple with channels in `[0, 255]`, `getAnalogous`
returns exactly 2 colours (hue `+30` and `-30` degrees), `getTriad` exactly 2
(`+120`, `+240`) and `getTetradic` exactly 3 (`+90`, `+180`, `+270`), each
computed by `hslToRgb` at the rotated hue reduced modulo 360 with the
saturation and lightness of the base colour, and each with channels in
`[0, 255]`. -/
theorem harmony_rotations (c : Rgb) (hc : c.InRange) :
    getAnalogous c =
      [hslToRgb ((((rgbToHsl c.r c.g c.b).1 + 30) % 360 : Int) : ℚ)
          (rgbToHsl c.r c.g c.b).2.1 (rgbToHsl c.r c.g c.b).2.2,
       hslToRgb ((((rgbToHsl c.r c.g c.b).1 - 30) % 360 : Int) : ℚ)
          (rgbToHsl c.r c.g c.b).2.1 (rgbToHsl c.r c.g c.b).2.2] ∧
    getTriad c =
      [hslToRgb ((((rgbToHsl c.r c.g c.b).1 + 120) % 360 : Int) : ℚ)
          (rgbToHsl c.r c.g c.b).2.1 (rgbToHsl c.r c.g c.b).2.2,
       hslToRgb ((((rgbToHsl c.r c.g c.b).1 + 240) % 360 : Int) : ℚ)
          (rgbToHsl c.r c.g c.b).2.1 (rgbToHsl c.r c.g c.b).2.2] ∧
    getTetradic c =
      [hslToRgb ((((rgbToHsl c.r c.g c.b).1 + 90) % 360 : Int) : ℚ)
          (rgbToHsl c.r c.g c.b).2.1 (rgbToHsl c.r c.g c.b).2.2,
       hslToRgb ((((rgbToHsl c.r c.g c.b).1 + 180) % 360 : Int) : ℚ)
          (rgbToHsl c.r c.g c.b).2.1 (rgbToHsl c.r c.g c.b).2.2,
       hslToRgb ((((rgbToHsl c.r c.g c.b).1 + 270) % 360 : Int) : ℚ)
          (rgbToHsl c.r c.g c.b).2.1 (rgbToHsl c.r c.g c.b).2.2] ∧
    (∀ x ∈ getAnalogous c ++ getTriad c ++ getTetradic c, x.InRange) := by
  obtain ⟨R, G, B⟩ := c
  have hh : 0 ≤ (rgbToHsl R G B).1 := (rgbToHsl_range_scaled R G B hc).1.1
  have e : ∀ k : Int, 0 ≤ k → Int.tmod ((rgbToHsl R G B).1 + k) 360
      = ((rgbToHsl R G B).1 + k) % 360 := fun k hk => tmod_360_eq _ (by omega)
  have em : Int.tmod ((rgbToHsl R G B).1 - 30 + 360) 360 = ((rgbToHsl R G B).1 - 30) % 360 := by
    rw [tmod_360_eq _ (by omega), Int.add_emod_self]
  have rng : ∀ a : Int, 0 ≤ a →
      (hslToRgb ((Int.tmod a 360 : Int) : ℚ) (rgbToHsl R G B).2.1 (rgbToHsl R G B).2.2).InRange :=
    fun a ha => hslToRgb_rgbToHsl_inRange R G B hc _ (tmod_360_mem a ha).1 (tmod_360_mem a ha).2
  refine ⟨?_, ?_, ?_, ?_⟩
  · simp only [getAnalogous]
    rw [e 30 (by decide), em]
  · simp only [getTriad]
    rw [e 120 (by decide), e 240 (by decide)]
  · simp only [getTetradic]
    rw [e 90 (by decide), e 180 (by decide), e 270 (by decide)]
  · intro x hx
    simp only [getAnalogous, getTriad, getTetradic, List.cons_append, List.nil_append,
      List.mem_cons, List.mem_singleton, List.not_mem_nil, or_false] at hx
    rcases hx with rfl | rfl | rfl | rfl | rfl | rfl | rfl
    · exact rng _ (by omega)
    · exact rng _ (by omega)
    · exact rng _ (by omega)
    · exact rng _ (by omega)
    · exact rng _ (by omega)
    · exact rng _ (by omega)
    · exact rng _ (by omega)

/-- Witness for C21: the blue `(52, 152, 219)`, with hue 204. No channel of
its seven harmony colours lies near a rounding tie. -/
theorem harmony_rotations_witness :
    (⟨52, 152, 219⟩ : Rgb).InRange ∧
    getAnalogous ⟨52, 152, 219⟩ = [⟨52, 69, 219⟩, ⟨52, 219, 202⟩] ∧
    getTriad ⟨52, 152, 219⟩ = [⟨219, 52, 152⟩, ⟨152, 219, 52⟩] ∧
    getTetradic ⟨52, 152, 219⟩ = [⟨202, 52, 219⟩, ⟨219, 119, 52⟩, ⟨69, 219, 52⟩] ∧
    (∀ x ∈ getAnalogous ⟨52, 152, 219⟩ ++ getTriad ⟨52, 152, 219⟩ ++ getTetradic ⟨52, 152, 219⟩,
      x.InRange) :=
  ⟨by decide, by decide!, by decide!, by decide!,
    (harmony_rotations ⟨52, 152, 219⟩ (by decide)).2.2.2⟩

/-! ### Entries and shares of `generateSimpleColorData` -/

/-- C26. `generateSimpleColorData` returns exactly one entry for each input
colour, carrying that colour's `rgbToHex` string, ordered by non-increasing
percentage; for the input `(255,0,0)`, `(0,255,0)`, `(0,0,255)` the hexes
`#FF0000`, `#00FF00` and `#0000FF` are each present. -/
theorem generateSimpleColorData_entries (colorblindMode : Bool) (rand : Nat → ℚ)
    (colors : List Rgb) :
    (generateSimpleColorData colorblindMode rand colors).length = colors.length ∧
    ((generateSimpleColorData colorblindMode rand colors).map (fun e => (e.rgb, e.hex))).Perm
      (colors.map (fun c => (c, rgbToHex c.r c.g c.b))) ∧
    (generateSimpleColorData colorblindMode rand colors).Pairwise
      (fun a b => b.percentage ≤ a.percentage) ∧
    ("#FF0000" ∈ (generateSimpleColorData colorblindMode rand
        [⟨255, 0, 0⟩, ⟨0, 255, 0⟩, ⟨0, 0, 255⟩]).map (fun e => e.hex) ∧
     "#00FF00" ∈ (generateSimpleColorData colorblindMode rand
        [⟨255, 0, 0⟩, ⟨0, 255, 0⟩, ⟨0, 0, 255⟩]).map (fun e => e.hex) ∧
     "#0000FF" ∈ (generateSimpleColorData colorblindMode rand
        [⟨255, 0, 0⟩, ⟨0, 255, 0⟩, ⟨0, 0, 255⟩]).map (fun e => e.hex)) := by
  have hperm : ∀ cs : List Rgb,
      ((generateSimpleColorData colorblindMode rand cs).map (fun e => (e.rgb, e.hex))).Perm
        (cs.map (fun c => (c, rgbToHex c.r c.g c.b))) := by
    intro cs
    unfold generateSimpleColorData
    refine ((List.perm_insertionSort _ _).map _).trans ?_
    rw [List.map_map]
    have h := congrArg (List.map (fun c : Rgb => (c, rgbToHex c.r c.g c.b)))
      (simpleShares_map_fst rand cs.length cs 0 100)
    rw [List.map_map] at h
    rw [← h]
    exact List.Perm.refl _
  refine ⟨?_, hperm colors, ?_, ?_⟩
  · have := (hperm colors).length_eq
    simpa using this
  · haveI : IsTotal PaletteEntry (fun a b => b.percentage ≤ a.percentage) :=
      ⟨fun a b => le_total b.percentage a.percentage⟩
    haveI : IsTrans PaletteEntry (fun a b => b.percentage ≤ a.percentage) :=
      ⟨fun _ _ _ hab hbc => le_trans hbc hab⟩
    unfold generateSimpleColorData
    exact List.sorted_insertionSort (fun (a b : PaletteEntry) => b.percentage ≤ a.percentage) _
  · have h3 := ((hperm [⟨255, 0, 0⟩, ⟨0, 255, 0⟩, ⟨0, 0, 255⟩]).map Prod.snd)
    rw [List.map_map, List.map_map] at h3
    have hx : (List.map (Prod.snd ∘ fun c : Rgb => (c, rgbToHex c.r c.g c.b))
        [⟨255, 0, 0⟩, ⟨0, 255, 0⟩, ⟨0, 0, 255⟩]) = ["#FF0000", "#00FF00", "#0000FF"] := by
      decide
    rw [hx] at h3
    have hm : ∀ s, s ∈ ["#FF0000", "#00FF00", "#0000FF"] →
        s ∈ (generateSimpleColorData colorblindMode rand
          [⟨255, 0, 0⟩, ⟨0, 255, 0⟩, ⟨0, 0, 255⟩]).map (fun e => e.hex) :=
      fun s hs => h3.mem_iff.2 hs
    exact ⟨hm _ (by simp), hm _ (by simp), hm _ (by simp)⟩

/-- Invariant of the share computation: while at least `5` per remaining
colour and at most 100 is left, every share is between 5 and 100. -/
theorem simpleShares_bounds (rand : Nat → ℚ) (hrand : ∀ i, 0 ≤ rand i ∧ rand i < 1)
    (length : Nat) (colors : List Rgb) (index : Nat) (rem : ℚ)
    (hlen : index + colors.length = length) (hlo : 5 * (colors.length : ℚ) ≤ rem)
    (hhi : rem ≤ 100) :
    ∀ cp ∈ simpleShares rand length index rem colors, 5 ≤ cp.2 ∧ cp.2 ≤ 100 := by
  induction colors generalizing index rem with
  | nil => intro cp hcp; simp [simpleShares] at hcp
  | cons c rest ih =>
    intro cp hcp
    simp only [List.length_cons, Nat.cast_add, Nat.cast_one] at hlen hlo
    rw [simpleShares, List.mem_cons] at hcp
    have hrest0 : (0 : ℚ) ≤ (rest.length : ℚ) := Nat.cast_nonneg _
    by_cases hidx : index = length - 1
    · have hr : rest = [] := List.eq_nil_of_length_eq_zero (by omega)
      subst hr
      rcases hcp with rfl | hcp
      · simp only [hidx, if_true]
        simp only [List.length_nil, Nat.cast_zero] at hlo
        constructor <;> linarith
      · simp [simpleShares] at hcp
    · have hm : (length : ℚ) - (index : ℚ) = (rest.length : ℚ) + 1 := by
        have : length = index + (rest.length + 1) := by omega
        rw [this]
        push_cast
        ring
      have hmpos : (0 : ℚ) < (rest.length : ℚ) + 1 := by linarith
      have hq5 : 5 ≤ rem / ((rest.length : ℚ) + 1) := by
        rw [le_div_iff₀ hmpos]; linarith
      have hqle : rem / ((rest.length : ℚ) + 1) ≤ rem := by
        rw [div_le_iff₀ hmpos]; nlinarith
      have hu := hrand index
      have hle : rand index * (rem / ((rest.length : ℚ) + 1)) ≤ rem / ((rest.length : ℚ) + 1) := by
        nlinarith [hu.1, hu.2]
      have hp5 : 5 ≤ max 5 (rand index * (rem / ((rest.length : ℚ) + 1))) := le_max_left _ _
      have hpq : max 5 (rand index * (rem / ((rest.length : ℚ) + 1)))
          ≤ rem / ((rest.length : ℚ) + 1) := max_le hq5 hle
      simp only [hidx, if_false, hm] at hcp
      rcases hcp with rfl | hcp
      · simp only
        constructor <;> linarith
      · refine ih (index + 1) _ (by omega) ?_ (by linarith) cp hcp
        have hmul : rem / ((rest.length : ℚ) + 1) * ((rest.length : ℚ) + 1) = rem :=
          div_mul_cancel₀ _ (ne_of_gt hmpos)
        nlinarith
/-- C30. For at most 20 colours (in particular for 1 to 20) and draws in `[0, 1)`, every share assigned by
`generateSimpleColorData`, the last entry's remainder included, is at least 5
and at most 100 before rounding; so is every returned percentage, and none is
negative. -/
theorem generateSimpleColorData_shares (colorblindMode : Bool) (rand : Nat → ℚ)
    (colors : List Rgb) (h20 : colors.length ≤ 20)
    (hrand : ∀ i, 0 ≤ rand i ∧ rand i < 1) :
    (∀ cp ∈ simpleShares rand colors.length 0 100 colors, 5 ≤ cp.2 ∧ cp.2 ≤ 100) ∧
    (∀ e ∈ generateSimpleColorData colorblindMode rand colors,
      5 ≤ e.percentage ∧ e.percentage ≤ 100) := by
  have hshares := simpleShares_bounds rand hrand colors.length colors 0 100 (by omega)
    (by
      have : (colors.length : ℚ) ≤ 20 := by exact_mod_cast h20
      linarith)
    le_rfl
  refine ⟨hshares, fun e he => ?_⟩
  unfold generateSimpleColorData at he
  rw [(List.perm_insertionSort _ _).mem_iff, List.mem_map] at he
  obtain ⟨cp, hcp, rfl⟩ := he
  have hb := hshares cp hcp
  have hr := @jsRound_mem_of_mem (cp.2 * 10) 50 1000
    (by push_cast; linarith [hb.1]) (by push_cast; linarith [hb.2])
  have h50 : ((50 : Int) : ℚ) ≤ (jsRound (cp.2 * 10) : ℚ) := by exact_mod_cast hr.1
  have h1000 : (jsRound (cp.2 * 10) : ℚ) ≤ ((1000 : Int) : ℚ) := by exact_mod_cast hr.2
  push_cast at h50 h1000
  simp only
  constructor <;> linarith

/-- Witness for C30: three colours, every draw `1/2`. -/
theorem generateSimpleColorData_shares_witness :
    ([(⟨255, 0, 0⟩ : Rgb), ⟨0, 255, 0⟩, ⟨0, 0, 255⟩].length ≤ 20 ∧
      (∀ i : Nat, (0 : ℚ) ≤ (fun _ => 1 / 2 : Nat → ℚ) i ∧ (fun _ => 1 / 2 : Nat → ℚ) i < 1)) ∧
    ((∀ cp ∈ simpleShares (fun _ => 1 / 2) [(⟨255, 0, 0⟩ : Rgb), ⟨0, 255, 0⟩, ⟨0, 0, 255⟩].length
        0 100 [(⟨255, 0, 0⟩ : Rgb), ⟨0, 255, 0⟩, ⟨0, 0, 255⟩], 5 ≤ cp.2 ∧ cp.2 ≤ 100) ∧
     (∀ e ∈ generateSimpleColorData true (fun _ => 1 / 2)
        [(⟨255, 0, 0⟩ : Rgb), ⟨0, 255, 0⟩, ⟨0, 0, 255⟩], 5 ≤ e.percentage ∧ e.percentage ≤ 100)) :=
  ⟨⟨by decide, fun _ => by norm_num⟩,
    generateSimpleColorData_shares true (fun _ => 1 / 2) _ (by decide) (fun _ => by norm_num)⟩

theorem toDigits16_seven (n : Nat) (h1 : 16 ^ 6 ≤ n) (h2 : n < 16 ^ 7) :
    Nat.toDigits 16 n =
      [Nat.digitChar (n / 16 ^ 6 % 16), Nat.digitChar (n / 16 ^ 5 % 16),
       Nat.digitChar (n / 16 ^ 4 % 16), Nat.digitChar (n / 16 ^ 3 % 16),
       Nat.digitChar (n / 16 ^ 2 % 16), Nat.digitChar (n / 16 % 16),
       Nat.digitChar (n % 16)] := by
  obtain ⟨k, rfl⟩ : ∃ k, n = k + 6 := ⟨n - 6, by omega⟩
  unfold Nat.toDigits
  simp only [Nat.toDigitsCore]
  norm_num at h1 h2
  rw [if_neg (by omega), if_neg (by omega), if_neg (by omega), if_neg (by omega),
    if_neg (by omega), if_neg (by omega), if_pos (by omega)]
  simp only [Nat.div_div_eq_div_mul]
  norm_num

theorem digitChar_toUpper (d : Nat) (hd : d < 16) :
    (Nat.digitChar d).toUpper = upperHexDigit d := by
  interval_cases d <;> rfl

theorem hexDigitValue_upperHexDigit (d : Nat) (hd : d < 16) :
    hexDigitValue (upperHexDigit d) = some d := by
  interval_cases d <;> rfl

/-- Expansion of `rgbToHex` on channels given as natural numbers below 256. -/
theorem rgbToHex_nat (r g b : Nat) (hr : r < 256) (hg : g < 256) (hb : b < 256) :
    rgbToHex (r : Int) (g : Int) (b : Int) =
      String.mk ['#', upperHexDigit (r / 16), upperHexDigit (r % 16),
        upperHexDigit (g / 16), upperHexDigit (g % 16),
        upperHexDigit (b / 16), upperHexDigit (b % 16)] := by
  unfold rgbToHex
  have hn : ((2 : Int) ^ 24 + (r : Int) * 2 ^ 16 + (g : Int) * 2 ^ 8 + (b : Int)).toNat
      = 2 ^ 24 + r * 2 ^ 16 + g * 2 ^ 8 + b := by
    have : ((2 : Int) ^ 24 + (r : Int) * 2 ^ 16 + (g : Int) * 2 ^ 8 + (b : Int))
        = ((2 ^ 24 + r * 2 ^ 16 + g * 2 ^ 8 + b : Nat) : Int) := by push_cast; ring
    rw [this, Int.toNat_ofNat]
  simp only [hn]
  rw [toDigits16_seven _ (by norm_num; omega) (by norm_num; omega)]
  have d1 : (2 ^ 24 + r * 2 ^ 16 + g * 2 ^ 8 + b) / 16 ^ 5 % 16 = r / 16 := by
    norm_num; omega
  have d2 : (2 ^ 24 + r * 2 ^ 16 + g * 2 ^ 8 + b) / 16 ^ 4 % 16 = r % 16 := by
    norm_num; omega
  have d3 : (2 ^ 24 + r * 2 ^ 16 + g * 2 ^ 8 + b) / 16 ^ 3 % 16 = g / 16 := by
    norm_num; omega
  have d4 : (2 ^ 24 + r * 2 ^ 16 + g * 2 ^ 8 + b) / 16 ^ 2 % 16 = g % 16 := by
    norm_num; omega
  have d5 : (2 ^ 24 + r * 2 ^ 16 + g * 2 ^ 8 + b) / 16 % 16 = b / 16 := by
    norm_num; omega
  have d6 : (2 ^ 24 + r * 2 ^ 16 + g * 2 ^ 8 + b) % 16 = b % 16 := by
    norm_num; omega
  rw [d1, d2, d3, d4, d5, d6]
  simp only [List.drop_succ_cons, List.drop_zero, List.map_cons, List.map_nil]
  rw [digitChar_toUpper _ (by omega), digitChar_toUpper _ (by omega),
    digitChar_toUpper _ (by omega), digitChar_toUpper _ (by omega),
    digitChar_toUpper _ (by omega), digitChar_toUpper _ (by omega)]
  rfl

/-! ### Hex strings -/

/-- C27. For integers `r`, `g`, `b` in `[0, 255]`, `rgbToHex(r, g, b)` is `#`
followed by exactly six uppercase hexadecimal digits, two per channel in the
order `r`, `g`, `b`, each channel zero-padded. -/
theorem rgbToHex_format (r g b : Int) (hr : 0 ≤ r ∧ r ≤ 255) (hg : 0 ≤ g ∧ g ≤ 255)
    (hb : 0 ≤ b ∧ b ≤ 255) :
    rgbToHex r g b =
      String.mk ['#', upperHexDigit (r.toNat / 16), upperHexDigit (r.toNat % 16),
        upperHexDigit (g.toNat / 16), upperHexDigit (g.toNat % 16),
        upperHexDigit (b.toNat / 16), upperHexDigit (b.toNat % 16)] ∧
    (rgbToHex r g b).length = 7 := by
  obtain ⟨r', rfl⟩ := Int.eq_ofNat_of_zero_le hr.1
  obtain ⟨g', rfl⟩ := Int.eq_ofNat_of_zero_le hg.1
  obtain ⟨b', rfl⟩ := Int.eq_ofNat_of_zero_le hb.1
  have h := rgbToHex_nat r' g' b' (by omega) (by omega) (by omega)
  simp only [Int.toNat_ofNat]
  exact ⟨h, by rw [h]; rfl⟩

/-- Witness for C27: `rgbToHex(255, 10, 0)` is `#FF0A00`. -/
theorem rgbToHex_format_witness :
    ((0 : Int) ≤ 255 ∧ (255 : Int) ≤ 255) ∧ ((0 : Int) ≤ 10 ∧ (10 : Int) ≤ 255) ∧
    ((0 : Int) ≤ 0 ∧ (0 : Int) ≤ 255) ∧
    rgbToHex 255 10 0 = "#FF0A00" ∧
    (rgbToHex 255 10 0 =
      String.mk ['#', upperHexDigit ((255 : Int).toNat / 16), upperHexDigit ((255 : Int).toNat % 16),
        upperHexDigit ((10 : Int).toNat / 16), upperHexDigit ((10 : Int).toNat % 16),
        upperHexDigit ((0 : Int).toNat / 16), upperHexDigit ((0 : Int).toNat % 16)] ∧
      (rgbToHex 255 10 0).length = 7) :=
  ⟨by decide, by decide, by decide, by decide,
    rgbToHex_format 255 10 0 (by decide) (by decide) (by decide)⟩

theorem hexToRgb_rgbToHex_nat (r g b : Nat) (hr : r < 256) (hg : g < 256) (hb : b < 256) :
    hexToRgb (rgbToHex (r : Int) (g : Int) (b : Int)) = some ⟨r, g, b⟩ := by
  rw [rgbToHex_nat r g b hr hg hb]
  unfold hexToRgb
  simp only [String.toList, hexDigitValue_upperHexDigit _ (Nat.div_lt_of_lt_mul (by omega : r < 16 * 16)),
    hexDigitValue_upperHexDigit _ (Nat.mod_lt r (by decide)),
    hexDigitValue_upperHexDigit _ (Nat.div_lt_of_lt_mul (by omega : g < 16 * 16)),
    hexDigitValue_upperHexDigit _ (Nat.mod_lt g (by decide)),
    hexDigitValue_upperHexDigit _ (Nat.div_lt_of_lt_mul (by omega : b < 16 * 16)),
    hexDigitValue_upperHexDigit _ (Nat.mod_lt b (by decide))]
  have e1 : 16 * (r / 16) + r % 16 = r := Nat.div_add_mod r 16
  have e2 : 16 * (g / 16) + g % 16 = g := Nat.div_add_mod g 16
  have e3 : 16 * (b / 16) + b % 16 = b := Nat.div_add_mod b 16
  simp only [e1, e2, e3]

/-- C28. For integers `r`, `g`, `b` in `[0, 255]`,
`getContrastColor(rgbToHex(r, g, b))` is `#000000` when
`0.299 r + 0.587 g + 0.114 b > 128` and `#ffffff` otherwise. -/
theorem getContrastColor_rgbToHex (r g b : Int) (hr : 0 ≤ r ∧ r ≤ 255) (hg : 0 ≤ g ∧ g ≤ 255)
    (hb : 0 ≤ b ∧ b ≤ 255) :
    getContrastColor (rgbToHex r g b) =
      some (if (299 / 1000 : ℚ) * r + 587 / 1000 * g + 114 / 1000 * b > 128 then "#000000"
        else "#ffffff") := by
  obtain ⟨r', rfl⟩ := Int.eq_ofNat_of_zero_le hr.1
  obtain ⟨g', rfl⟩ := Int.eq_ofNat_of_zero_le hg.1
  obtain ⟨b', rfl⟩ := Int.eq_ofNat_of_zero_le hb.1
  unfold getContrastColor
  rw [hexToRgb_rgbToHex_nat r' g' b' (by omega) (by omega) (by omega)]
  simp only
  congr 1
  have e : (((r' : Int) * 299 + (g' : Int) * 587 + (b' : Int) * 114 : Int) : ℚ) / 1000 =
      (299 / 1000 : ℚ) * ((r' : Int) : ℚ) + 587 / 1000 * ((g' : Int) : ℚ)
        + 114 / 1000 * ((b' : Int) : ℚ) := by
    push_cast
    ring
  rw [e]

/-- Witness for C28: a light yellow gets black text, a dark blue white text. -/
theorem getContrastColor_rgbToHex_witness :
    ((0 : Int) ≤ 200 ∧ (200 : Int) ≤ 255) ∧ ((0 : Int) ≤ 200 ∧ (200 : Int) ≤ 255) ∧
    ((0 : Int) ≤ 10 ∧ (10 : Int) ≤ 255) ∧
    getContrastColor (rgbToHex 0 0 120) = some "#ffffff" ∧
    getContrastColor (rgbToHex 200 200 10) =
      some (if (299 / 1000 : ℚ) * (200 : Int) + 587 / 1000 * (200 : Int)
          + 114 / 1000 * (10 : Int) > 128 then "#000000" else "#ffffff") :=
  ⟨by decide, by decide, by decide, by decide!,
    getContrastColor_rgbToHex 200 200 10 (by decide) (by decide) (by decide)⟩

/-! ### Harmony sets -/

theorem flatMap_map_length {α β γ : Type} (g : β → α → γ) (ts : List β) (bs : List α) :
    (bs.flatMap (fun b => ts.map (fun t => g t b))).length = ts.length * bs.length := by
  induction bs with
  | nil => simp
  | cons b bs ih =>
    simp only [List.flatMap_cons, List.length_append, List.length_map, ih, List.length_cons]
    ring

/-- The container of base `i` and kind `k` sits at position
`i * (number of kinds) + k`. -/
theorem flatMap_map_getElem? {α β γ : Type} (g : β → α → γ) (ts : List β) (bs : List α)
    (i k : Nat) (hk : k < ts.length) :
    (bs.flatMap (fun b => ts.map (fun t => g t b)))[i * ts.length + k]? =
      (bs[i]?).bind (fun b => (ts[k]?).map (fun t => g t b)) := by
  induction bs generalizing i with
  | nil => simp
  | cons b bs ih =>
    rw [List.flatMap_cons]
    cases i with
    | zero =>
      rw [Nat.zero_mul, Nat.zero_add, List.getElem?_append_left (by simpa using hk)]
      simp
    | succ i =>
      rw [List.getElem?_append_right (by
        rw [List.length_map, Nat.succ_mul]
        omega)]
      rw [List.length_map, show (i + 1) * ts.length + k - ts.length = i * ts.length + k by
        rw [Nat.succ_mul]; omega]
      rw [ih i]
      simp

/-- C23, counterexample. A set whose generation fails is not omitted: with a
first kind whose generator throws and a second that returns, one palette entry
gets two containers, the first with its title and without colours. -/
theorem displayHarmonyColors_failure_counterexample :
    displayHarmonyColorsWith
        [⟨"failing", "x", fun _ => .error "TypeError"⟩,
         ⟨"complementary", "o", fun c => .ok (getComplementary c)⟩]
        [⟨⟨255, 0, 0⟩, "#FF0000", 100, calculateAccessibility false ⟨255, 0, 0⟩⟩] =
      [⟨"x failing - #FF0000", []⟩, ⟨"o complementary - #FF0000", ["#00FFFF"]⟩] := by
  decide

/-- C23, amended. Harmony generation appends one container for each of the
first `min(3, n)` palette entries and each of the 5 harmony kinds, at most 15.
With generators that may throw, the number of containers is the same; the
container of base `i` and kind `k` is built from that base and that generator
alone; a generator that throws leaves its own container in place, without
colours, and one that returns leaves the hex strings of its colours. -/
theorem displayHarmonyColors_sets (types : List HarmonyType)
    (currentColors : List PaletteEntry) :
    (displayHarmonyColors currentColors).length = 5 * min 3 currentColors.length ∧
    (displayHarmonyColors currentColors).length ≤ 15 ∧
    (displayHarmonyColorsWith types currentColors).length =
      types.length * min 3 currentColors.length ∧
    (∀ i k, i < 3 → k < types.length →
      (displayHarmonyColorsWith types currentColors)[i * types.length + k]? =
        (currentColors[i]?).bind (fun base =>
          (types[k]?).map (fun type => harmonyContainer type base))) ∧
    (∀ (type : HarmonyType) (base : PaletteEntry) (msg : String),
      type.fn base.rgb = .error msg → (harmonyContainer type base).colors = []) ∧
    (∀ (type : HarmonyType) (base : PaletteEntry) (harmonyColors : List Rgb),
      type.fn base.rgb = .ok harmonyColors →
        (harmonyContainer type base).colors =
          harmonyColors.map (fun c => rgbToHex c.r c.g c.b)) := by
  have hlen : ∀ ts : List HarmonyType, (displayHarmonyColorsWith ts currentColors).length =
      ts.length * min 3 currentColors.length := by
    intro ts
    unfold displayHarmonyColorsWith
    rw [flatMap_map_length (fun t b => harmonyContainer t b), List.length_take]
  have h5 : (displayHarmonyColors currentColors).length = 5 * min 3 currentColors.length :=
    hlen harmonyTypes
  refine ⟨h5, ?_, hlen types, ?_, ?_, ?_⟩
  · rw [h5]
    have := min_le_left 3 currentColors.length
    omega
  · intro i k hi hk
    unfold displayHarmonyColorsWith
    rw [flatMap_map_getElem? (fun t b => harmonyContainer t b) types _ i k hk,
      List.getElem?_take_of_lt hi]
  · intro type base msg h
    simp only [harmonyContainer, h]
  · intro type base harmonyColors h
    simp only [harmonyContainer, h]

end ColorfulPro
